import Mathlib

/-!
# Force-directed graph layout: embedding of `force_directed_graph.cpp`

The C++ program keeps every `Node` on the heap and refers to it by pointer.  The
embedding makes the heap explicit (`Heap`) and threads the wall clock read by
`Time::GetDelta` as a sequence of readings (`Clock`).

The type `float` is a parameter `K` of every definition, together with its operations,
its square root `sqrt` and, in the loader, the conversion `strtof` of a numeric field.
The definitions are the program's own operations in the program's own order, so they
say nothing about the arithmetic.  Two arithmetics are used below:

* `Binary32`, the IEEE 754 binary32 format with round-to-nearest, ties to even, with
  infinities and NaN, `Binary32.sqrt` and `Binary32.strtof`: the arithmetic the program
  runs in.  Every value is computed by evaluation.
* exact arithmetic, a linearly ordered field with a square root (`IsSqrt`): the
  arithmetic in which the formulas of the program mean what they say.

A theorem stated for every `K` holds for the program as it runs.  A theorem stated for
a linearly ordered field is about exact arithmetic.
-/

namespace ForceDirectedGraph

set_option linter.unusedSectionVars false

set_option linter.unnecessarySeqFocus false

/-! ## binary32, the `float` of the program -/

/-- A value of the IEEE 754 binary32 format: a finite number as a multiple of 2^-149
(the value of the least subnormal), an infinity, or a NaN.  The finite values are the
multiples with at most 24 significant bits up to `FLT_MAX`.  The two zeros are not told
apart; the program never divides by zero and never looks at the sign of a zero.  Every
operation is rounded on its own: a product and a sum are not fused. -/
inductive Binary32 where
  | fin (units : Int)
  | inf (negative : Bool)
  | nan
deriving DecidableEq

namespace Binary32

/-- The constant `FLT_MAX`, as a multiple of 2^-149. -/
def MAX_UNITS : Nat := 16777215 * 2 ^ 253

/-- The position of the highest set bit of `n` (zero for `n = 0`), by halving at most
`fuel` times. -/
def log2Fuel : Nat → Nat → Nat
  | 0, _ => 0
  | fuel + 1, n => if n < 2 then 0 else log2Fuel fuel (n / 2) + 1

/-- The position of the highest set bit of `n`, zero for `n = 0`. -/
def log2 (n : Nat) : Nat := log2Fuel n n

/-- The bits of the integer square root of `n` below bit `bit`, found from the top
down, given the bits from `bit` on. -/
def sqrtBits (n : Nat) : Nat → Nat → Nat
  | 0, root => root
  | bit + 1, root =>
    sqrtBits n bit (if (root + 2 ^ bit) * (root + 2 ^ bit) ≤ n then root + 2 ^ bit else root)

/-- The integer square root: the greatest natural number whose square is at most `n`. -/
def sqrtNat (n : Nat) : Nat := sqrtBits n (log2 n / 2 + 1) 0

/-- Rounding to nearest, ties to even, of the non-negative number `p / q`, both in
units of 2^-149: the nearest number with at most 24 significant bits, and the one with
an even last bit when two are nearest. -/
def roundNat (p q : Nat) : Nat :=
  let k := log2 (p / q) - 23
  let d := q * 2 ^ k
  let m := p / d
  let r := p % d
  (if d < 2 * r ∨ (2 * r = d ∧ m % 2 = 1) then m + 1 else m) * 2 ^ k

/-- The binary32 value an operation returns whose exact result is `p / q` units of
2^-149, negated when `negative`: the exact result rounded to nearest, and an infinity
when that is beyond `FLT_MAX`. -/
def round (negative : Bool) (p q : Nat) : Binary32 :=
  if MAX_UNITS < roundNat p q then inf negative
  else fin (if negative then -(roundNat p q : Int) else (roundNat p q : Int))

/-- Rounding to nearest of the square root of `n`, where `n` is in units of 2^-298 and
the result in units of 2^-149. -/
def roundSqrtNat (n : Nat) : Nat :=
  let k := log2 (sqrtNat n) - 23
  let m := sqrtNat (n / 4 ^ k)
  (if (2 * m + 1) * (2 * m + 1) * 4 ^ k < 4 * n then m + 1 else m) * 2 ^ k

/-- The binary32 value nearest to a rational number. -/
def ofRat (q : ℚ) : Binary32 := round (decide (q < 0)) (q.num.natAbs * 2 ^ 149) q.den

/-- The conversion of a decimal literal by the stream library (`strtof`): the literal
rounded to nearest, and for a literal that rounds beyond `FLT_MAX` the value `FLT_MAX`
of its sign together with the failure flag. -/
def strtof (q : ℚ) : Binary32 × Bool :=
  match ofRat q with
  | inf negative => (fin (if negative then -(MAX_UNITS : Int) else (MAX_UNITS : Int)), true)
  | value => (value, false)

/-- The number `mantissa * 2 ^ exponent`, for writing down a binary32 value. -/
def dyadic (mantissa exponent : Int) : Binary32 :=
  fin (if 0 ≤ exponent + 149 then mantissa * 2 ^ (exponent + 149).toNat
    else mantissa / 2 ^ (-(exponent + 149)).toNat)

/-- The exact value of a finite binary32 number (zero for the others). -/
def toRat : Binary32 → ℚ
  | fin a => (a : ℚ) / 2 ^ 149
  | _ => 0

/-- The operator `+` on `float`. -/
def add : Binary32 → Binary32 → Binary32
  | fin a, fin b => round (decide (a + b < 0)) (a + b).natAbs 1
  | fin _, inf t => inf t
  | inf s, fin _ => inf s
  | inf s, inf t => if s = t then inf s else nan
  | _, _ => nan

/-- The unary operator `-` on `float`. -/
def neg : Binary32 → Binary32
  | fin a => fin (-a)
  | inf s => inf (!s)
  | nan => nan

/-- The binary operator `-` on `float`. -/
def sub (a b : Binary32) : Binary32 := add a (neg b)

/-- The operator `*` on `float`. -/
def mul : Binary32 → Binary32 → Binary32
  | fin a, fin b => round (decide (a * b < 0)) (a * b).natAbs (2 ^ 149)
  | fin a, inf t => if a = 0 then nan else inf (xor (decide (a < 0)) t)
  | inf s, fin b => if b = 0 then nan else inf (xor s (decide (b < 0)))
  | inf s, inf t => inf (xor s t)
  | _, _ => nan

/-- The operator `/` on `float`. -/
def div : Binary32 → Binary32 → Binary32
  | fin a, fin b =>
    if b = 0 then (if a = 0 then nan else inf (decide (a < 0)))
    else round (xor (decide (a < 0)) (decide (b < 0))) (a.natAbs * 2 ^ 149) b.natAbs
  | fin _, inf _ => fin 0
  | inf s, fin b => inf (xor s (decide (b < 0)))
  | _, _ => nan

/-- The library function `sqrtf`. -/
def sqrt : Binary32 → Binary32
  | fin a => if a < 0 then nan else fin (roundSqrtNat (a.toNat * 2 ^ 149))
  | inf false => inf false
  | _ => nan

/-- The operator `<` on `float`: false when an operand is a NaN. -/
def lt : Binary32 → Binary32 → Bool
  | fin a, fin b => decide (a < b)
  | fin _, inf t => !t
  | inf s, fin _ => s
  | inf s, inf t => s && !t
  | _, _ => false

/-- The operator `<=` on `float`: false when an operand is a NaN. -/
def le : Binary32 → Binary32 → Bool
  | fin a, fin b => decide (a ≤ b)
  | fin _, inf t => !t
  | inf s, fin _ => s
  | inf s, inf t => s || !t
  | _, _ => false

instance : Add Binary32 := ⟨add⟩

instance : Sub Binary32 := ⟨sub⟩

instance : Neg Binary32 := ⟨neg⟩

instance : Mul Binary32 := ⟨mul⟩

instance : Div Binary32 := ⟨div⟩

instance : LT Binary32 := ⟨fun a b => lt a b = true⟩

instance : LE Binary32 := ⟨fun a b => le a b = true⟩

instance : DecidableRel (fun a b : Binary32 => a < b) :=
  fun a b => inferInstanceAs (Decidable (lt a b = true))

instance : DecidableRel (fun a b : Binary32 => a ≤ b) :=
  fun a b => inferInstanceAs (Decidable (le a b = true))

/-- A literal such as `300.f`. -/
instance (n : Nat) : OfNat Binary32 n := ⟨round false (n * 2 ^ 149) 1⟩

/-- The conversion of an unsigned integer to `float`. -/
instance : NatCast Binary32 := ⟨fun n => round false (n * 2 ^ 149) 1⟩

instance : Zero Binary32 := ⟨round false (0 * 2 ^ 149) 1⟩

instance : One Binary32 := ⟨round false (1 * 2 ^ 149) 1⟩

/-- A decimal literal such as `0.1f`. -/
instance : OfScientific Binary32 :=
  ⟨fun mantissa exponentSign decimalExponent =>
    if exponentSign then round false (mantissa * 2 ^ 149) (10 ^ decimalExponent)
    else round false (mantissa * 10 ^ decimalExponent * 2 ^ 149) 1⟩

end Binary32

/-! ## sf::Vector2f -/

/-- The SFML value type `sf::Vector2f`: a pair of coordinates. -/
structure Vector2f (K : Type) where
  x : K
  y : K
deriving DecidableEq

namespace Vector2f

variable {K : Type} [Add K] [Sub K] [Mul K] [Div K] [Neg K] [Zero K] [One K] [LT K] [LE K]
  [DecidableRel (fun a b : K => a < b)] [DecidableRel (fun a b : K => a ≤ b)]
  [OfNat K (nat_lit 2)] [OfNat K (nat_lit 100)] [OfNat K (nat_lit 200)]
  [OfNat K (nat_lit 300)] [OfNat K (nat_lit 8388608)]

/-- Component-wise sum, `operator+` and `operator+=` of `sf::Vector2f`. -/
def add (a b : Vector2f K) : Vector2f K := ⟨a.x + b.x, a.y + b.y⟩

/-- Component-wise difference, binary `operator-`. -/
def sub (a b : Vector2f K) : Vector2f K := ⟨a.x - b.x, a.y - b.y⟩

/-- Unary `operator-`. -/
def neg (a : Vector2f K) : Vector2f K := ⟨-a.x, -a.y⟩

/-- Scalar times vector, `operator*(float, Vector2f)`. -/
def scale (k : K) (a : Vector2f K) : Vector2f K := ⟨k * a.x, k * a.y⟩

/-- Vector divided by scalar, `operator/(Vector2f, float)`. -/
def div (a : Vector2f K) (k : K) : Vector2f K := ⟨a.x / k, a.y / k⟩

/-- The vector `{ 0.f, 0.f }`. -/
def zero : Vector2f K := ⟨0, 0⟩

instance : Add (Vector2f K) := ⟨add⟩

instance : Sub (Vector2f K) := ⟨sub⟩

instance : Neg (Vector2f K) := ⟨neg⟩

instance : Zero (Vector2f K) := ⟨zero⟩

end Vector2f

section Physics

variable {K : Type} [Add K] [Sub K] [Mul K] [Div K] [Neg K] [Zero K] [One K] [LT K] [LE K]
  [DecidableRel (fun a b : K => a < b)] [DecidableRel (fun a b : K => a ≤ b)]
  [OfNat K (nat_lit 2)] [OfNat K (nat_lit 100)] [OfNat K (nat_lit 200)]
  [OfNat K (nat_lit 300)] [OfNat K (nat_lit 8388608)]

/-- The free function `distance(sf::Vector2f const&, sf::Vector2f const&)`:
`sqrtf` of the squared length of `a - b`. -/
def distance (sqrt : K → K) (a b : Vector2f K) : K :=
  let delta := a - b
  sqrt (delta.x * delta.x + delta.y * delta.y)

/-! ## Node -/

/-- The physical state of a `Node`: the position of its `_view`. -/
structure Node (K : Type) where
  position : Vector2f K
deriving DecidableEq

namespace Node

/-- The member constant `MAX_VELOCITY_MAGNITUDE = 300.f`. -/
def MAX_VELOCITY_MAGNITUDE : K := 300

/-- `Node::SetPosition`. -/
def SetPosition (_node : Node K) (position : Vector2f K) : Node K := ⟨position⟩

/-- `Node::GetPosition`. -/
def GetPosition (node : Node K) : Vector2f K := node.position

/-- `Node::ApplyVelocity`: `_view.move(velocity)`. -/
def ApplyVelocity (node : Node K) (velocity : Vector2f K) : Node K :=
  ⟨node.position + velocity⟩

/-- `Node::ApplyForces`: nothing for an empty list, otherwise the forces are summed
into `velocity`, and the node moves by `velocity`, rescaled to length
`MAX_VELOCITY_MAGNITUDE` when it is longer than that. -/
def ApplyForces (sqrt : K → K) (node : Node K) (forces : List (Vector2f K)) : Node K :=
  if forces.isEmpty then node
  else
    let velocity : Vector2f K := forces.foldl (fun acc force => acc + force) ⟨0, 0⟩
    let dist : K := distance sqrt ⟨0, 0⟩ velocity
    node.ApplyVelocity
      (if dist > MAX_VELOCITY_MAGNITUDE then
        Vector2f.scale MAX_VELOCITY_MAGNITUDE (velocity.div dist)
      else velocity)

end Node

/-! ## Heap, clock, links and the graph -/

/-- A `Node*`: the address of a node object. -/
abbrev NodePtr := Nat

/-- The node objects in memory, by address. -/
abbrev Heap (K : Type) := NodePtr → Node K

/-- The readings of `Time::_clock` during one frame: `clock k` is what the `k`-th
call of `_clock.getElapsedTime().asSeconds()` since the last `Time::Update()`
returns. -/
abbrev Clock (K : Type) := Nat → K

/-- `Time::GetDelta`, with the number `t` of earlier reads of the clock: the reading
and the new number of reads. -/
def Time.GetDelta (clock : Clock K) (t : Nat) : K × Nat := (clock t, t + 1)

/-- The free function `distance(Node const*, Node const*)`. -/
def Node.distance (sqrt : K → K) (heap : Heap K) (a b : NodePtr) : K :=
  ForceDirectedGraph.distance sqrt (heap a).GetPosition (heap b).GetPosition

/-- A `Link`: its two endpoint pointers. -/
structure Link where
  _first : NodePtr
  _second : NodePtr
deriving DecidableEq

namespace Link

/-- `Link::GetFirst`. -/
def GetFirst (link : Link) : NodePtr := link._first

/-- `Link::GetSecond`. -/
def GetSecond (link : Link) : NodePtr := link._second

end Link

/-- The `std::map<Node*, std::vector<sf::Vector2f>>` of `Graph::Update`: the entries
in increasing key order, one per key. -/
abbrev ForceMap (K : Type) := List (NodePtr × List (Vector2f K))

namespace ForceMap

/-- The entry `m[key]` replaced by `f m[key]`, created from the empty vector when the
key is absent (what `operator[]` does before the access). -/
def modify (key : NodePtr) (f : List (Vector2f K) → List (Vector2f K)) :
    ForceMap K → ForceMap K
  | [] => [(key, f [])]
  | (k, v) :: rest =>
    if key < k then (key, f []) :: (k, v) :: rest
    else if key = k then (k, f v) :: rest
    else (k, v) :: modify key f rest

/-- The statement `m[key] = {}`. -/
def assignEmpty (m : ForceMap K) (key : NodePtr) : ForceMap K :=
  modify key (fun _ => []) m

/-- The statement `m[key].push_back(force)`. -/
def pushBack (m : ForceMap K) (key : NodePtr) (force : Vector2f K) : ForceMap K :=
  modify key (fun v => v ++ [force]) m

/-- The vector stored under `key`, empty when there is no entry. -/
def find (m : ForceMap K) (key : NodePtr) : List (Vector2f K) :=
  match m with
  | [] => []
  | (k, v) :: rest => if key = k then v else find rest key

end ForceMap

/-- A `Graph`: the pointer vectors `_nodes` and `_links` (a link object never
changes, so it is kept by value). -/
structure Graph where
  _nodes : List NodePtr
  _links : List Link
deriving DecidableEq

namespace Graph

/-- The member constant `REPULSION_DISTANCE = 100.f`. -/
def REPULSION_DISTANCE : K := 100

/-- The member constant `ATTRACTION_FORCE = 200.f`. -/
def ATTRACTION_FORCE : K := 200

/-- The member constant `REPULSION_FORCE = 200.f`. -/
def REPULSION_FORCE : K := 200

/-- The constant `FLT_EPSILON` of `<cfloat>`, two to the power -23. -/
def FLT_EPSILON : K := 1 / 8388608

/-- `Graph::AddNodes`. -/
def AddNodes (g : Graph) (nodes : List NodePtr) : Graph :=
  { g with _nodes := nodes.foldl (fun acc node => acc ++ [node]) g._nodes }

/-- `Graph::AddLinks`. -/
def AddLinks (g : Graph) (links : List Link) : Graph :=
  { g with _links := links.foldl (fun acc link => acc ++ [link]) g._links }

/-- `Graph::GetNodes`. -/
def GetNodes (g : Graph) : List NodePtr := g._nodes

/-- `Graph::ComputeRepulsiveForce`: zero beyond `REPULSION_DISTANCE` and at most
`FLT_EPSILON` apart, without reading the clock; otherwise the clock is read once. -/
def ComputeRepulsiveForce (sqrt : K → K) (clock : Clock K) (heap : Heap K) (t : Nat)
    (node repulsiveNode : NodePtr) : Vector2f K × Nat :=
  let dist : K := Node.distance sqrt heap node repulsiveNode
  if dist > REPULSION_DISTANCE ∨ dist ≤ FLT_EPSILON then (⟨0, 0⟩, t)
  else
    let forceDirection : Vector2f K :=
      ((heap node).GetPosition - (heap repulsiveNode).GetPosition).div dist
    let distanceForce : K := (REPULSION_DISTANCE - dist) / REPULSION_DISTANCE
    let delta := Time.GetDelta clock t
    (Vector2f.scale (REPULSION_FORCE * distanceForce * delta.1) forceDirection, delta.2)

/-- `Graph::ComputeAttractionForce`: zero at most `FLT_EPSILON` apart, without
reading the clock; otherwise the clock is read once. -/
def ComputeAttractionForce (sqrt : K → K) (clock : Clock K) (heap : Heap K) (t : Nat)
    (link : Link) : Vector2f K × Nat :=
  let dist : K := Node.distance sqrt heap link.GetFirst link.GetSecond
  if dist ≤ FLT_EPSILON then (⟨0, 0⟩, t)
  else
    let forceDirection : Vector2f K :=
      ((heap link.GetFirst).GetPosition - (heap link.GetSecond).GetPosition).div dist
    let delta := Time.GetDelta clock t
    (Vector2f.scale (ATTRACTION_FORCE * (1 / 2) * delta.1) forceDirection, delta.2)

/-- First loop of `Graph::Update`: `nodeForces[node1] = {}` for every node. -/
def initPass (nodes : List NodePtr) : ForceMap K :=
  nodes.foldl (fun m node1 => ForceMap.assignEmpty m node1) []

/-- Inner loop of the repulsion pass, for one `node1`. -/
def repulsionRow (sqrt : K → K) (clock : Clock K) (heap : Heap K) (nodes : List NodePtr)
    (node1 : NodePtr) (st : ForceMap K × Nat) : ForceMap K × Nat :=
  nodes.foldl
    (fun st node2 =>
      if node1 ≠ node2 then
        let r := ComputeRepulsiveForce sqrt clock heap st.2 node1 node2
        (ForceMap.pushBack st.1 node1 r.1, r.2)
      else st)
    st

/-- Second loop of `Graph::Update`: every ordered pair of different pointers. -/
def repulsionPass (sqrt : K → K) (clock : Clock K) (heap : Heap K) (nodes : List NodePtr)
    (st : ForceMap K × Nat) : ForceMap K × Nat :=
  nodes.foldl (fun st node1 => repulsionRow sqrt clock heap nodes node1 st) st

/-- Third loop of `Graph::Update`: every link pushes `-force` on its first endpoint
and `force` on its second. -/
def attractionPass (sqrt : K → K) (clock : Clock K) (heap : Heap K) (links : List Link)
    (st : ForceMap K × Nat) : ForceMap K × Nat :=
  links.foldl
    (fun st link =>
      let r := ComputeAttractionForce sqrt clock heap st.2 link
      (ForceMap.pushBack (ForceMap.pushBack st.1 link.GetFirst (-r.1)) link.GetSecond r.1,
        r.2))
    st

/-- Last loop of `Graph::Update`: `ApplyForces` on every key of the map, in key
order. -/
def applyPass (sqrt : K → K) (nodeForces : ForceMap K) (heap : Heap K) : Heap K :=
  nodeForces.foldl
    (fun h nodeAndForces =>
      Function.update h nodeAndForces.1
        ((h nodeAndForces.1).ApplyForces sqrt nodeAndForces.2))
    heap

/-- The force map `Graph::Update` has built when its apply loop starts. -/
def nodeForces (sqrt : K → K) (clock : Clock K) (g : Graph) (heap : Heap K) : ForceMap K :=
  (attractionPass sqrt clock heap g._links
    (repulsionPass sqrt clock heap g._nodes (initPass g._nodes, 0))).1

/-- `Graph::Update`: one step of the simulation.  `clock` holds the readings of the
wall clock during the call; the result is the heap after the call. -/
def Update (sqrt : K → K) (clock : Clock K) (g : Graph) (heap : Heap K) : Heap K :=
  applyPass sqrt (nodeForces sqrt clock g heap) heap

end Graph

end Physics

/-! ## Exact arithmetic -/

section Exact

variable {K : Type} [LinearOrderedField K]

/-- In exact arithmetic the vectors are a commutative group. -/
instance : AddCommGroup (Vector2f K) where
  add_assoc a b c := by
    show Vector2f.mk _ _ = Vector2f.mk _ _
    congr 1 <;> exact add_assoc _ _ _
  zero_add a := by
    show Vector2f.mk _ _ = a
    cases a; congr 1 <;> exact zero_add _
  add_zero a := by
    show Vector2f.mk _ _ = a
    cases a; congr 1 <;> exact add_zero _
  nsmul := nsmulRec
  zsmul := zsmulRec
  neg_add_cancel a := by
    show Vector2f.mk _ _ = Vector2f.mk _ _
    congr 1 <;> exact neg_add_cancel _
  add_comm a b := by
    show Vector2f.mk _ _ = Vector2f.mk _ _
    congr 1 <;> exact add_comm _ _
  sub_eq_add_neg a b := by
    show Vector2f.mk _ _ = Vector2f.mk _ _
    congr 1 <;> exact sub_eq_add_neg _ _

/-! ## The arithmetic assumed of `sqrtf`, and the reference step -/

/-- What exact arithmetic asks of the square root: on a non-negative argument the
result is non-negative and squares back to the argument. -/
def IsSqrt (sqrt : K → K) : Prop :=
  ∀ x : K, 0 ≤ x → 0 ≤ sqrt x ∧ sqrt x * sqrt x = x

/-- The clock of a frame during which every reading is the same `deltaTime`. -/
def Clock.const (deltaTime : K) : Clock K := fun _ => deltaTime

namespace Reference

/-- The speed cap in the words of the specification: a velocity longer than
`maxSpeed = 300` is rescaled to length `maxSpeed`, keeping its direction. -/
def clamp (sqrt : K → K) (velocity : Vector2f K) : Vector2f K :=
  if distance sqrt ⟨0, 0⟩ velocity > 300 then
    Vector2f.scale 300 (velocity.div (distance sqrt ⟨0, 0⟩ velocity))
  else velocity

/-- The repulsive force a node at `a` experiences due to a node at `b`, in the words
of the specification (with the cutoff at `FLT_EPSILON` inclusive). -/
def repulsiveForce (sqrt : K → K) (deltaTime : K) (a b : Vector2f K) : Vector2f K :=
  if distance sqrt a b > 100 ∨ distance sqrt a b ≤ Graph.FLT_EPSILON then 0
  else
    Vector2f.scale (200 * ((100 - distance sqrt a b) / 100) * deltaTime)
      ((a - b).div (distance sqrt a b))

/-- The attraction force of a link whose endpoints are at `first` and `second`, in
the words of the specification. -/
def attraction (sqrt : K → K) (deltaTime : K) (first second : Vector2f K) : Vector2f K :=
  if distance sqrt first second ≤ Graph.FLT_EPSILON then 0
  else
    Vector2f.scale (200 * (1 / 2) * deltaTime)
      ((first - second).div (distance sqrt first second))

/-- The summed force `S_A` on the node at address `a`: repulsion from every other
node, minus the attraction of every link that starts at `a`, plus the attraction of
every link that ends at `a`, all from the positions in `heap`. -/
def totalForce (sqrt : K → K) (deltaTime : K) (g : Graph) (heap : Heap K) (a : NodePtr) :
    Vector2f K :=
  ((g._nodes.filter (fun b => b ≠ a)).map
      (fun b => repulsiveForce sqrt deltaTime (heap a).position (heap b).position)).sum
  + ((g._links.filter (fun l => l._first = a)).map
      (fun l => -attraction sqrt deltaTime (heap l._first).position (heap l._second).position)).sum
  + ((g._links.filter (fun l => l._second = a)).map
      (fun l => attraction sqrt deltaTime (heap l._first).position (heap l._second).position)).sum

end Reference

end Exact

namespace ForceMap

variable {K : Type} [Add K] [Zero K]

/-- The map invariant of `std::map`: keys strictly increasing. -/
def Ordered (m : ForceMap K) : Prop := m.Pairwise (fun e1 e2 => e1.1 < e2.1)

/-- The sum of the vector stored under `key`. -/
def total (m : ForceMap K) (key : NodePtr) : Vector2f K := (find m key).sum

/-- The force maps of two runs whose nodes are at different addresses hold the same
forces for the same node: `address` sends the address of a node in the first run to its
address in the second, `m1` is the map of the first run and `m2` that of the second. -/
def Mirrors (address : NodePtr → NodePtr) (m2 m1 : ForceMap K) : Prop :=
  Ordered m2 ∧ Ordered m1 ∧ ∀ p, find m2 (address p) = find m1 p

end ForceMap

namespace Graph

variable {K : Type} [Add K] [Sub K] [Mul K] [Div K] [Neg K] [Zero K] [One K] [LT K] [LE K]
  [DecidableRel (fun a b : K => a < b)] [DecidableRel (fun a b : K => a ≤ b)]
  [OfNat K (nat_lit 2)] [OfNat K (nat_lit 100)] [OfNat K (nat_lit 200)]
  [OfNat K (nat_lit 300)] [OfNat K (nat_lit 8388608)]

/-- Frames `0 .. n-1` of the main loop, as far as the graph goes: `n` successive calls
of `Graph::Update`, the `i`-th under the clock readings `clocks i`. -/
def UpdateN (sqrt : K → K) (clocks : Nat → Clock K) (g : Graph) : Nat → Heap K → Heap K
  | 0, heap => heap
  | n + 1, heap => Update sqrt (clocks n) g (UpdateN sqrt clocks g n heap)

/-- The same graph with its nodes at other addresses: `address` sends the address of a
node to its new address. -/
def relocate (address : NodePtr → NodePtr) (g : Graph) : Graph :=
  ⟨g._nodes.map address, g._links.map (fun l => ⟨address l._first, address l._second⟩)⟩

end Graph

/-! ## Concrete data used by the examples -/

namespace Example

variable {K : Type} [Zero K] [One K] [Add K] [NatCast K]

/-- A heap with the node at address 0 at the origin and every other node at `(d, 0)`. -/
def pairHeap (d : K) : Heap K := fun p => if p = 0 then ⟨⟨0, 0⟩⟩ else ⟨⟨d, 0⟩⟩

/-- A heap with the node at address 0 at the origin and every other node at
`position`. -/
def heapAt (position : Vector2f K) : Heap K := fun p =>
  if p = 0 then ⟨⟨0, 0⟩⟩ else ⟨position⟩

/-- A heap with the node at address 0 at `(a, 0)` and every other node at `(b, 0)`. -/
def rowHeap (a b : K) : Heap K := fun p =>
  if p = 0 then ⟨⟨a, 0⟩⟩ else ⟨⟨b, 0⟩⟩

/-- The addresses 0 and 1 exchanged. -/
def swapAddresses : NodePtr → NodePtr := fun p =>
  if p = 0 then 1 else if p = 1 then 0 else p

/-- A clock that has advanced between any two reads: the readings are 1, 2, 3, ... -/
def tickingClock : Clock K := fun k => (k : K) + 1

end Example

/-! ## The input stream and the loader `operator>>(std::istream&, Graph&)` -/

/-- One field of the input text, by what the formatted extractors of `std::istream`
make of it.  Fields are separated by whitespace, except that the rest of a field an
extractor stopped in the middle of stays in the stream as a field of its own. -/
inductive Field where
  /-- An optionally signed decimal integer literal, such as `12` or `-3`. -/
  | int (z : Int)
  /-- A decimal literal with a fraction, such as `-12.5`: the sign, the digits before
  the point as a number, and the value of the part from the point on. -/
  | dec (negative : Bool) (whole : Nat) (frac : ℚ)
  /-- The part of a decimal literal from its point on, such as `.5`, with its value. -/
  | frac (frac : ℚ)
  /-- Characters that begin no number, such as `x`. -/
  | text
deriving DecidableEq

/-- The number a numeric field denotes. -/
def Field.value : Field → ℚ
  | Field.int z => (z : ℚ)
  | Field.dec negative whole part =>
    if negative then -((whole : ℚ) + part) else (whole : ℚ) + part
  | Field.frac part => part
  | Field.text => 0

/-- What is left of a `std::istream` together with its state flags. -/
structure IStream where
  /-- The fields not yet extracted. -/
  fields : List Field
  /-- Whether whitespace follows the last field (a final newline, say). -/
  trailing : Bool
  /-- The flag `eofbit`, read by `stream.eof()`. -/
  eofbit : Bool
  /-- The flag `failbit`. -/
  failbit : Bool
deriving DecidableEq

/-- How a call of the loader ends: it returns, or it reaches undefined behaviour (a read
of an uninitialised variable or a vector access out of bounds), or the bound on loop
iterations given to the model is used up. -/
inductive Outcome (α : Type) where
  | returned (result : α)
  | undefined
  | outOfFuel

namespace IStream

variable {K : Type} [Zero K]

/-- A fresh stream over the given fields. -/
def ofFields (fields : List (Field)) (trailing : Bool) : IStream :=
  ⟨fields, trailing, false, false⟩

/-- The `sentry` every formatted extraction starts with: on a stream that is not
`good()` it sets `failbit`; otherwise it skips whitespace, and when that reaches the end
of the input it sets `eofbit` and `failbit`.  The result tells whether the extraction
goes on. -/
def sentry (s : IStream) : Bool × IStream :=
  if s.eofbit || s.failbit then (false, { s with failbit := true })
  else
    match s.fields with
    | [] => (false, { s with eofbit := true, failbit := true })
    | _ :: _ => (true, s)

/-- The stream after a successful extraction that used up the first field: `eofbit` is
set when the extractor ran into the end of the input, that is when no field and no
whitespace follow. -/
def consumed (s : IStream) (rest : List (Field)) : IStream :=
  { s with fields := rest, eofbit := rest.isEmpty && !s.trailing }

/-- The stream after an extraction that found no number: nothing is used up and
`failbit` is set. -/
def failed (s : IStream) : IStream := { s with failbit := true }

/-- `stream >> value` for an `int`.  The value is `none` when the variable is left
untouched (the sentry failed); a failed conversion stores zero.  A literal is taken to
fit an `int`. -/
def readInt (s : IStream) : Option Int × IStream :=
  match s.sentry with
  | (false, s1) => (none, s1)
  | (true, s1) =>
    match s1.fields with
    | Field.int z :: rest => (some z, s1.consumed rest)
    | Field.dec negative whole frac :: rest =>
      (some (if negative then -(whole : Int) else (whole : Int)),
        { s1 with fields := Field.frac frac :: rest })
    | _ => (some 0, s1.failed)

/-- `stream >> value` for a `size_t`.  A negative literal is negated in the unsigned
type, as `strtoull` does; a non-negative literal is taken to fit a `size_t`. -/
def readSize (s : IStream) : Option Nat × IStream :=
  match s.readInt with
  | (some z, s1) => (some (if 0 ≤ z then z.toNat else (z % 18446744073709551616).toNat), s1)
  | (none, s1) => (none, s1)

/-- `stream >> value` for a `float`.  `strtof` is the conversion the library makes of
the number a literal denotes: the `float` it stores, and whether the number is out of
the range of `float`, in which case the literal is used up all the same and `failbit`
is set.  A field that begins no number stores zero and sets `failbit`; the value is
`none` when the variable is left untouched (the sentry failed). -/
def readFloat (strtof : ℚ → K × Bool) (s : IStream) : Option K × IStream :=
  match s.sentry with
  | (false, s1) => (none, s1)
  | (true, s1) =>
    match s1.fields with
    | [] => (some 0, s1.failed)
    | Field.text :: _ => (some 0, s1.failed)
    | field :: rest =>
      (some (strtof field.value).1,
        if (strtof field.value).2 then (s1.consumed rest).failed else s1.consumed rest)

/-- `stream.eof()`. -/
def eof (s : IStream) : Bool := s.eofbit

end IStream

namespace Loader

variable {K : Type} [Zero K]

/-- What the loader holds between its loops: the stream, the heap, and the local
vector `nodes`. -/
structure NodesRead (K : Type) where
  stream : IStream
  heap : Heap K
  nodes : List NodePtr

/-- `nodes[index - 1]` for an `int index` that may be uninitialised: `none` when
the variable is uninitialised or the access is out of the bounds of the vector. -/
def nodeAt (nodes : List NodePtr) (index : Option Int) : Option NodePtr :=
  match index with
  | none => none
  | some i => if 1 ≤ i then nodes.get? (i - 1).toNat else none

/-- The `for` loop of the loader, with `remaining` iterations to go: two coordinates are
extracted into the uninitialised `x` and `y`, and `new Node(x, y)` is pushed on `nodes`.
`alloc i` is the address the `i`-th `new Node` returns. -/
def readNodes (strtof : ℚ → K × Bool) (alloc : Nat → NodePtr) :
    Nat → IStream → Heap K → List NodePtr → Outcome (NodesRead K)
  | 0, s, heap, nodes => Outcome.returned ⟨s, heap, nodes⟩
  | remaining + 1, s, heap, nodes =>
    match s.readFloat strtof with
    | (rx, s1) =>
      match s1.readFloat strtof with
      | (ry, s2) =>
        match rx, ry with
        | some x, some y =>
          readNodes strtof alloc remaining s2
            (Function.update heap (alloc nodes.length) ⟨⟨x, y⟩⟩)
            (nodes ++ [alloc nodes.length])
        | _, _ => Outcome.undefined

/-- The `while (!stream.eof())` loop of the loader, run for at most `fuel` iterations:
two indices are extracted into the uninitialised `first` and `second`, and
`new Link(nodes[first - 1], nodes[second - 1])` is pushed on `links`. -/
def readLinks (nodes : List NodePtr) :
    Nat → IStream → List Link → Outcome (IStream × List Link)
  | 0, _, _ => Outcome.outOfFuel
  | fuel + 1, s, links =>
    if s.eof then Outcome.returned (s, links)
    else
      match s.readInt with
      | (rf, s1) =>
        match s1.readInt with
        | (rs, s2) =>
          match nodeAt nodes rf, nodeAt nodes rs with
          | some first, some second => readLinks nodes fuel s2 (links ++ [⟨first, second⟩])
          | _, _ => Outcome.undefined

/-- What a call of the loader leaves behind. -/
structure Loaded (K : Type) where
  stream : IStream
  graph : Graph
  heap : Heap K

/-- `operator>>(std::istream&, Graph&)`.  The link loop gets one iteration more than
there are fields left, which it cannot use up: an iteration that does not end in
undefined behaviour extracts at least one field. -/
def readGraph (strtof : ℚ → K × Bool) (alloc : Nat → NodePtr) (stream : IStream)
    (graph : Graph) (heap : Heap K) : Outcome (Loaded K) :=
  match stream.readSize with
  | (none, _) => Outcome.undefined
  | (some nodesCount, s1) =>
    match readNodes strtof alloc nodesCount s1 heap [] with
    | Outcome.returned r =>
      match readLinks r.nodes (r.stream.fields.length + 1) r.stream [] with
      | Outcome.returned (s3, links) =>
        Outcome.returned ⟨s3, (graph.AddNodes r.nodes).AddLinks links, r.heap⟩
      | Outcome.undefined => Outcome.undefined
      | Outcome.outOfFuel => Outcome.outOfFuel
    | Outcome.undefined => Outcome.undefined
    | Outcome.outOfFuel => Outcome.outOfFuel

end Loader

/-! ## Well-formed input, for stating what the loader builds -/

namespace Loader

variable {K : Type}

/-- The fields of a sequence of coordinate pairs, in input order. -/
def coordFields : List (Field × Field) → List Field
  | [] => []
  | c :: cs => c.1 :: c.2 :: coordFields cs

/-- The fields of a sequence of 1-based index pairs, in input order. -/
def pairFields : List (Nat × Nat) → List Field
  | [] => []
  | p :: ps => Field.int (p.1 : Int) :: Field.int (p.2 : Int) :: pairFields ps

/-- The fields of a sequence of pairs of integer literals, in input order. -/
def indexFields : List (Int × Int) → List Field
  | [] => []
  | p :: ps => Field.int p.1 :: Field.int p.2 :: indexFields ps

/-- A stream in good state at the given fields, followed by whitespace or not; `eofbit`
is set exactly when an extractor has run into the end of the input, that is when
neither a field nor whitespace is left. -/
def goodStream (trailing : Bool) (fields : List Field) : IStream :=
  ⟨fields, trailing, fields.isEmpty && !trailing, false⟩

/-- How this loader could tell its caller that it rejects the input, since it throws
nothing: by returning with `failbit` set and the graph as it was. -/
def rejected (outcome : Outcome (Loaded K)) (graph : Graph) : Bool :=
  match outcome with
  | Outcome.returned r => r.stream.failbit && decide (r.graph = graph)
  | _ => false

/-- A well-formed input that ends right after its last token: the count of the
coordinate pairs, the coordinate pairs, the index pairs, and no whitespace after the
last of them. -/
def wellFormedInput (coords : List (Field × Field)) (pairs : List (Nat × Nat)) :
    IStream :=
  IStream.ofFields
    (Field.int (coords.length : Int) :: (coordFields coords ++ pairFields pairs)) false

/-- The heap after nodes have been allocated for the coordinate pairs, the first of
them as allocation number `start`, each at what `strtof` makes of its two literals. -/
def placeNodes (strtof : ℚ → K × Bool) (alloc : Nat → NodePtr) :
    List (Field × Field) → Nat → Heap K → Heap K
  | [], _, heap => heap
  | c :: cs, start, heap =>
    placeNodes strtof alloc cs (start + 1)
      (Function.update heap (alloc start) ⟨⟨(strtof c.1.value).1, (strtof c.2.value).1⟩⟩)

end Loader

namespace Example

variable {K : Type} [Zero K] [OfNat K (nat_lit 10)] [OfNat K (nat_lit 20)]

/-- The heap of the end-to-end scenario `3\n0 0\n10 0\n20 0\n1 2\n2 3`: the nodes at the
addresses 0, 1 and 2 are at (0, 0), (10, 0) and (20, 0). -/
def chainHeap : Heap K := fun p =>
  if p = 0 then ⟨⟨0, 0⟩⟩ else if p = 1 then ⟨⟨10, 0⟩⟩ else ⟨⟨20, 0⟩⟩

/-- The graph of the end-to-end scenario: the nodes 0, 1, 2 and the links from 0 to 1
and from 1 to 2. -/
def chainGraph : Graph := ⟨[0, 1, 2], [⟨0, 1⟩, ⟨1, 2⟩]⟩

end Example

/-! ## The states a graph can get into -/

namespace Graph

variable {K : Type} [Add K] [Sub K] [Mul K] [Div K] [Neg K] [Zero K] [One K] [LT K] [LE K]
  [DecidableRel (fun a b : K => a < b)] [DecidableRel (fun a b : K => a ≤ b)]
  [OfNat K (nat_lit 2)] [OfNat K (nat_lit 100)] [OfNat K (nat_lit 200)]
  [OfNat K (nat_lit 300)] [OfNat K (nat_lit 8388608)]

/-- The invariant of the data model: both endpoints of every link are members of the
node vector. -/
def EndpointsAreNodes (g : Graph) : Prop :=
  ∀ l ∈ g._links, l._first ∈ g._nodes ∧ l._second ∈ g._nodes

/-- The graphs, with the heaps they live in, that can be reached from the empty graph by
calls of `AddNodes`, of `AddLinks` (with an argument that `admits` lets through), of the
loader, and of `Update`.  A call of the loader that returns leaves what it has built; a
call that runs into undefined behaviour may leave any graph and any heap, and such calls
are counted only when `undefinedLoads` holds. -/
inductive Reachable (sqrt : K → K) (strtof : ℚ → K × Bool)
    (admits : Graph → List Link → Prop) (undefinedLoads : Prop) :
    Graph → Heap K → Prop where
  | empty (heap : Heap K) : Reachable sqrt strtof admits undefinedLoads ⟨[], []⟩ heap
  | addNodes {g : Graph} {heap : Heap K} (nodes : List NodePtr) :
    Reachable sqrt strtof admits undefinedLoads g heap →
      Reachable sqrt strtof admits undefinedLoads (g.AddNodes nodes) heap
  | addLinks {g : Graph} {heap : Heap K} (links : List Link) :
    Reachable sqrt strtof admits undefinedLoads g heap → admits g links →
      Reachable sqrt strtof admits undefinedLoads (g.AddLinks links) heap
  | load {g : Graph} {heap : Heap K} (alloc : Nat → NodePtr) (stream : IStream)
    (loaded : Loader.Loaded K) :
    Reachable sqrt strtof admits undefinedLoads g heap →
      Loader.readGraph strtof alloc stream g heap = Outcome.returned loaded →
      Reachable sqrt strtof admits undefinedLoads loaded.graph loaded.heap
  | loadUndefined {g : Graph} {heap : Heap K} (alloc : Nat → NodePtr) (stream : IStream)
    (g2 : Graph) (heap2 : Heap K) :
    Reachable sqrt strtof admits undefinedLoads g heap → undefinedLoads →
      Loader.readGraph strtof alloc stream g heap = Outcome.undefined →
      Reachable sqrt strtof admits undefinedLoads g2 heap2
  | step {g : Graph} {heap : Heap K} (clock : Clock K) :
    Reachable sqrt strtof admits undefinedLoads g heap →
      Reachable sqrt strtof admits undefinedLoads g (Update sqrt clock g heap)

/-- What `AddLinks` accepts in the code: every vector of links. -/
def anyLinks (_g : Graph) (_links : List Link) : Prop := True

/-- Vectors of links that join nodes of the graph they are added to. -/
def linksOfNodes (g : Graph) (links : List Link) : Prop :=
  ∀ l ∈ links, l._first ∈ g._nodes ∧ l._second ∈ g._nodes

end Graph

/-! ## Vector arithmetic -/

namespace Vector2f

variable {K : Type} [LinearOrderedField K]

omit [LinearOrderedField K] in
@[ext] theorem ext {a b : Vector2f K} (hx : a.x = b.x) (hy : a.y = b.y) : a = b := by
  cases a; cases b; simp_all

@[simp] theorem add_x (a b : Vector2f K) : (a + b).x = a.x + b.x := rfl

@[simp] theorem add_y (a b : Vector2f K) : (a + b).y = a.y + b.y := rfl

@[simp] theorem sub_x (a b : Vector2f K) : (a - b).x = a.x - b.x := rfl

@[simp] theorem sub_y (a b : Vector2f K) : (a - b).y = a.y - b.y := rfl

@[simp] theorem neg_x (a : Vector2f K) : (-a).x = -a.x := rfl

@[simp] theorem neg_y (a : Vector2f K) : (-a).y = -a.y := rfl

@[simp] theorem zero_x : (0 : Vector2f K).x = 0 := rfl

@[simp] theorem zero_y : (0 : Vector2f K).y = 0 := rfl

@[simp] theorem scale_x (k : K) (a : Vector2f K) : (scale k a).x = k * a.x := rfl

@[simp] theorem scale_y (k : K) (a : Vector2f K) : (scale k a).y = k * a.y := rfl

@[simp] theorem div_x (a : Vector2f K) (k : K) : (a.div k).x = a.x / k := rfl

@[simp] theorem div_y (a : Vector2f K) (k : K) : (a.div k).y = a.y / k := rfl

theorem mk_zero : (⟨0, 0⟩ : Vector2f K) = 0 := rfl

theorem foldl_add_eq_sum (l : List (Vector2f K)) (a : Vector2f K) :
    l.foldl (fun acc force => acc + force) a = a + l.sum := by
  induction l generalizing a with
  | nil => simp
  | cons h t ih => simp [ih, add_assoc]

theorem div_eq_scale (v : Vector2f K) (k : K) : v.div k = scale (1 / k) v := by
  ext <;> simp [div_eq_inv_mul]

theorem scale_scale (a b : K) (v : Vector2f K) : scale a (scale b v) = scale (a * b) v := by
  ext <;> simp [mul_assoc]

theorem scale_neg (a : K) (v : Vector2f K) : scale a (-v) = -scale a v := by
  ext <;> simp

theorem scale_zero (a : K) : scale a (0 : Vector2f K) = 0 := by
  ext <;> simp

theorem zero_scale (v : Vector2f K) : scale (0 : K) v = 0 := by
  ext <;> simp

theorem one_scale (v : Vector2f K) : scale (1 : K) v = v := by
  ext <;> simp

theorem scale_add (a : K) (v w : Vector2f K) : scale a (v + w) = scale a v + scale a w := by
  ext <;> simp [mul_add]

theorem add_scale (a b : K) (v : Vector2f K) : scale (a + b) v = scale a v + scale b v := by
  ext <;> simp [add_mul]

end Vector2f

/-! ## The square root and distances -/

section Distance

variable {K : Type} [LinearOrderedField K]

theorem IsSqrt.eq_of_mul_self {sqrt : K → K} (hs : IsSqrt sqrt) {x y : K} (hy : 0 ≤ y)
    (h : y * y = x) : sqrt x = y := by
  have hx : 0 ≤ x := h ▸ mul_self_nonneg y
  obtain ⟨h0, h1⟩ := hs x hx
  exact (mul_self_inj h0 hy).1 (h1.trans h.symm)

theorem IsSqrt.zero {sqrt : K → K} (hs : IsSqrt sqrt) : sqrt 0 = 0 :=
  hs.eq_of_mul_self le_rfl (by simp)

theorem isSqrt_real : IsSqrt Real.sqrt := fun x hx =>
  ⟨Real.sqrt_nonneg x, Real.mul_self_sqrt hx⟩

theorem sq_add_sq_nonneg (v : Vector2f K) : 0 ≤ v.x * v.x + v.y * v.y :=
  add_nonneg (mul_self_nonneg _) (mul_self_nonneg _)

theorem distance_zero_left (sqrt : K → K) (v : Vector2f K) :
    distance sqrt ⟨0, 0⟩ v = sqrt (v.x * v.x + v.y * v.y) := by
  simp [distance]

theorem distance_add_left (sqrt : K → K) (p d : Vector2f K) :
    distance sqrt (p + d) p = distance sqrt ⟨0, 0⟩ d := by
  simp [distance]

theorem distance_comm (sqrt : K → K) (a b : Vector2f K) :
    distance sqrt a b = distance sqrt b a := by
  simp only [distance, Vector2f.sub_x, Vector2f.sub_y]
  have h : (a.x - b.x) * (a.x - b.x) + (a.y - b.y) * (a.y - b.y)
      = (b.x - a.x) * (b.x - a.x) + (b.y - a.y) * (b.y - a.y) := by ring
  rw [h]

theorem distance_eq_length_sub (sqrt : K → K) (a b : Vector2f K) :
    distance sqrt a b = distance sqrt ⟨0, 0⟩ (a - b) := by
  simp only [distance, Vector2f.sub_x, Vector2f.sub_y]
  have h : (a.x - b.x) * (a.x - b.x) + (a.y - b.y) * (a.y - b.y)
      = (0 - (a.x - b.x)) * (0 - (a.x - b.x)) + (0 - (a.y - b.y)) * (0 - (a.y - b.y)) := by
    ring
  rw [h]

theorem distance_nonneg {sqrt : K → K} (hs : IsSqrt sqrt) (a b : Vector2f K) :
    0 ≤ distance sqrt a b :=
  (hs _ (sq_add_sq_nonneg (a - b))).1

theorem distance_mul_self {sqrt : K → K} (hs : IsSqrt sqrt) (a b : Vector2f K) :
    distance sqrt a b * distance sqrt a b
      = (a.x - b.x) * (a.x - b.x) + (a.y - b.y) * (a.y - b.y) :=
  (hs _ (sq_add_sq_nonneg (a - b))).2

theorem distance_eq_of_mul_self {sqrt : K → K} (hs : IsSqrt sqrt) (a b : Vector2f K) {d : K}
    (hd : 0 ≤ d) (h : d * d = (a.x - b.x) * (a.x - b.x) + (a.y - b.y) * (a.y - b.y)) :
    distance sqrt a b = d :=
  hs.eq_of_mul_self hd h

theorem distance_self {sqrt : K → K} (hs : IsSqrt sqrt) (a : Vector2f K) :
    distance sqrt a a = 0 := by
  simp [distance, hs.zero]

theorem length_scale {sqrt : K → K} (hs : IsSqrt sqrt) (c : K) (hc : 0 ≤ c)
    (v : Vector2f K) :
    distance sqrt ⟨0, 0⟩ (Vector2f.scale c v) = c * distance sqrt ⟨0, 0⟩ v := by
  rw [distance_zero_left]
  apply hs.eq_of_mul_self (mul_nonneg hc (distance_nonneg hs _ _))
  have h := distance_mul_self hs ⟨0, 0⟩ v
  simp only [Vector2f.scale_x, Vector2f.scale_y]
  calc c * distance sqrt ⟨0, 0⟩ v * (c * distance sqrt ⟨0, 0⟩ v)
      = c * c * (distance sqrt ⟨0, 0⟩ v * distance sqrt ⟨0, 0⟩ v) := by ring
    _ = _ := by rw [h]; ring

theorem length_neg (sqrt : K → K) (v : Vector2f K) :
    distance sqrt ⟨0, 0⟩ (-v) = distance sqrt ⟨0, 0⟩ v := by
  simp [distance]

theorem length_eq_zero_iff {sqrt : K → K} (hs : IsSqrt sqrt) (v : Vector2f K) :
    distance sqrt ⟨0, 0⟩ v = 0 ↔ v = 0 := by
  constructor
  · intro h
    have h2 := distance_mul_self hs ⟨0, 0⟩ v
    rw [h] at h2
    simp only [zero_sub, neg_mul_neg, mul_zero] at h2
    have hx : v.x * v.x = 0 := by
      nlinarith [mul_self_nonneg v.x, mul_self_nonneg v.y]
    have hy : v.y * v.y = 0 := by
      nlinarith [mul_self_nonneg v.x, mul_self_nonneg v.y]
    ext
    · simpa using hx
    · simpa using hy
  · rintro rfl
    rw [distance_zero_left]; simp [hs.zero]

/-- The unit vector `v / |v|` has length one. -/
theorem length_div_self {sqrt : K → K} (hs : IsSqrt sqrt) (v : Vector2f K)
    (h : 0 < distance sqrt ⟨0, 0⟩ v) :
    distance sqrt ⟨0, 0⟩ (v.div (distance sqrt ⟨0, 0⟩ v)) = 1 := by
  rw [Vector2f.div_eq_scale, length_scale hs _ (by positivity)]
  field_simp

end Distance

/-! ## The speed cap -/

section Clamp

variable {K : Type} [LinearOrderedField K]

theorem Reference.clamp_zero {sqrt : K → K} (hs : IsSqrt sqrt) :
    Reference.clamp sqrt (0 : Vector2f K) = 0 := by
  unfold Reference.clamp
  rw [if_neg]
  rw [(length_eq_zero_iff hs 0).2 rfl]; norm_num

theorem Reference.clamp_of_le (sqrt : K → K) (v : Vector2f K)
    (h : distance sqrt ⟨0, 0⟩ v ≤ 300) : Reference.clamp sqrt v = v := by
  unfold Reference.clamp
  rw [if_neg (not_lt.2 h)]

theorem Reference.clamp_of_gt (sqrt : K → K) (v : Vector2f K)
    (h : 300 < distance sqrt ⟨0, 0⟩ v) :
    Reference.clamp sqrt v = Vector2f.scale 300 (v.div (distance sqrt ⟨0, 0⟩ v)) := by
  unfold Reference.clamp
  rw [if_pos h]

theorem Reference.length_clamp_of_gt {sqrt : K → K} (hs : IsSqrt sqrt) (v : Vector2f K)
    (h : 300 < distance sqrt ⟨0, 0⟩ v) :
    distance sqrt ⟨0, 0⟩ (Reference.clamp sqrt v) = 300 := by
  have hpos : 0 < distance sqrt ⟨0, 0⟩ v := lt_trans (by norm_num) h
  rw [Reference.clamp_of_gt sqrt v h, length_scale hs _ (by norm_num),
    length_div_self hs v hpos, mul_one]

theorem Reference.length_clamp_le {sqrt : K → K} (hs : IsSqrt sqrt) (v : Vector2f K) :
    distance sqrt ⟨0, 0⟩ (Reference.clamp sqrt v) ≤ 300 := by
  rcases lt_or_le 300 (distance sqrt ⟨0, 0⟩ v) with h | h
  · exact (Reference.length_clamp_of_gt hs v h).le
  · rw [Reference.clamp_of_le sqrt v h]; exact h

theorem Reference.clamp_neg (sqrt : K → K) (v : Vector2f K) :
    Reference.clamp sqrt (-v) = -Reference.clamp sqrt v := by
  unfold Reference.clamp
  rw [length_neg]
  split_ifs
  · ext <;> simp [neg_div]
  · rfl

/-- `Node::ApplyForces` moves the node by the clamped sum of the forces. -/
theorem ApplyForces_position {sqrt : K → K} (hs : IsSqrt sqrt) (node : Node K)
    (forces : List (Vector2f K)) :
    (node.ApplyForces sqrt forces).position
      = node.position + Reference.clamp sqrt forces.sum := by
  unfold Node.ApplyForces
  split_ifs with h
  · have : forces = [] := by simpa using h
    subst this
    simp [Reference.clamp_zero hs]
  · simp only [Node.ApplyVelocity, Vector2f.foldl_add_eq_sum, Vector2f.mk_zero, zero_add,
      Reference.clamp, Node.MAX_VELOCITY_MAGNITUDE]

end Clamp

/-! ## The force map -/

namespace ForceMap

variable {K : Type} [LinearOrderedField K]

omit [LinearOrderedField K] in
theorem find_eq_nil (m : ForceMap K) (key : NodePtr) (h : ∀ e ∈ m, e.1 ≠ key) :
    find m key = [] := by
  induction m with
  | nil => rfl
  | cons e rest ih =>
    obtain ⟨k, v⟩ := e
    have hk : key ≠ k := fun hh => h (k, v) (List.mem_cons_self _ _) hh.symm
    simp only [find, if_neg hk]
    exact ih (fun e he => h e (List.mem_cons_of_mem _ he))

omit [LinearOrderedField K] in
theorem mem_modify (key : NodePtr) (f : List (Vector2f K) → List (Vector2f K))
    (m : ForceMap K) (e : NodePtr × List (Vector2f K)) (he : e ∈ modify key f m) :
    e.1 = key ∨ e ∈ m := by
  induction m with
  | nil =>
    simp only [modify, List.mem_singleton] at he
    left; rw [he]
  | cons e0 rest ih =>
    obtain ⟨k, v⟩ := e0
    simp only [modify] at he
    split_ifs at he with h1 h2
    · rcases List.mem_cons.1 he with h | h
      · left; rw [h]
      · right; exact h
    · rcases List.mem_cons.1 he with h | h
      · left; rw [h, h2]
      · right; exact List.mem_cons_of_mem _ h
    · rcases List.mem_cons.1 he with h | h
      · right; rw [h]; exact List.mem_cons_self _ _
      · rcases ih h with h | h
        · left; exact h
        · right; exact List.mem_cons_of_mem _ h

omit [LinearOrderedField K] in
theorem ordered_nil : Ordered ([] : ForceMap K) := List.Pairwise.nil

omit [LinearOrderedField K] in
theorem ordered_modify (key : NodePtr) (f : List (Vector2f K) → List (Vector2f K))
    (m : ForceMap K) (hm : Ordered m) : Ordered (modify key f m) := by
  induction m with
  | nil => exact List.pairwise_singleton _ _
  | cons e0 rest ih =>
    obtain ⟨k, v⟩ := e0
    have hm2 := List.pairwise_cons.1 hm
    simp only [modify]
    split_ifs with h1 h2
    · refine List.pairwise_cons.2 ⟨?_, hm⟩
      intro e he
      rcases List.mem_cons.1 he with h | h
      · rw [h]; exact h1
      · exact lt_trans h1 (hm2.1 e h)
    · exact List.pairwise_cons.2 ⟨hm2.1, hm2.2⟩
    · refine List.pairwise_cons.2 ⟨?_, ih hm2.2⟩
      intro e he
      rcases mem_modify key f rest e he with h | h
      · rw [h]; exact lt_of_le_of_ne (not_lt.1 h1) (fun hh => h2 hh.symm)
      · exact hm2.1 e h

omit [LinearOrderedField K] in
theorem find_modify (key : NodePtr) (f : List (Vector2f K) → List (Vector2f K))
    (m : ForceMap K) (hm : Ordered m) (p : NodePtr) :
    find (modify key f m) p = if p = key then f (find m key) else find m p := by
  induction m with
  | nil =>
    simp only [modify, find]
  | cons e0 rest ih =>
    obtain ⟨k, v⟩ := e0
    have hm2 := List.pairwise_cons.1 hm
    simp only [modify]
    by_cases h1 : key < k
    · rw [if_pos h1]
      have hnil : find ((k, v) :: rest) key = [] := by
        apply find_eq_nil
        intro e he
        rcases List.mem_cons.1 he with h | h
        · rw [h]; exact (ne_of_lt h1).symm
        · exact (ne_of_lt (lt_trans h1 (hm2.1 e h))).symm
      by_cases hp : p = key
      · subst hp; rw [hnil]; simp [find]
      · rw [if_neg hp]
        conv_lhs => rw [find]
        rw [if_neg hp]
    · rw [if_neg h1]
      by_cases h2 : key = k
      · subst h2
        rw [if_pos rfl]
        by_cases hp : p = key <;> simp [find, hp]
      · rw [if_neg h2]
        by_cases hk : p = k
        · subst hk
          have hpk : p ≠ key := fun h => h2 h.symm
          simp [find, hpk]
        · conv_lhs => rw [find]
          rw [if_neg hk, ih hm2.2]
          simp [find, h2, hk]

omit [LinearOrderedField K] in
theorem ordered_assignEmpty (m : ForceMap K) (key : NodePtr) (hm : Ordered m) :
    Ordered (assignEmpty m key) := ordered_modify _ _ _ hm

omit [LinearOrderedField K] in
theorem ordered_pushBack (m : ForceMap K) (key : NodePtr) (force : Vector2f K)
    (hm : Ordered m) : Ordered (pushBack m key force) := ordered_modify _ _ _ hm

omit [LinearOrderedField K] in
theorem find_assignEmpty (m : ForceMap K) (key : NodePtr) (hm : Ordered m) (p : NodePtr) :
    find (assignEmpty m key) p = if p = key then [] else find m p :=
  find_modify _ _ _ hm p

omit [LinearOrderedField K] in
theorem find_pushBack (m : ForceMap K) (key : NodePtr) (force : Vector2f K)
    (hm : Ordered m) (p : NodePtr) :
    find (pushBack m key force) p = if p = key then find m key ++ [force] else find m p :=
  find_modify _ _ _ hm p

theorem total_pushBack (m : ForceMap K) (key : NodePtr) (force : Vector2f K)
    (hm : Ordered m) (p : NodePtr) :
    total (pushBack m key force) p = total m p + if p = key then force else 0 := by
  unfold total
  rw [find_pushBack m key force hm]
  split_ifs with h
  · subst h; simp
  · simp

end ForceMap

/-- A property kept by every step of a loop holds when the loop ends. -/
theorem foldl_invariant {α β : Type} (I : β → Prop) (f : β → α → β) (l : List α)
    (h : ∀ b, I b → ∀ a ∈ l, I (f b a)) (b0 : β) (h0 : I b0) : I (l.foldl f b0) := by
  induction l generalizing b0 with
  | nil => exact h0
  | cons a rest ih =>
    rw [List.foldl_cons]
    exact ih (fun b hb a ha => h b hb a (List.mem_cons_of_mem _ ha)) _
      (h b0 h0 a (List.mem_cons_self _ _))

/-! ## The passes of `Graph::Update`, in any arithmetic -/

namespace Graph

section AnyArithmetic

variable {K : Type} [Add K] [Sub K] [Mul K] [Div K] [Neg K] [Zero K] [One K] [LT K] [LE K]
  [DecidableRel (fun a b : K => a < b)] [DecidableRel (fun a b : K => a ≤ b)]
  [OfNat K (nat_lit 2)] [OfNat K (nat_lit 100)] [OfNat K (nat_lit 200)]
  [OfNat K (nat_lit 300)] [OfNat K (nat_lit 8388608)]

/-- The apply pass calls `ApplyForces` on each node with the vector stored for it. -/
theorem applyPass_apply (sqrt : K → K) (m : ForceMap K) (hm : ForceMap.Ordered m)
    (heap : Heap K) (p : NodePtr) :
    applyPass sqrt m heap p = (heap p).ApplyForces sqrt (ForceMap.find m p) := by
  induction m generalizing heap with
  | nil => simp [applyPass, ForceMap.find, Node.ApplyForces]
  | cons e0 rest ih =>
    obtain ⟨k, v⟩ := e0
    have hm2 := List.pairwise_cons.1 hm
    have hstep : applyPass sqrt ((k, v) :: rest) heap
        = applyPass sqrt rest (Function.update heap k ((heap k).ApplyForces sqrt v)) := by
      simp [applyPass]
    rw [hstep, ih hm2.2]
    by_cases hk : p = k
    · subst hk
      have : ForceMap.find rest p = [] :=
        ForceMap.find_eq_nil rest p (fun e he => (ne_of_lt (hm2.1 e he)).symm)
      have hnil : ∀ n : Node K, n.ApplyForces sqrt [] = n := fun n => by
        simp [Node.ApplyForces]
      rw [this, hnil, Function.update_same]
      simp [ForceMap.find]
    · simp [ForceMap.find, hk, Function.update_noteq hk]

theorem ordered_initPass (nodes : List NodePtr) :
    ForceMap.Ordered (initPass nodes : ForceMap K) := by
  unfold initPass
  exact foldl_invariant ForceMap.Ordered _ nodes
    (fun m hm a _ => ForceMap.ordered_assignEmpty m a hm) _ ForceMap.ordered_nil

theorem find_initPass (nodes : List NodePtr) (p : NodePtr) :
    ForceMap.find (initPass nodes : ForceMap K) p = [] := by
  unfold initPass
  have := foldl_invariant
    (fun m : ForceMap K => ForceMap.Ordered m ∧ ForceMap.find m p = [])
    (fun m node1 => ForceMap.assignEmpty m node1) nodes
    (fun m hm a _ => ⟨ForceMap.ordered_assignEmpty m a hm.1, by
      rw [ForceMap.find_assignEmpty m a hm.1]; split_ifs <;> simp [hm.2]⟩)
    [] ⟨ForceMap.ordered_nil, rfl⟩
  exact this.2

theorem ordered_repulsionRow (sqrt : K → K) (clock : Clock K) (heap : Heap K)
    (nodes : List NodePtr) (node1 : NodePtr) (st : ForceMap K × Nat)
    (h : ForceMap.Ordered st.1) :
    ForceMap.Ordered (repulsionRow sqrt clock heap nodes node1 st).1 := by
  unfold repulsionRow
  refine foldl_invariant (fun st : ForceMap K × Nat => ForceMap.Ordered st.1) _ nodes ?_ st h
  intro b hb a _
  split_ifs
  · exact ForceMap.ordered_pushBack _ _ _ hb
  · exact hb

theorem ordered_repulsionPass (sqrt : K → K) (clock : Clock K) (heap : Heap K)
    (nodes outer : List NodePtr) (st : ForceMap K × Nat) (h : ForceMap.Ordered st.1) :
    ForceMap.Ordered
      (outer.foldl (fun st node1 => repulsionRow sqrt clock heap nodes node1 st) st).1 :=
  foldl_invariant (fun st : ForceMap K × Nat => ForceMap.Ordered st.1) _ outer
    (fun b hb a _ => ordered_repulsionRow sqrt clock heap nodes a b hb) st h

theorem ordered_attractionPass (sqrt : K → K) (clock : Clock K) (heap : Heap K)
    (links : List Link) (st : ForceMap K × Nat) (h : ForceMap.Ordered st.1) :
    ForceMap.Ordered (attractionPass sqrt clock heap links st).1 := by
  unfold attractionPass
  exact foldl_invariant (fun st : ForceMap K × Nat => ForceMap.Ordered st.1) _ links
    (fun b hb a _ => ForceMap.ordered_pushBack _ _ _ (ForceMap.ordered_pushBack _ _ _ hb))
    st h

theorem ordered_nodeForces (sqrt : K → K) (clock : Clock K) (g : Graph) (heap : Heap K) :
    ForceMap.Ordered (nodeForces sqrt clock g heap) := by
  unfold nodeForces
  apply ordered_attractionPass
  exact ordered_repulsionPass sqrt clock heap g._nodes g._nodes _ (ordered_initPass _)

/-- One step applies to each node the vector of forces collected for it. -/
theorem Update_apply (sqrt : K → K) (clock : Clock K) (g : Graph) (heap : Heap K)
    (p : NodePtr) :
    Update sqrt clock g heap p
      = (heap p).ApplyForces sqrt (ForceMap.find (nodeForces sqrt clock g heap) p) :=
  applyPass_apply sqrt _ (ordered_nodeForces sqrt clock g heap) heap p

end AnyArithmetic

variable {K : Type} [LinearOrderedField K]

/-- In exact arithmetic one step moves each node by the clamped sum of its forces. -/
theorem Update_position {sqrt : K → K} (hs : IsSqrt sqrt) (clock : Clock K) (g : Graph)
    (heap : Heap K) (p : NodePtr) :
    (Update sqrt clock g heap p).position
      = (heap p).position
        + Reference.clamp sqrt (ForceMap.total (nodeForces sqrt clock g heap) p) := by
  rw [Update_apply, ApplyForces_position hs]
  rfl

end Graph

/-! ## The forces of a step whose clock readings all agree -/

namespace Graph

variable {K : Type} [LinearOrderedField K]

/-- The vector `ComputeRepulsiveForce` returns is the reference formula at the clock
reading of the call. -/
theorem ComputeRepulsiveForce_fst (sqrt : K → K) (clock : Clock K) (heap : Heap K) (t : Nat)
    (a b : NodePtr) :
    (ComputeRepulsiveForce sqrt clock heap t a b).1
      = Reference.repulsiveForce sqrt (clock t) (heap a).position (heap b).position := by
  unfold ComputeRepulsiveForce Reference.repulsiveForce
  simp only [Node.distance, Node.GetPosition, REPULSION_DISTANCE, REPULSION_FORCE,
    Time.GetDelta]
  split_ifs <;> rfl

/-- How many clock reads `ComputeRepulsiveForce` leaves behind. -/
theorem ComputeRepulsiveForce_snd (sqrt : K → K) (clock : Clock K) (heap : Heap K) (t : Nat)
    (a b : NodePtr) :
    (ComputeRepulsiveForce sqrt clock heap t a b).2
      = if distance sqrt (heap a).position (heap b).position > 100
          ∨ distance sqrt (heap a).position (heap b).position ≤ FLT_EPSILON then t
        else t + 1 := by
  unfold ComputeRepulsiveForce
  simp only [Node.distance, Node.GetPosition, REPULSION_DISTANCE, Time.GetDelta]
  split_ifs <;> rfl

/-- The vector `ComputeAttractionForce` returns is the reference formula at the clock
reading of the call. -/
theorem ComputeAttractionForce_fst (sqrt : K → K) (clock : Clock K) (heap : Heap K) (t : Nat)
    (link : Link) :
    (ComputeAttractionForce sqrt clock heap t link).1
      = Reference.attraction sqrt (clock t) (heap link._first).position
          (heap link._second).position := by
  unfold ComputeAttractionForce Reference.attraction
  simp only [Node.distance, Node.GetPosition, ATTRACTION_FORCE, Time.GetDelta,
    Link.GetFirst, Link.GetSecond]
  split_ifs <;> rfl

theorem repulsionRow_cons (sqrt : K → K) (clock : Clock K) (heap : Heap K) (b : NodePtr)
    (rest : List NodePtr) (node1 : NodePtr) (st : ForceMap K × Nat) :
    repulsionRow sqrt clock heap (b :: rest) node1 st
      = repulsionRow sqrt clock heap rest node1
          (if node1 ≠ b then
            (ForceMap.pushBack st.1 node1 (ComputeRepulsiveForce sqrt clock heap st.2 node1 b).1,
              (ComputeRepulsiveForce sqrt clock heap st.2 node1 b).2)
          else st) := by
  simp only [repulsionRow, List.foldl_cons]

theorem attractionPass_cons (sqrt : K → K) (clock : Clock K) (heap : Heap K) (l : Link)
    (rest : List Link) (st : ForceMap K × Nat) :
    attractionPass sqrt clock heap (l :: rest) st
      = attractionPass sqrt clock heap rest
          (ForceMap.pushBack
              (ForceMap.pushBack st.1 l.GetFirst
                (-(ComputeAttractionForce sqrt clock heap st.2 l).1))
              l.GetSecond (ComputeAttractionForce sqrt clock heap st.2 l).1,
            (ComputeAttractionForce sqrt clock heap st.2 l).2) := by
  simp only [attractionPass, List.foldl_cons]

theorem sum_map_filter_cons {α : Type} (q : α → Prop) [DecidablePred q]
    (f : α → Vector2f K) (a : α) (rest : List α) :
    (((a :: rest).filter (fun x => q x)).map f).sum
      = (if q a then f a else 0) + ((rest.filter (fun x => q x)).map f).sum := by
  by_cases h : q a <;> simp [List.filter_cons, h]

theorem total_repulsionRow_const (sqrt : K → K) (dt : K) (heap : Heap K)
    (nodes : List NodePtr) (node1 : NodePtr) (st : ForceMap K × Nat)
    (h : ForceMap.Ordered st.1) (p : NodePtr) :
    ForceMap.total (repulsionRow sqrt (Clock.const dt) heap nodes node1 st).1 p
      = ForceMap.total st.1 p
        + if p = node1 then
            ((nodes.filter (fun b => b ≠ node1)).map
              (fun b => Reference.repulsiveForce sqrt dt (heap node1).position
                (heap b).position)).sum
          else 0 := by
  induction nodes generalizing st with
  | nil => simp [repulsionRow]
  | cons b rest ih =>
    rw [repulsionRow_cons]
    by_cases hb : node1 = b
    · subst hb
      rw [if_neg (by simp), ih st h]
      simp
    · have hb2 : b ≠ node1 := fun hh => hb hh.symm
      rw [if_pos hb, ih _ (ForceMap.ordered_pushBack _ _ _ h)]
      simp only [ForceMap.total_pushBack _ _ _ h, ComputeRepulsiveForce_fst]
      by_cases hp : p = node1
      · simp only [if_pos hp, List.filter_cons, hb2, ne_eq, not_false_eq_true, decide_True,
          if_true, List.map_cons, List.sum_cons, Clock.const]
        abel
      · simp [hp]

theorem total_repulsionPass_const (sqrt : K → K) (dt : K) (heap : Heap K)
    (nodes outer : List NodePtr) (hnd : outer.Nodup) (st : ForceMap K × Nat)
    (h : ForceMap.Ordered st.1) (p : NodePtr) :
    ForceMap.total
        (outer.foldl
          (fun st node1 => repulsionRow sqrt (Clock.const dt) heap nodes node1 st) st).1 p
      = ForceMap.total st.1 p
        + if p ∈ outer then
            ((nodes.filter (fun b => b ≠ p)).map
              (fun b => Reference.repulsiveForce sqrt dt (heap p).position
                (heap b).position)).sum
          else 0 := by
  induction outer generalizing st with
  | nil => simp
  | cons n1 rest ih =>
    have hnd2 := List.nodup_cons.1 hnd
    rw [List.foldl_cons, ih hnd2.2 _ (ordered_repulsionRow sqrt _ heap nodes n1 st h),
      total_repulsionRow_const sqrt dt heap nodes n1 st h]
    by_cases hp : p = n1
    · subst hp
      simp [hnd2.1]
    · by_cases hr : p ∈ rest
      · simp [hp, hr]
      · simp [hp, hr]

theorem total_attractionPass_const (sqrt : K → K) (dt : K) (heap : Heap K)
    (links : List Link) (st : ForceMap K × Nat) (h : ForceMap.Ordered st.1) (p : NodePtr) :
    ForceMap.total (attractionPass sqrt (Clock.const dt) heap links st).1 p
      = ForceMap.total st.1 p
        + ((links.filter (fun l => l._first = p)).map
            (fun l => -Reference.attraction sqrt dt (heap l._first).position
              (heap l._second).position)).sum
        + ((links.filter (fun l => l._second = p)).map
            (fun l => Reference.attraction sqrt dt (heap l._first).position
              (heap l._second).position)).sum := by
  induction links generalizing st with
  | nil => simp [attractionPass]
  | cons l rest ih =>
    rw [attractionPass_cons,
      ih _ (ForceMap.ordered_pushBack _ _ _ (ForceMap.ordered_pushBack _ _ _ h))]
    simp only [ForceMap.total_pushBack _ _ _ (ForceMap.ordered_pushBack _ _ _ h),
      ForceMap.total_pushBack _ _ _ h, ComputeAttractionForce_fst, Link.GetFirst,
      Link.GetSecond, Clock.const, sum_map_filter_cons]
    have h1 : (p = l._first) ↔ (l._first = p) := eq_comm
    have h2 : (p = l._second) ↔ (l._second = p) := eq_comm
    simp only [h1, h2]
    abel

/-- With every clock reading equal to `dt`, the forces collected for a node of a
duplicate-free node vector add up to the reference force. -/
theorem total_nodeForces_const (sqrt : K → K) (dt : K) (g : Graph) (heap : Heap K)
    (hnd : g._nodes.Nodup) (p : NodePtr) (hp : p ∈ g._nodes) :
    ForceMap.total (nodeForces sqrt (Clock.const dt) g heap) p
      = Reference.totalForce sqrt dt g heap p := by
  unfold nodeForces Reference.totalForce repulsionPass
  rw [total_attractionPass_const _ _ _ _ _
      (ordered_repulsionPass sqrt _ heap g._nodes g._nodes _ (ordered_initPass _)),
    total_repulsionPass_const sqrt dt heap g._nodes g._nodes hnd _ (ordered_initPass _)]
  simp [ForceMap.total, find_initPass, hp]

/-- With every clock reading equal to `dt`, a pointer outside the node vector that is
no endpoint of a link collects no force. -/
theorem total_nodeForces_const_of_not_mem (sqrt : K → K) (dt : K) (g : Graph) (heap : Heap K)
    (hnd : g._nodes.Nodup) (p : NodePtr) (hp : p ∉ g._nodes)
    (hl : ∀ l ∈ g._links, l._first ≠ p ∧ l._second ≠ p) :
    ForceMap.total (nodeForces sqrt (Clock.const dt) g heap) p = 0 := by
  unfold nodeForces repulsionPass
  rw [total_attractionPass_const _ _ _ _ _
      (ordered_repulsionPass sqrt _ heap g._nodes g._nodes _ (ordered_initPass _)),
    total_repulsionPass_const sqrt dt heap g._nodes g._nodes hnd _ (ordered_initPass _)]
  have h1 : g._links.filter (fun l => l._first = p) = [] :=
    List.filter_eq_nil_iff.2 (fun l hl2 => by simpa using (hl l hl2).1)
  have h2 : g._links.filter (fun l => l._second = p) = [] :=
    List.filter_eq_nil_iff.2 (fun l hl2 => by simpa using (hl l hl2).2)
  simp [ForceMap.total, find_initPass, hp, h1, h2]

end Graph

/-! ## Forces under an arbitrary clock -/

namespace Graph

section AnyArithmetic

variable {K : Type} [Add K] [Sub K] [Mul K] [Div K] [Neg K] [Zero K] [One K] [LT K] [LE K]
  [DecidableRel (fun a b : K => a < b)] [DecidableRel (fun a b : K => a ≤ b)]
  [OfNat K (nat_lit 2)] [OfNat K (nat_lit 100)] [OfNat K (nat_lit 200)]
  [OfNat K (nat_lit 300)] [OfNat K (nat_lit 8388608)]

/-- A property of every force the two force functions can return holds of every force
collected by a step, whatever the clock does and whatever the arithmetic. -/
theorem forall_find_nodeForces (sqrt : K → K) (clock : Clock K) (g : Graph) (heap : Heap K)
    (P : NodePtr → Vector2f K → Prop)
    (hrep : ∀ t a b, a ∈ g._nodes → b ∈ g._nodes → a ≠ b →
      P a (ComputeRepulsiveForce sqrt clock heap t a b).1)
    (hatt : ∀ t l, l ∈ g._links →
      P l._first (-(ComputeAttractionForce sqrt clock heap t l).1)
        ∧ P l._second (ComputeAttractionForce sqrt clock heap t l).1)
    (p : NodePtr) (f : Vector2f K)
    (hf : f ∈ ForceMap.find (nodeForces sqrt clock g heap) p) : P p f := by
  let I : ForceMap K × Nat → Prop := fun st =>
    ForceMap.Ordered st.1 ∧ ∀ q v, v ∈ ForceMap.find st.1 q → P q v
  have hpush : ∀ (m : ForceMap K) (t : Nat) (key : NodePtr) (force : Vector2f K) (t2 : Nat),
      I (m, t) → P key force → I (ForceMap.pushBack m key force, t2) := by
    intro m t key force t2 hI hP
    refine ⟨ForceMap.ordered_pushBack _ _ _ hI.1, ?_⟩
    intro q v hv
    rw [ForceMap.find_pushBack _ _ _ hI.1] at hv
    split_ifs at hv with hq
    · rcases List.mem_append.1 hv with h | h
      · exact hI.2 q v (hq ▸ h)
      · rw [List.mem_singleton.1 h, hq]; exact hP
    · exact hI.2 q v hv
  have h0 : I (initPass g._nodes, 0) :=
    ⟨ordered_initPass _, fun q v hv => by rw [find_initPass] at hv; cases hv⟩
  have hrow : ∀ node1 ∈ g._nodes, ∀ st, I st →
      I (repulsionRow sqrt clock heap g._nodes node1 st) := by
    intro node1 h1 st hst
    unfold repulsionRow
    refine foldl_invariant I _ g._nodes ?_ st hst
    intro b hb node2 h2
    split_ifs with hne
    · exact hpush b.1 b.2 _ _ _ hb (hrep _ _ _ h1 h2 hne)
    · exact hb
  have h1 : I (repulsionPass sqrt clock heap g._nodes (initPass g._nodes, 0)) := by
    unfold repulsionPass
    exact foldl_invariant I _ g._nodes (fun b hb a ha => hrow a ha b hb) _ h0
  have h2 : I (attractionPass sqrt clock heap g._links
      (repulsionPass sqrt clock heap g._nodes (initPass g._nodes, 0))) := by
    unfold attractionPass
    refine foldl_invariant I _ g._links ?_ _ h1
    intro b hb l hl
    exact hpush _ b.2 _ _ _ (hpush b.1 b.2 _ _ b.2 hb (hatt _ l hl).1) (hatt _ l hl).2
  exact h2.2 p f hf

end AnyArithmetic

variable {K : Type} [LinearOrderedField K]

/-- A step whose force functions can only return the zero vector moves nothing. -/
theorem Update_eq_self_of_forces_zero {sqrt : K → K} (hs : IsSqrt sqrt) (clock : Clock K)
    (g : Graph) (heap : Heap K)
    (hrep : ∀ t a b, a ∈ g._nodes → b ∈ g._nodes → a ≠ b →
      (ComputeRepulsiveForce sqrt clock heap t a b).1 = 0)
    (hatt : ∀ t l, l ∈ g._links → (ComputeAttractionForce sqrt clock heap t l).1 = 0) :
    Update sqrt clock g heap = heap := by
  funext p
  have hall : ∀ f ∈ ForceMap.find (nodeForces sqrt clock g heap) p, f = 0 :=
    fun f hf => forall_find_nodeForces sqrt clock g heap (fun _ v => v = 0) hrep
      (fun t l hl => ⟨by rw [hatt t l hl, neg_zero], hatt t l hl⟩) p f hf
  have hsum : ForceMap.total (nodeForces sqrt clock g heap) p = 0 :=
    List.sum_eq_zero hall
  have hpos := Update_position hs clock g heap p
  rw [hsum, Reference.clamp_zero hs, add_zero] at hpos
  cases hu : Update sqrt clock g heap p with
  | mk pos =>
    cases hh : heap p with
    | mk pos2 =>
      rw [hu, hh] at hpos
      exact congrArg Node.mk hpos

/-- The forces of a graph of two nodes and no link: one repulsion each, the second
computed after the clock reads of the first. -/
theorem total_nodeForces_pair (sqrt : K → K) (clock : Clock K) (heap : Heap K)
    (a b : NodePtr) (hab : a ≠ b) :
    ForceMap.total (nodeForces sqrt clock ⟨[a, b], []⟩ heap) a
        = (ComputeRepulsiveForce sqrt clock heap 0 a b).1
      ∧ ForceMap.total (nodeForces sqrt clock ⟨[a, b], []⟩ heap) b
        = (ComputeRepulsiveForce sqrt clock heap
            (ComputeRepulsiveForce sqrt clock heap 0 a b).2 b a).1 := by
  have hba : b ≠ a := fun h => hab h.symm
  have o0 := ordered_initPass (K := K) [a, b]
  have o1 := ForceMap.ordered_pushBack _ a (ComputeRepulsiveForce sqrt clock heap 0 a b).1 o0
  simp only [nodeForces, attractionPass, List.foldl_nil, repulsionPass, List.foldl_cons,
    repulsionRow_cons, repulsionRow, ne_eq, not_true_eq_false, if_false, hab, hba,
    not_false_eq_true, if_true]
  constructor
  · rw [ForceMap.total_pushBack _ _ _ o1, ForceMap.total_pushBack _ _ _ o0]
    simp [ForceMap.total, find_initPass, hab]
  · rw [ForceMap.total_pushBack _ _ _ o1, ForceMap.total_pushBack _ _ _ o0]
    simp [ForceMap.total, find_initPass, hba]

/-- The forces of a graph of two nodes and one link from the first to the second:
the two repulsions, then the attraction, each after the clock reads before it. -/
theorem total_nodeForces_linked_pair (sqrt : K → K) (clock : Clock K) (heap : Heap K)
    (a b : NodePtr) (hab : a ≠ b) :
    ForceMap.total (nodeForces sqrt clock ⟨[a, b], [⟨a, b⟩]⟩ heap) a
        = (ComputeRepulsiveForce sqrt clock heap 0 a b).1
          + -(ComputeAttractionForce sqrt clock heap
              (ComputeRepulsiveForce sqrt clock heap
                (ComputeRepulsiveForce sqrt clock heap 0 a b).2 b a).2 ⟨a, b⟩).1
      ∧ ForceMap.total (nodeForces sqrt clock ⟨[a, b], [⟨a, b⟩]⟩ heap) b
        = (ComputeRepulsiveForce sqrt clock heap
            (ComputeRepulsiveForce sqrt clock heap 0 a b).2 b a).1
          + (ComputeAttractionForce sqrt clock heap
              (ComputeRepulsiveForce sqrt clock heap
                (ComputeRepulsiveForce sqrt clock heap 0 a b).2 b a).2 ⟨a, b⟩).1 := by
  have hba : b ≠ a := fun h => hab h.symm
  have o0 := ordered_initPass (K := K) [a, b]
  have o1 := ForceMap.ordered_pushBack _ a (ComputeRepulsiveForce sqrt clock heap 0 a b).1 o0
  have o2 := ForceMap.ordered_pushBack _ b (ComputeRepulsiveForce sqrt clock heap
    (ComputeRepulsiveForce sqrt clock heap 0 a b).2 b a).1 o1
  have o3 := ForceMap.ordered_pushBack _ a (-(ComputeAttractionForce sqrt clock heap
    (ComputeRepulsiveForce sqrt clock heap
      (ComputeRepulsiveForce sqrt clock heap 0 a b).2 b a).2 ⟨a, b⟩).1) o2
  simp only [nodeForces, attractionPass, List.foldl_nil, repulsionPass, List.foldl_cons,
    repulsionRow_cons, repulsionRow, ne_eq, not_true_eq_false, if_false, hab, hba,
    not_false_eq_true, if_true, Link.GetFirst, Link.GetSecond]
  constructor
  · rw [ForceMap.total_pushBack _ _ _ o3, ForceMap.total_pushBack _ _ _ o2,
      ForceMap.total_pushBack _ _ _ o1, ForceMap.total_pushBack _ _ _ o0]
    simp [ForceMap.total, find_initPass, hab]
  · rw [ForceMap.total_pushBack _ _ _ o3, ForceMap.total_pushBack _ _ _ o2,
      ForceMap.total_pushBack _ _ _ o1, ForceMap.total_pushBack _ _ _ o0]
    simp [ForceMap.total, find_initPass, hba]

end Graph

/-! ## Evaluating the reference forces -/

section ReferenceForces

variable {K : Type} [LinearOrderedField K]

theorem FLT_EPSILON_pos : (0 : K) < Graph.FLT_EPSILON := by
  unfold Graph.FLT_EPSILON; norm_num

theorem Reference.repulsiveForce_of_far (sqrt : K → K) (dt : K) (a b : Vector2f K)
    (h : 100 < distance sqrt a b) : Reference.repulsiveForce sqrt dt a b = 0 := by
  unfold Reference.repulsiveForce
  rw [if_pos (Or.inl h)]

theorem Reference.repulsiveForce_of_near (sqrt : K → K) (dt : K) (a b : Vector2f K)
    (h : distance sqrt a b ≤ Graph.FLT_EPSILON) : Reference.repulsiveForce sqrt dt a b = 0 := by
  unfold Reference.repulsiveForce
  rw [if_pos (Or.inr h)]

theorem Reference.repulsiveForce_of_mid (sqrt : K → K) (dt : K) (a b : Vector2f K)
    (h1 : Graph.FLT_EPSILON < distance sqrt a b) (h2 : distance sqrt a b ≤ 100) :
    Reference.repulsiveForce sqrt dt a b
      = Vector2f.scale (200 * ((100 - distance sqrt a b) / 100) * dt)
          ((a - b).div (distance sqrt a b)) := by
  unfold Reference.repulsiveForce
  rw [if_neg]
  rintro (h | h)
  · exact absurd h2 (not_le.2 h)
  · exact absurd h1 (not_lt.2 h)

theorem Reference.attraction_of_near (sqrt : K → K) (dt : K) (a b : Vector2f K)
    (h : distance sqrt a b ≤ Graph.FLT_EPSILON) : Reference.attraction sqrt dt a b = 0 := by
  unfold Reference.attraction
  rw [if_pos h]

theorem Reference.attraction_of_apart (sqrt : K → K) (dt : K) (a b : Vector2f K)
    (h : Graph.FLT_EPSILON < distance sqrt a b) :
    Reference.attraction sqrt dt a b
      = Vector2f.scale (200 * (1 / 2) * dt) ((a - b).div (distance sqrt a b)) := by
  unfold Reference.attraction
  rw [if_neg (not_le.2 h)]

/-- The repulsion on `b` due to `a` is the negation of the repulsion on `a` due to `b`,
at the same `dt`. -/
theorem Reference.repulsiveForce_swap (sqrt : K → K) (dt : K) (a b : Vector2f K) :
    Reference.repulsiveForce sqrt dt b a = -Reference.repulsiveForce sqrt dt a b := by
  unfold Reference.repulsiveForce
  rw [distance_comm sqrt b a]
  split_ifs
  · simp
  · ext <;> simp <;> ring

end ReferenceForces

/-! ## The two nodes 50 apart under a ticking clock -/

section Ticking

theorem Example.pairHeap_zero (d : ℝ) : (Example.pairHeap d 0).position = ⟨0, 0⟩ := rfl

theorem Example.pairHeap_one (d : ℝ) : (Example.pairHeap d 1).position = ⟨d, 0⟩ := rfl

theorem Example.distance_pair :
    distance Real.sqrt (Example.pairHeap (50 : ℝ) 0).position
      (Example.pairHeap (50 : ℝ) 1).position = 50 := by
  rw [Example.pairHeap_zero, Example.pairHeap_one]
  apply distance_eq_of_mul_self isSqrt_real <;> norm_num

theorem Example.eps_lt_fifty : (Graph.FLT_EPSILON : ℝ) < 50 := by
  unfold Graph.FLT_EPSILON; norm_num

/-- The repulsion the node at the origin experiences from the node at (50, 0). -/
theorem Example.repulsion_zero_one (dt : ℝ) :
    Reference.repulsiveForce Real.sqrt dt (Example.pairHeap (50 : ℝ) 0).position
      (Example.pairHeap (50 : ℝ) 1).position = ⟨-(100 * dt), 0⟩ := by
  rw [Reference.repulsiveForce_of_mid _ _ _ _
    (by rw [Example.distance_pair]; exact Example.eps_lt_fifty)
    (by rw [Example.distance_pair]; norm_num), Example.distance_pair,
    Example.pairHeap_zero, Example.pairHeap_one]
  ext
  · simp only [Vector2f.scale_x, Vector2f.div_x, Vector2f.sub_x]; ring
  · simp only [Vector2f.scale_y, Vector2f.div_y, Vector2f.sub_y]; ring

/-- The attraction force of the link from the node at the origin to the one at (50, 0). -/
theorem Example.attraction_zero_one (dt : ℝ) :
    Reference.attraction Real.sqrt dt (Example.pairHeap (50 : ℝ) 0).position
      (Example.pairHeap (50 : ℝ) 1).position = ⟨-(100 * dt), 0⟩ := by
  rw [Reference.attraction_of_apart _ _ _ _
    (by rw [Example.distance_pair]; exact Example.eps_lt_fifty), Example.distance_pair,
    Example.pairHeap_zero, Example.pairHeap_one]
  ext
  · simp only [Vector2f.scale_x, Vector2f.div_x, Vector2f.sub_x]; ring
  · simp only [Vector2f.scale_y, Vector2f.div_y, Vector2f.sub_y]; ring

theorem Example.length_horizontal (x : ℝ) :
    distance Real.sqrt ⟨0, 0⟩ (⟨x, 0⟩ : Vector2f ℝ) = |x| := by
  apply distance_eq_of_mul_self isSqrt_real _ _ (abs_nonneg x)
  simp

end Ticking

section ExampleSteps

variable {K : Type} [LinearOrderedField K]

theorem Example.not_near :
    ¬ (distance Real.sqrt (Example.pairHeap (50 : ℝ) 0).position
          (Example.pairHeap (50 : ℝ) 1).position > 100
        ∨ distance Real.sqrt (Example.pairHeap (50 : ℝ) 0).position
          (Example.pairHeap (50 : ℝ) 1).position ≤ Graph.FLT_EPSILON) := by
  rw [Example.distance_pair]
  rintro (h | h)
  · norm_num at h
  · exact absurd Example.eps_lt_fifty (not_lt.2 h)

theorem Example.clamp_horizontal (x : ℝ) (hx : |x| ≤ 300) :
    Reference.clamp Real.sqrt (⟨x, 0⟩ : Vector2f ℝ) = ⟨x, 0⟩ :=
  Reference.clamp_of_le _ _ (by rw [Example.length_horizontal]; exact hx)

/-- What the code does on two unlinked nodes at (0, 0) and (50, 0) when the clock reads
1 and then 2: the first node moves to (-100, 0), the second to (250, 0). -/
theorem Example.update_pair_ticking :
    (Graph.Update Real.sqrt Example.tickingClock ⟨[0, 1], []⟩
        (Example.pairHeap (50 : ℝ)) 0).position = ⟨-100, 0⟩
      ∧ (Graph.Update Real.sqrt Example.tickingClock ⟨[0, 1], []⟩
        (Example.pairHeap (50 : ℝ)) 1).position = ⟨250, 0⟩ := by
  have hp := Graph.total_nodeForces_pair Real.sqrt Example.tickingClock
    (Example.pairHeap (50 : ℝ)) 0 1 (by decide)
  have ht : (Graph.ComputeRepulsiveForce Real.sqrt Example.tickingClock
      (Example.pairHeap (50 : ℝ)) 0 0 1).2 = 1 := by
    rw [Graph.ComputeRepulsiveForce_snd, if_neg Example.not_near]
  constructor
  · rw [Graph.Update_position isSqrt_real, hp.1, Graph.ComputeRepulsiveForce_fst,
      Example.repulsion_zero_one, Example.pairHeap_zero]
    have hc : (Example.tickingClock 0 : ℝ) = 1 := by simp [Example.tickingClock]
    rw [hc, Example.clamp_horizontal _ (by norm_num)]
    ext <;> simp
  · rw [Graph.Update_position isSqrt_real, hp.2, ht, Graph.ComputeRepulsiveForce_fst,
      Reference.repulsiveForce_swap, Example.repulsion_zero_one, Example.pairHeap_one]
    have hc : (Example.tickingClock 1 : ℝ) = 2 := by simp [Example.tickingClock]; norm_num
    have hn : -(⟨-(100 * (2 : ℝ)), 0⟩ : Vector2f ℝ) = ⟨200, 0⟩ := by
      ext
      · simp; norm_num
      · simp
    rw [hc, hn, Example.clamp_horizontal _ (by norm_num)]
    ext <;> simp <;> norm_num

theorem Example.totalForce_pair (dt : ℝ) :
    Reference.totalForce Real.sqrt dt ⟨[0, 1], []⟩ (Example.pairHeap (50 : ℝ)) 0
        = ⟨-(100 * dt), 0⟩
      ∧ Reference.totalForce Real.sqrt dt ⟨[0, 1], []⟩ (Example.pairHeap (50 : ℝ)) 1
        = -⟨-(100 * dt), 0⟩ := by
  constructor
  · simp [Reference.totalForce, Example.repulsion_zero_one]
  · simp only [Reference.totalForce]
    have : List.filter (fun b => decide (b ≠ 1)) ([0, 1] : List NodePtr) = [0] := by decide
    rw [this]
    simp only [List.map_cons, List.map_nil, List.sum_cons, List.sum_nil, List.filter_nil,
      add_zero]
    rw [Reference.repulsiveForce_swap, Example.repulsion_zero_one]

end ExampleSteps

section PairLemmas

variable {K : Type} [LinearOrderedField K]

/-- Equal positions make equal nodes: a node has no other state. -/
theorem Node.eq_of_position_eq {n m : Node K} (h : n.position = m.position) : n = m := by
  cases n; cases m; exact congrArg Node.mk h

theorem Graph.ComputeRepulsiveForce_coincident {sqrt : K → K} (hs : IsSqrt sqrt)
    (clock : Clock K) (heap : Heap K) (t : Nat) (a b : NodePtr)
    (h : (heap a).position = (heap b).position) :
    (Graph.ComputeRepulsiveForce sqrt clock heap t a b).1 = 0 := by
  rw [Graph.ComputeRepulsiveForce_fst, h]
  exact Reference.repulsiveForce_of_near _ _ _ _
    (by rw [distance_self hs]; exact FLT_EPSILON_pos.le)

theorem Graph.ComputeAttractionForce_coincident {sqrt : K → K} (hs : IsSqrt sqrt)
    (clock : Clock K) (heap : Heap K) (t : Nat) (l : Link)
    (h : (heap l._first).position = (heap l._second).position) :
    (Graph.ComputeAttractionForce sqrt clock heap t l).1 = 0 := by
  rw [Graph.ComputeAttractionForce_fst, h]
  exact Reference.attraction_of_near _ _ _ _
    (by rw [distance_self hs]; exact FLT_EPSILON_pos.le)

/-- The speed cap on a non-negative multiple of a unit vector caps the multiple. -/
theorem Reference.clamp_scale_unit {sqrt : K → K} (hs : IsSqrt sqrt) (u : Vector2f K)
    (hu : distance sqrt ⟨0, 0⟩ u = 1) (c : K) (hc : 0 ≤ c) :
    Reference.clamp sqrt (Vector2f.scale c u) = Vector2f.scale (min c 300) u := by
  have hlen : distance sqrt ⟨0, 0⟩ (Vector2f.scale c u) = c := by
    rw [length_scale hs c hc, hu, mul_one]
  rcases lt_or_le 300 c with h | h
  · rw [Reference.clamp_of_gt sqrt _ (by rw [hlen]; exact h), hlen, min_eq_right h.le,
      Vector2f.div_eq_scale, Vector2f.scale_scale, Vector2f.scale_scale]
    have hc0 : c ≠ 0 := (lt_trans (by norm_num) h).ne.symm
    congr 1
    field_simp
  · rw [Reference.clamp_of_le sqrt _ (by rw [hlen]; exact h), min_eq_left h]

end PairLemmas

section ExamplePairLinked

/-- What the code does on two linked nodes at (0, 0) and (50, 0) when the clock reads
1, 2 and 3 at its three reads: the first node moves to (200, 0), the second to
(-50, 0). -/
theorem Example.update_linked_pair_ticking :
    (Graph.Update Real.sqrt Example.tickingClock ⟨[0, 1], [⟨0, 1⟩]⟩
        (Example.pairHeap (50 : ℝ)) 0).position = ⟨200, 0⟩
      ∧ (Graph.Update Real.sqrt Example.tickingClock ⟨[0, 1], [⟨0, 1⟩]⟩
        (Example.pairHeap (50 : ℝ)) 1).position = ⟨-50, 0⟩ := by
  have hp := Graph.total_nodeForces_linked_pair Real.sqrt Example.tickingClock
    (Example.pairHeap (50 : ℝ)) 0 1 (by decide)
  have ht : (Graph.ComputeRepulsiveForce Real.sqrt Example.tickingClock
      (Example.pairHeap (50 : ℝ)) 0 0 1).2 = 1 := by
    rw [Graph.ComputeRepulsiveForce_snd, if_neg Example.not_near]
  have hnear : ¬ (distance Real.sqrt (Example.pairHeap (50 : ℝ) 1).position
          (Example.pairHeap (50 : ℝ) 0).position > 100
        ∨ distance Real.sqrt (Example.pairHeap (50 : ℝ) 1).position
          (Example.pairHeap (50 : ℝ) 0).position ≤ Graph.FLT_EPSILON) := by
    rw [distance_comm]; exact Example.not_near
  have ht2 : (Graph.ComputeRepulsiveForce Real.sqrt Example.tickingClock
      (Example.pairHeap (50 : ℝ)) 1 1 0).2 = 2 := by
    rw [Graph.ComputeRepulsiveForce_snd, if_neg hnear]
  have hc0 : (Example.tickingClock 0 : ℝ) = 1 := by simp [Example.tickingClock]
  have hc1 : (Example.tickingClock 1 : ℝ) = 2 := by simp [Example.tickingClock]; norm_num
  have hc2 : (Example.tickingClock 2 : ℝ) = 3 := by simp [Example.tickingClock]; norm_num
  rw [ht, ht2] at hp
  simp only [Graph.ComputeRepulsiveForce_fst, Graph.ComputeAttractionForce_fst, hc0, hc1, hc2,
    Reference.repulsiveForce_swap Real.sqrt 2 (Example.pairHeap (50 : ℝ) 0).position,
    Example.repulsion_zero_one, Example.attraction_zero_one] at hp
  constructor
  · rw [Graph.Update_position isSqrt_real, hp.1, Example.pairHeap_zero]
    have hv : (⟨-(100 * 1), 0⟩ : Vector2f ℝ) + -⟨-(100 * 3), 0⟩ = ⟨200, 0⟩ := by
      ext
      · simp; norm_num
      · simp
    rw [hv, Example.clamp_horizontal _ (by norm_num)]
    ext <;> simp
  · rw [Graph.Update_position isSqrt_real, hp.2, Example.pairHeap_one]
    have hv : -(⟨-(100 * 2), 0⟩ : Vector2f ℝ) + ⟨-(100 * 3), 0⟩ = ⟨-100, 0⟩ := by
      ext
      · simp; norm_num
      · simp
    rw [hv, Example.clamp_horizontal _ (by norm_num)]
    ext
    · simp; norm_num
    · simp

end ExamplePairLinked

section CoincidentLemmas

variable {K : Type} [LinearOrderedField K]

/-- A graph of two nodes at the same position, with links among them only, is not
moved by a step, whatever the clock reads. -/
theorem Graph.Update_coincident_pair {sqrt : K → K} (hs : IsSqrt sqrt) (clock : Clock K)
    (heap : Heap K) (a b : NodePtr) (hpos : (heap a).position = (heap b).position)
    (links : List Link)
    (hl : ∀ l ∈ links, (l._first = a ∨ l._first = b) ∧ (l._second = a ∨ l._second = b)) :
    Graph.Update sqrt clock ⟨[a, b], links⟩ heap = heap := by
  have hmem : ∀ p, p = a ∨ p = b → (heap p).position = (heap a).position := by
    rintro p (rfl | rfl)
    · rfl
    · exact hpos.symm
  apply Graph.Update_eq_self_of_forces_zero hs
  · intro t p q hp hq _
    apply Graph.ComputeRepulsiveForce_coincident hs
    rw [hmem p (by simpa using hp), hmem q (by simpa using hq)]
  · intro t l hl2
    apply Graph.ComputeAttractionForce_coincident hs
    rw [hmem _ (hl l hl2).1, hmem _ (hl l hl2).2]

/-- The vector from `b` to `a` is its length times its unit vector. -/
theorem scale_distance_div {sqrt : K → K} (v : Vector2f K)
    (h : 0 < distance sqrt ⟨0, 0⟩ v) :
    Vector2f.scale (distance sqrt ⟨0, 0⟩ v) (v.div (distance sqrt ⟨0, 0⟩ v)) = v := by
  have h0 := h.ne.symm
  ext
  · simp only [Vector2f.scale_x, Vector2f.div_x]; field_simp
  · simp only [Vector2f.scale_y, Vector2f.div_y]; field_simp

end CoincidentLemmas

/-! ## The loader on well-formed input -/

namespace Loader

variable {K : Type} [Zero K]

theorem wellFormedInput_eq (coords : List (Field × Field)) (pairs : List (Nat × Nat)) :
    wellFormedInput coords pairs
      = goodStream false (Field.int (coords.length : Int)
          :: (coordFields coords ++ pairFields pairs)) := rfl

/-- The extraction of a `float` from a numeric field in a good stream: the field is
used up, and `failbit` is set when the number is out of range. -/
theorem readFloat_field (strtof : ℚ → K × Bool) (tr : Bool) (f : Field) (hf : f ≠ Field.text)
    (rest : List Field) :
    IStream.readFloat strtof (goodStream tr (f :: rest))
      = (some (strtof f.value).1,
          if (strtof f.value).2 then (goodStream tr rest).failed else goodStream tr rest) := by
  cases f with
  | int z => simp [goodStream, IStream.readFloat, IStream.sentry, IStream.consumed]
  | dec negative whole part =>
    simp [goodStream, IStream.readFloat, IStream.sentry, IStream.consumed]
  | frac x => simp [goodStream, IStream.readFloat, IStream.sentry, IStream.consumed]
  | text => exact absurd rfl hf

theorem readFloat_number (strtof : ℚ → K × Bool) (tr : Bool) (f : Field) (hf : f ≠ Field.text)
    (hok : (strtof f.value).2 = false) (rest : List Field) :
    IStream.readFloat strtof (goodStream tr (f :: rest))
      = (some (strtof f.value).1, goodStream tr rest) := by
  rw [readFloat_field strtof tr f hf, hok]
  simp

theorem readInt_int (tr : Bool) (z : Int) (rest : List Field) :
    IStream.readInt (goodStream tr (Field.int z :: rest))
      = (some z, goodStream tr rest) := by
  simp [goodStream, IStream.readInt, IStream.sentry, IStream.consumed]

theorem readSize_nat (tr : Bool) (n : Nat) (rest : List Field) :
    IStream.readSize (goodStream tr (Field.int (n : Int) :: rest))
      = (some n, goodStream tr rest) := by
  simp [IStream.readSize, readInt_int]

theorem foldl_push {α : Type} (l acc : List α) :
    l.foldl (fun acc x => acc ++ [x]) acc = acc ++ l := by
  induction l generalizing acc with
  | nil => simp
  | cons a rest ih => simp [List.foldl_cons, ih]

theorem AddNodes_eq (g : Graph) (nodes : List NodePtr) :
    g.AddNodes nodes = ⟨g._nodes ++ nodes, g._links⟩ := by
  simp [Graph.AddNodes, foldl_push]

theorem AddLinks_eq (g : Graph) (links : List Link) :
    g.AddLinks links = ⟨g._nodes, g._links ++ links⟩ := by
  simp [Graph.AddLinks, foldl_push]

/-- The node loop on well-formed coordinates in the range of `float` allocates one node
per pair. -/
theorem readNodes_coords (strtof : ℚ → K × Bool) (alloc : Nat → NodePtr) (tr : Bool)
    (coords : List (Field × Field))
    (hc : ∀ c ∈ coords, c.1 ≠ Field.text ∧ c.2 ≠ Field.text)
    (hok : ∀ c ∈ coords, (strtof c.1.value).2 = false ∧ (strtof c.2.value).2 = false)
    (rest : List Field) (heap : Heap K) (nodes : List NodePtr) :
    readNodes strtof alloc coords.length (goodStream tr (coordFields coords ++ rest)) heap nodes
      = Outcome.returned
          ⟨goodStream tr rest, placeNodes strtof alloc coords nodes.length heap,
            nodes ++ (List.range coords.length).map (fun i => alloc (nodes.length + i))⟩ := by
  induction coords generalizing heap nodes with
  | nil => simp [readNodes, coordFields, placeNodes]
  | cons c cs ih =>
    have h1 := hc c (List.mem_cons_self _ _)
    have h2 := hok c (List.mem_cons_self _ _)
    simp only [List.length_cons, readNodes, coordFields, List.cons_append]
    rw [readFloat_number strtof tr c.1 h1.1 h2.1, readFloat_number strtof tr c.2 h1.2 h2.2]
    simp only []
    rw [ih (fun c hc2 => hc c (List.mem_cons_of_mem _ hc2))
      (fun c hc2 => hok c (List.mem_cons_of_mem _ hc2))]
    simp only [placeNodes, List.length_append, List.length_singleton, List.append_assoc,
      List.singleton_append]
    congr 2
    rw [List.range_succ_eq_map]
    simp [Function.comp_def, Nat.add_assoc, Nat.add_comm 1]

theorem nodeAt_nat (nodes : List NodePtr) (a : Nat) (h1 : 1 ≤ a) (h2 : a ≤ nodes.length) :
    nodeAt nodes (some (a : Int)) = some (nodes.getD (a - 1) 0) := by
  have hlt : a - 1 < nodes.length := by omega
  have h3 : ((a : Int) - 1).toNat = a - 1 := by omega
  have h4 : (1 : Int) ≤ (a : Int) := by exact_mod_cast h1
  simp only [nodeAt, if_pos h4, h3]
  rw [List.getD_eq_getElem?_getD, List.get?_eq_getElem?, List.getElem?_eq_getElem hlt]
  rfl

/-- The link loop on well-formed index pairs builds one link per pair and stops at
the end of the input. -/
theorem readLinks_pairs (nodes : List NodePtr) (pairs : List (Nat × Nat))
    (hp : ∀ p ∈ pairs, (1 ≤ p.1 ∧ p.1 ≤ nodes.length) ∧ (1 ≤ p.2 ∧ p.2 ≤ nodes.length))
    (fuel : Nat) (hf : pairs.length < fuel) (links : List Link) :
    readLinks nodes fuel (goodStream false (pairFields pairs)) links
      = Outcome.returned
          (goodStream false [],
            links ++ pairs.map
              (fun p => ⟨nodes.getD (p.1 - 1) 0, nodes.getD (p.2 - 1) 0⟩)) := by
  induction pairs generalizing fuel links with
  | nil =>
    obtain ⟨f, rfl⟩ : ∃ f, fuel = f + 1 := ⟨fuel - 1, by omega⟩
    simp [readLinks, pairFields, goodStream, IStream.eof]
  | cons p ps ih =>
    obtain ⟨f, rfl⟩ : ∃ f, fuel = f + 1 := ⟨fuel - 1, by omega⟩
    have h1 := hp p (List.mem_cons_self _ _)
    have hf2 : ps.length < f := by simpa using hf
    have heof : IStream.eof (goodStream false (Field.int (p.1 : Int) :: Field.int (p.2 : Int)
        :: pairFields ps)) = false := rfl
    simp only [pairFields, readLinks, heof, readInt_int, nodeAt_nat nodes p.1 h1.1.1 h1.1.2,
      nodeAt_nat nodes p.2 h1.2.1 h1.2.2]
    rw [ih (fun q hq => hp q (List.mem_cons_of_mem _ hq)) f hf2]
    simp

theorem pairFields_length (pairs : List (Nat × Nat)) :
    (pairFields pairs).length = 2 * pairs.length := by
  induction pairs with
  | nil => rfl
  | cons p ps ih => simp only [pairFields, List.length_cons, ih]; omega

/-- Allocating nodes leaves every address that is not handed out as it was. -/
theorem placeNodes_of_ne (strtof : ℚ → K × Bool) (alloc : Nat → NodePtr)
    (coords : List (Field × Field))
    (start : Nat) (heap : Heap K) (p : NodePtr) (h : ∀ j, start ≤ j → alloc j ≠ p) :
    placeNodes strtof alloc coords start heap p = heap p := by
  induction coords generalizing start heap with
  | nil => rfl
  | cons c cs ih =>
    rw [placeNodes, ih (start + 1) _ (fun j hj => h j (by omega)),
      Function.update_noteq (h start le_rfl).symm]

/-- With an allocator that never hands out an address twice, the node allocated for
the `i`-th coordinate pair holds what `strtof` makes of that pair. -/
theorem placeNodes_alloc (strtof : ℚ → K × Bool) (alloc : Nat → NodePtr)
    (halloc : Function.Injective alloc)
    (coords : List (Field × Field)) (start : Nat) (heap : Heap K) (i : Nat)
    (hi : i < coords.length) :
    placeNodes strtof alloc coords start heap (alloc (start + i))
      = ⟨⟨(strtof coords[i].1.value).1, (strtof coords[i].2.value).1⟩⟩ := by
  induction coords generalizing start heap i with
  | nil => simp at hi
  | cons c cs ih =>
    rw [placeNodes]
    cases i with
    | zero =>
      have h0 : start + 0 = start := rfl
      rw [h0, placeNodes_of_ne strtof alloc cs (start + 1) _ (alloc start)
        (fun j hj hh => by have := halloc hh; omega)]
      simp
    | succ k =>
      have hk : k < cs.length := by simpa using hi
      have := ih (start + 1) (Function.update heap (alloc start)
        ⟨⟨(strtof c.1.value).1, (strtof c.2.value).1⟩⟩) k hk
      rw [show start + (k + 1) = start + 1 + k by omega, this]
      simp

/-! ## The loader after a failed extraction -/

/-- On a stream with `failbit` set an extraction of an `int` stores nothing. -/
theorem readInt_stuck (s : IStream) (h : s.failbit = true) : s.readInt = (none, s) := by
  obtain ⟨fields, trailing, eofbit, failbit⟩ := s
  simp only at h
  subst h
  simp [IStream.readInt, IStream.sentry]

/-- On a stream with `failbit` set an extraction of a `float` stores nothing. -/
theorem readFloat_stuck (strtof : ℚ → K × Bool) (s : IStream) (h : s.failbit = true) :
    s.readFloat strtof = (none, s) := by
  obtain ⟨fields, trailing, eofbit, failbit⟩ := s
  simp only at h
  subst h
  simp [IStream.readFloat, IStream.sentry]

/-- The node loop with an iteration to go, on a stream with `failbit` set, constructs a
node from the uninitialised `x` and `y`. -/
theorem readNodes_stuck (strtof : ℚ → K × Bool) (alloc : Nat → NodePtr) (n : Nat)
    (s : IStream) (h : s.failbit = true) (heap : Heap K) (nodes : List NodePtr) :
    readNodes strtof alloc (n + 1) s heap nodes = Outcome.undefined := by
  simp [readNodes, readFloat_stuck strtof s h]

/-- The link loop on a stream with `failbit` set and `eofbit` clear builds a link from
the uninitialised `first` and `second`. -/
theorem readLinks_stuck (nodes : List NodePtr) (fuel : Nat) (s : IStream)
    (h : s.failbit = true) (he : s.eofbit = false) (links : List Link) :
    readLinks nodes (fuel + 1) s links = Outcome.undefined := by
  simp [readLinks, IStream.eof, he, readInt_stuck s h, nodeAt]

/-- When a coordinate is out of the range of `float` and the input goes on after the
coordinates, the node loop ends in undefined behaviour or returns with `failbit` set
and `eofbit` clear. -/
theorem readNodes_overflow (strtof : ℚ → K × Bool) (alloc : Nat → NodePtr) (tr : Bool)
    (coords : List (Field × Field))
    (hc : ∀ c ∈ coords, c.1 ≠ Field.text ∧ c.2 ≠ Field.text)
    (hbad : ¬ ∀ c ∈ coords, (strtof c.1.value).2 = false ∧ (strtof c.2.value).2 = false)
    (rest : List Field) (hrest : rest ≠ []) (heap : Heap K) (nodes : List NodePtr) :
    readNodes strtof alloc coords.length (goodStream tr (coordFields coords ++ rest)) heap nodes
        = Outcome.undefined
      ∨ ∃ r, readNodes strtof alloc coords.length
            (goodStream tr (coordFields coords ++ rest)) heap nodes = Outcome.returned r
          ∧ r.stream.failbit = true ∧ r.stream.eofbit = false := by
  induction coords generalizing heap nodes with
  | nil => exact absurd (fun c hc2 => by simp at hc2) hbad
  | cons c cs ih =>
    have h1 := hc c (List.mem_cons_self _ _)
    simp only [List.length_cons, readNodes, coordFields, List.cons_append]
    rw [readFloat_field strtof tr c.1 h1.1]
    by_cases hx : (strtof c.1.value).2 = false
    · simp only [hx, Bool.false_eq_true, if_false]
      rw [readFloat_field strtof tr c.2 h1.2]
      by_cases hy : (strtof c.2.value).2 = false
      · simp only [hy, Bool.false_eq_true, if_false]
        apply ih (fun c hc2 => hc c (List.mem_cons_of_mem _ hc2))
        intro hall
        apply hbad
        intro d hd
        rcases List.mem_cons.1 hd with rfl | hd2
        · exact ⟨hx, hy⟩
        · exact hall d hd2
      · have hy2 : (strtof c.2.value).2 = true := by simpa using hy
        simp only [hy2, if_true]
        cases cs with
        | nil =>
          right
          refine ⟨_, rfl, rfl, ?_⟩
          cases rest with
          | nil => exact absurd rfl hrest
          | cons f fs => simp [IStream.failed, goodStream, coordFields]
        | cons d ds =>
          left
          exact readNodes_stuck strtof alloc _ _ rfl _ _
    · have hx2 : (strtof c.1.value).2 = true := by simpa using hx
      left
      simp only [hx2, if_true]
      rw [readFloat_stuck strtof _ rfl]

/-- When the link loop on the fields after the coordinates ends in undefined behaviour,
so does the loader, whether or not a coordinate is out of the range of `float`. -/
theorem readGraph_undefined_of_links (strtof : ℚ → K × Bool) (alloc : Nat → NodePtr)
    (graph : Graph) (heap : Heap K) (tr : Bool) (coords : List (Field × Field))
    (hc : ∀ c ∈ coords, c.1 ≠ Field.text ∧ c.2 ≠ Field.text)
    (rest : List Field) (hrest : rest ≠ [])
    (hlinks : readLinks ((List.range coords.length).map (fun i => alloc (0 + i)))
      (rest.length + 1) (goodStream tr rest) [] = Outcome.undefined) :
    readGraph strtof alloc
        (goodStream tr (Field.int (coords.length : Int) :: (coordFields coords ++ rest)))
        graph heap = Outcome.undefined := by
  unfold readGraph
  rw [readSize_nat]
  simp only []
  by_cases hok : ∀ c ∈ coords, (strtof c.1.value).2 = false ∧ (strtof c.2.value).2 = false
  · rw [readNodes_coords strtof alloc tr coords hc hok rest heap []]
    simp only [List.nil_append, List.length_nil]
    have hgs : (goodStream tr rest).fields = rest := rfl
    rw [hgs, hlinks]
  · rcases readNodes_overflow strtof alloc tr coords hc hok rest hrest heap [] with h | h
    · rw [h]
    · obtain ⟨r, hr, hf, he⟩ := h
      rw [hr]
      simp only []
      rw [readLinks_stuck r.nodes _ r.stream hf he]

end Loader

/-! ## The loader always ends -/

namespace Loader

variable {K : Type} [Zero K]

theorem nodeAt_zero (nodes : List NodePtr) : nodeAt nodes (some 0) = none := by
  simp [nodeAt]

theorem nodeAt_none (nodes : List NodePtr) : nodeAt nodes none = none := rfl

/-- An extraction of an index that yields an element of `nodes` either uses up a field
or stops in front of the fraction of a decimal literal. -/
theorem readInt_progress (nodes : List NodePtr) (s : IStream) (p : NodePtr)
    (h : nodeAt nodes s.readInt.1 = some p) :
    s.readInt.2.fields.length + 1 = s.fields.length
      ∨ (s.readInt.2.fields.length = s.fields.length
        ∧ ∀ q, nodeAt nodes s.readInt.2.readInt.1 ≠ some q) := by
  obtain ⟨fields, trailing, eofbit, failbit⟩ := s
  cases eofbit <;> cases failbit <;>
    try (simp [IStream.readInt, IStream.sentry, nodeAt_none] at h)
  cases fields with
  | nil => simp [IStream.readInt, IStream.sentry, nodeAt_none] at h
  | cons f rest =>
    cases f with
    | int z => left; simp [IStream.readInt, IStream.sentry, IStream.consumed]
    | dec negative whole frac =>
      right
      simp [IStream.readInt, IStream.sentry, IStream.failed, nodeAt_zero]
    | frac x => simp [IStream.readInt, IStream.sentry, nodeAt_zero] at h
    | text => simp [IStream.readInt, IStream.sentry, nodeAt_zero] at h

/-- An extraction never adds a field. -/
theorem readInt_length_le (s : IStream) : s.readInt.2.fields.length ≤ s.fields.length := by
  obtain ⟨fields, trailing, eofbit, failbit⟩ := s
  cases eofbit <;> cases failbit <;> try (simp [IStream.readInt, IStream.sentry])
  cases fields with
  | nil => simp [IStream.readInt, IStream.sentry]
  | cons f rest =>
    cases f <;> simp [IStream.readInt, IStream.sentry, IStream.consumed, IStream.failed]

/-- The bound on the iterations of the link loop in `readGraph` is never reached. -/
theorem readLinks_ne_outOfFuel (nodes : List NodePtr) (fuel : Nat) (s : IStream)
    (links : List Link) (h : s.fields.length < fuel) :
    readLinks nodes fuel s links ≠ Outcome.outOfFuel := by
  induction fuel generalizing s links with
  | zero => omega
  | succ f ih =>
    rw [readLinks]
    split_ifs with heof
    · simp
    · cases h1 : nodeAt nodes s.readInt.1 with
      | none => simp [h1]
      | some first =>
        cases h2 : nodeAt nodes s.readInt.2.readInt.1 with
        | none => simp [h1, h2]
        | some second =>
          simp only [h1, h2]
          apply ih
          have hle := readInt_length_le s.readInt.2
          rcases readInt_progress nodes s first h1 with hp | hp
          · omega
          · exact absurd h2 (hp.2 second)

/-- The loader never stops for lack of loop iterations in the model. -/
theorem readGraph_ne_outOfFuel (strtof : ℚ → K × Bool) (alloc : Nat → NodePtr)
    (stream : IStream) (graph : Graph) (heap : Heap K) :
    readGraph strtof alloc stream graph heap ≠ Outcome.outOfFuel := by
  have hnodes : ∀ (n : Nat) (s : IStream) (hp : Heap K) (nodes : List NodePtr),
      readNodes strtof alloc n s hp nodes ≠ Outcome.outOfFuel := by
    intro n
    induction n with
    | zero => intro s hp nodes; simp [readNodes]
    | succ n ih =>
      intro s hp nodes
      rw [readNodes]
      cases hx : (s.readFloat strtof).1 <;>
        cases hy : ((s.readFloat strtof).2.readFloat strtof).1 <;> simp [hx, hy, ih]
  unfold readGraph
  cases hs : stream.readSize with
  | mk count s1 =>
    cases count with
    | none => simp
    | some n =>
      simp only []
      cases hr : readNodes strtof alloc n s1 heap [] with
      | returned r =>
        simp only []
        cases hl : readLinks r.nodes (r.stream.fields.length + 1) r.stream [] with
        | returned x => simp
        | undefined => simp
        | outOfFuel =>
          exact absurd hl (readLinks_ne_outOfFuel _ _ _ _ (Nat.lt_succ_self _))
      | undefined => simp
      | outOfFuel => exact absurd hr (hnodes _ _ _ _)

end Loader

/-! ## What the loader does on input it cannot use -/

namespace Loader

variable {K : Type} [Zero K]

/-- After an extraction that stored a value, `eofbit` is only set at the very end of
the input, and a non-numeric field that was in the stream still is. -/
theorem readInt_some (s : IStream) (v : Int) (h : s.readInt.1 = some v) :
    (s.readInt.2.eofbit = true → s.readInt.2.fields = [])
      ∧ (Field.text ∈ s.fields → Field.text ∈ s.readInt.2.fields) := by
  obtain ⟨fields, trailing, eofbit, failbit⟩ := s
  cases eofbit <;> cases failbit <;> try (simp [IStream.readInt, IStream.sentry] at h)
  cases fields with
  | nil => simp [IStream.readInt, IStream.sentry] at h
  | cons f rest =>
    cases f <;> simp [IStream.readInt, IStream.sentry, IStream.consumed, IStream.failed] <;>
      (try (intro h1 _; exact h1))

theorem readFloat_some (strtof : ℚ → K × Bool) (s : IStream) (v : K)
    (h : (s.readFloat strtof).1 = some v) :
    ((s.readFloat strtof).2.eofbit = true → (s.readFloat strtof).2.fields = [])
      ∧ (Field.text ∈ s.fields → Field.text ∈ (s.readFloat strtof).2.fields) := by
  obtain ⟨fields, trailing, eofbit, failbit⟩ := s
  cases eofbit <;> cases failbit <;> try (simp [IStream.readFloat, IStream.sentry] at h)
  cases fields with
  | nil => simp [IStream.readFloat, IStream.sentry] at h
  | cons f rest =>
    cases f with
    | int z =>
      cases hb : (strtof (Field.int z).value).2 <;>
        simp [IStream.readFloat, IStream.sentry, IStream.consumed, IStream.failed, hb] <;>
        (intro h1 _; exact h1)
    | dec negative whole part =>
      cases hb : (strtof (Field.dec negative whole part).value).2 <;>
        simp [IStream.readFloat, IStream.sentry, IStream.consumed, IStream.failed, hb] <;>
        (intro h1 _; exact h1)
    | frac part =>
      cases hb : (strtof (Field.frac part).value).2 <;>
        simp [IStream.readFloat, IStream.sentry, IStream.consumed, IStream.failed, hb] <;>
        (intro h1 _; exact h1)
    | text => simp [IStream.readFloat, IStream.sentry, IStream.failed]

theorem readSize_some (s : IStream) (n : Nat) (h : s.readSize.1 = some n) :
    (s.readSize.2.eofbit = true → s.readSize.2.fields = [])
      ∧ (Field.text ∈ s.fields → Field.text ∈ s.readSize.2.fields) := by
  unfold IStream.readSize at h ⊢
  cases hr : s.readInt with
  | mk v s1 =>
    cases v with
    | none => rw [hr] at h; simp at h
    | some z =>
      have := readInt_some s z (by rw [hr])
      rw [hr] at this
      simpa using this

/-- The node loop keeps a non-numeric field in the stream. -/
theorem readNodes_text (strtof : ℚ → K × Bool) (alloc : Nat → NodePtr) (n : Nat)
    (s : IStream) (heap : Heap K) (nodes : List NodePtr) (r : NodesRead K)
    (hJ : s.eofbit = true → s.fields = []) (hM : Field.text ∈ s.fields)
    (h : readNodes strtof alloc n s heap nodes = Outcome.returned r) :
    (r.stream.eofbit = true → r.stream.fields = []) ∧ Field.text ∈ r.stream.fields := by
  induction n generalizing s heap nodes with
  | zero =>
    simp only [readNodes, Outcome.returned.injEq] at h
    subst h
    exact ⟨hJ, hM⟩
  | succ n ih =>
    rw [readNodes] at h
    cases hx : s.readFloat strtof with
    | mk rx s1 =>
      cases hy : s1.readFloat strtof with
      | mk ry s2 =>
        rw [hx] at h
        simp only [hy] at h
        cases rx with
        | none => simp at h
        | some x =>
          cases ry with
          | none => simp at h
          | some y =>
            simp only [] at h
            have h1 := readFloat_some strtof s x (by rw [hx])
            rw [hx] at h1
            have h2 := readFloat_some strtof s1 y (by rw [hy])
            rw [hy] at h2
            exact ih s2 _ _ h2.1 (h2.2 (h1.2 hM)) h

/-- The link loop does not return while a non-numeric field is in the stream. -/
theorem readLinks_text (nodes : List NodePtr) (fuel : Nat) (s : IStream)
    (links : List Link) (hJ : s.eofbit = true → s.fields = []) (hM : Field.text ∈ s.fields)
    (x : IStream × List Link) : readLinks nodes fuel s links ≠ Outcome.returned x := by
  induction fuel generalizing s links with
  | zero => simp [readLinks]
  | succ f ih =>
    rw [readLinks]
    split_ifs with heof
    · have := hJ heof
      rw [this] at hM
      simp at hM
    · cases h1 : s.readInt with
      | mk rf s1 =>
        cases h2 : s1.readInt with
        | mk rs s2 =>
          simp only [h2]
          cases rf with
          | none => simp [nodeAt]
          | some a =>
            cases rs with
            | none => cases nodeAt nodes (some a) <;> simp [nodeAt]
            | some b =>
              have i1 := readInt_some s a (by rw [h1])
              rw [h1] at i1
              have i2 := readInt_some s1 b (by rw [h2])
              rw [h2] at i2
              cases nodeAt nodes (some a) with
              | none => simp
              | some first =>
                cases nodeAt nodes (some b) with
                | none => simp
                | some second => exact ih s2 _ i2.1 (i2.2 (i1.2 hM))

/-- An index outside `[1, nodes.size()]` is out of the bounds of `nodes`. -/
theorem nodeAt_out_of_range (nodes : List NodePtr) (i : Int)
    (h : ¬ (1 ≤ i ∧ i ≤ (nodes.length : Int))) : nodeAt nodes (some i) = none := by
  unfold nodeAt
  simp only []
  split_ifs with h1
  · have h2 : nodes.length ≤ (i - 1).toNat := by omega
    rw [List.get?_eq_getElem?]
    exact List.getElem?_eq_none h2
  · rfl

/-- An index inside `[1, nodes.size()]` names an element of `nodes`. -/
theorem nodeAt_in_range (nodes : List NodePtr) (i : Int)
    (h : 1 ≤ i ∧ i ≤ (nodes.length : Int)) : ∃ p, nodeAt nodes (some i) = some p := by
  unfold nodeAt
  simp only [if_pos h.1]
  have h2 : (i - 1).toNat < nodes.length := by omega
  exact ⟨nodes[(i - 1).toNat], by rw [List.get?_eq_getElem?, List.getElem?_eq_getElem h2]⟩

/-- The link loop on integer pairs one of which is out of range ends in undefined
behaviour. -/
theorem readLinks_out_of_range (nodes : List NodePtr) (tr : Bool) (pairs : List (Int × Int))
    (hbad : ∃ p ∈ pairs, ¬ ((1 ≤ p.1 ∧ p.1 ≤ (nodes.length : Int))
      ∧ (1 ≤ p.2 ∧ p.2 ≤ (nodes.length : Int))))
    (fuel : Nat) (hf : pairs.length ≤ fuel) (links : List Link) :
    readLinks nodes fuel (goodStream tr (indexFields pairs) : IStream) links
      = Outcome.undefined := by
  induction pairs generalizing fuel links with
  | nil => obtain ⟨p, hp, _⟩ := hbad; simp at hp
  | cons p ps ih =>
    obtain ⟨f, rfl⟩ : ∃ f, fuel = f + 1 := ⟨fuel - 1, by simp at hf; omega⟩
    have hf2 : ps.length ≤ f := by simpa using hf
    have heof : IStream.eof (goodStream tr (Field.int p.1 :: Field.int p.2
        :: indexFields ps) : IStream) = false := rfl
    simp only [indexFields, readLinks, heof, readInt_int]
    by_cases hp : (1 ≤ p.1 ∧ p.1 ≤ (nodes.length : Int))
        ∧ (1 ≤ p.2 ∧ p.2 ≤ (nodes.length : Int))
    · obtain ⟨a, ha⟩ := nodeAt_in_range nodes p.1 hp.1
      obtain ⟨b, hb⟩ := nodeAt_in_range nodes p.2 hp.2
      rw [ha, hb]
      simp only [Bool.false_eq_true, if_false]
      apply ih _ f hf2
      obtain ⟨q, hq, hq2⟩ := hbad
      rcases List.mem_cons.1 hq with rfl | hq3
      · exact absurd hp hq2
      · exact ⟨q, hq3, hq2⟩
    · rcases not_and_or.1 hp with h1 | h1
      · rw [nodeAt_out_of_range nodes p.1 h1]
        simp
      · rw [nodeAt_out_of_range nodes p.2 h1]
        cases nodeAt nodes (some p.1) <;> simp

theorem indexFields_length (pairs : List (Int × Int)) :
    (indexFields pairs : List (Field)).length = 2 * pairs.length := by
  induction pairs with
  | nil => rfl
  | cons p ps ih => simp only [indexFields, List.length_cons, ih]; omega

end Loader

/-! ## The rounding and the square root of the binary32 model -/

/-- Halving as often as the number is large finds the highest set bit: `n` is below two
to the power `log2Fuel fuel n + 1` when `fuel` is at least `n`. -/
theorem Binary32.lt_two_pow_log2Fuel (fuel : Nat) :
    ∀ n : Nat, n ≤ fuel → n < 2 ^ (Binary32.log2Fuel fuel n + 1) := by
  induction fuel with
  | zero =>
    intro n h
    have : n = 0 := by omega
    subst this
    simp [Binary32.log2Fuel]
  | succ k ih =>
    intro n h
    unfold Binary32.log2Fuel
    split_ifs with h2
    · simpa using h2
    · have h3 : n / 2 ≤ k := by omega
      have h4 := ih (n / 2) h3
      rw [pow_succ]
      omega

/-- The loop of the integer square root keeps `root * root ≤ n < (root + 2 ^ bit) ^ 2`
and ends with the bit 0. -/
theorem Binary32.sqrtBits_spec (n : Nat) (bit : Nat) :
    ∀ root : Nat, root * root ≤ n → n < (root + 2 ^ bit) * (root + 2 ^ bit) →
      Binary32.sqrtBits n bit root * Binary32.sqrtBits n bit root ≤ n
        ∧ n < (Binary32.sqrtBits n bit root + 1) * (Binary32.sqrtBits n bit root + 1) := by
  induction bit with
  | zero =>
    intro root h1 h2
    simpa [Binary32.sqrtBits] using And.intro h1 h2
  | succ k ih =>
    intro root h1 h2
    unfold Binary32.sqrtBits
    split_ifs with h3
    · refine ih _ h3 ?_
      have : root + 2 ^ k + 2 ^ k = root + 2 ^ (k + 1) := by rw [pow_succ]; omega
      rw [this]
      exact h2
    · exact ih _ h1 (not_le.1 h3)

/-- The integer square root is what its name says: `sqrtNat n` is the greatest number
whose square is at most `n`. -/
theorem Binary32.sqrtNat_spec (n : Nat) :
    Binary32.sqrtNat n * Binary32.sqrtNat n ≤ n
      ∧ n < (Binary32.sqrtNat n + 1) * (Binary32.sqrtNat n + 1) := by
  unfold Binary32.sqrtNat
  refine Binary32.sqrtBits_spec n _ 0 (Nat.zero_le _) ?_
  have h := Binary32.lt_two_pow_log2Fuel n n le_rfl
  have h2 : Binary32.log2 n + 1 ≤ 2 * (Binary32.log2 n / 2 + 1) := by omega
  calc n < 2 ^ (Binary32.log2 n + 1) := h
    _ ≤ 2 ^ (2 * (Binary32.log2 n / 2 + 1)) := Nat.pow_le_pow_right (by norm_num) h2
    _ = (0 + 2 ^ (Binary32.log2 n / 2 + 1)) * (0 + 2 ^ (Binary32.log2 n / 2 + 1)) := by
      rw [Nat.zero_add, two_mul, pow_add]

/-- The highest set bit is found: a positive `n` is at least two to the power
`log2Fuel fuel n`. -/
theorem Binary32.two_pow_log2Fuel_le (fuel : Nat) :
    ∀ n : Nat, 0 < n → 2 ^ Binary32.log2Fuel fuel n ≤ n := by
  induction fuel with
  | zero =>
    intro n h
    simpa [Binary32.log2Fuel] using h
  | succ k ih =>
    intro n h
    unfold Binary32.log2Fuel
    split_ifs with h2
    · simpa using h
    · have h4 := ih (n / 2) (by omega)
      rw [pow_succ]
      omega

/-- Rounding goes to a nearest multiple of the unit in the last place: the rounded
number `roundNat p q`, a multiple of `2 ^ k` for `k = log2 (p / q) - 23`, differs from
`p / q` by at most half of `2 ^ k` (the differences are written multiplied by `q`). -/
theorem Binary32.roundNat_nearest (p q : Nat) (hq : 0 < q) :
    2 * (Binary32.roundNat p q * q - p) ≤ q * 2 ^ (Binary32.log2 (p / q) - 23)
      ∧ 2 * (p - Binary32.roundNat p q * q) ≤ q * 2 ^ (Binary32.log2 (p / q) - 23)
      ∧ 2 ^ (Binary32.log2 (p / q) - 23) ∣ Binary32.roundNat p q := by
  unfold Binary32.roundNat
  simp only []
  generalize hd : q * 2 ^ (Binary32.log2 (p / q) - 23) = d
  have hdpos : 0 < d := by rw [← hd]; positivity
  have h1 : d * (p / d) + p % d = p := Nat.div_add_mod p d
  have h2 : p % d < d := Nat.mod_lt p hdpos
  have hmul : ∀ m : Nat, m * 2 ^ (Binary32.log2 (p / q) - 23) * q = d * m := by
    intro m
    rw [← hd]
    ring
  refine ⟨?_, ?_, Dvd.intro_left _ rfl⟩
  · rw [hmul]
    split_ifs with h
    · rw [Nat.mul_succ]
      omega
    · omega
  · rw [hmul]
    split_ifs with h
    · rw [Nat.mul_succ]
      omega
    · omega

/-! ## What rounding does to a step -/

section Binary32Steps

set_option maxRecDepth 20000

set_option exponentiation.threshold 2000

/-- In binary32 the displacements of two linked nodes do not cancel.  The nodes at
(0.1, 0) and (300, 0), with every clock reading 0.1, collect the forces (10, 0) and
(-10, 0); the second node moves to (290, 0), the first to (10.10000038..., 0), the
binary32 number nearest to 10.1 plus the error of the literal 0.1: the sum of the two
displacements is not zero. -/
theorem Example.displacements_rounded :
    ForceMap.find (Graph.nodeForces Binary32.sqrt (Clock.const 0.1) ⟨[0, 1], [⟨0, 1⟩]⟩
        (Example.rowHeap 0.1 300)) 0 = [⟨0, 0⟩, ⟨10, 0⟩]
      ∧ ForceMap.find (Graph.nodeForces Binary32.sqrt (Clock.const 0.1) ⟨[0, 1], [⟨0, 1⟩]⟩
        (Example.rowHeap 0.1 300)) 1 = [⟨0, 0⟩, ⟨-10, 0⟩]
      ∧ (Graph.Update Binary32.sqrt (Clock.const 0.1) ⟨[0, 1], [⟨0, 1⟩]⟩
          (Example.rowHeap 0.1 300) 0).GetPosition = ⟨Binary32.dyadic 5295309 (-19), 0⟩
      ∧ (Graph.Update Binary32.sqrt (Clock.const 0.1) ⟨[0, 1], [⟨0, 1⟩]⟩
          (Example.rowHeap 0.1 300) 1).GetPosition = ⟨290, 0⟩
      ∧ ((Binary32.dyadic 5295309 (-19)).toRat - (0.1 : Binary32).toRat)
          + ((290 : Binary32).toRat - (300 : Binary32).toRat) ≠ 0 := by
  refine ⟨by decide, by decide, by decide, by decide, ?_⟩
  have h1 : Binary32.dyadic 5295309 (-19) = Binary32.fin (5295309 * 2 ^ 130) := by decide
  have h2 : (0.1 : Binary32) = Binary32.fin (13421773 * 2 ^ 122) := by decide
  have h3 : (290 : Binary32) = Binary32.fin (290 * 2 ^ 149) := by decide
  have h4 : (300 : Binary32) = Binary32.fin (300 * 2 ^ 149) := by decide
  rw [h1, h2, h3, h4]
  simp only [Binary32.toRat]
  norm_num

/-- The summed forces of the two linked nodes at (0.1, 0) and (300, 0), with every
clock reading 0.1, are within the speed cap in binary32. -/
theorem Example.displacements_rounded_cap :
    ∀ a ∈ ([0, 1] : List NodePtr),
      distance Binary32.sqrt ⟨0, 0⟩
        (ForceMap.total (Graph.nodeForces Binary32.sqrt (Clock.const 0.1)
          ⟨[0, 1], [⟨0, 1⟩]⟩ (Example.rowHeap 0.1 300)) a)
        ≤ Node.MAX_VELOCITY_MAGNITUDE := by
  decide

/-- In binary32 a small repulsive force is lost in the addition to the position.  The
unlinked nodes at (256, 0) and (355.99609375, 0) are farther apart than `FLT_EPSILON`
and nearer than 100; with every clock reading 2^-10, which is positive, the first
repulsive force is (-2^-17, 0), not zero, and after the step both nodes are where they
were. -/
theorem Example.repulsion_absorbed :
    Graph.FLT_EPSILON
        < Node.distance Binary32.sqrt (Example.rowHeap 256 (Binary32.dyadic 91135 (-8))) 0 1
      ∧ Node.distance Binary32.sqrt (Example.rowHeap 256 (Binary32.dyadic 91135 (-8))) 0 1
        < Graph.REPULSION_DISTANCE
      ∧ (0 : Binary32) < Binary32.dyadic 1 (-10)
      ∧ (Graph.ComputeRepulsiveForce Binary32.sqrt (Clock.const (Binary32.dyadic 1 (-10)))
          (Example.rowHeap 256 (Binary32.dyadic 91135 (-8))) 0 0 1).1
        = ⟨Binary32.dyadic (-1) (-17), 0⟩
      ∧ Graph.Update Binary32.sqrt (Clock.const (Binary32.dyadic 1 (-10))) ⟨[0, 1], []⟩
          (Example.rowHeap 256 (Binary32.dyadic 91135 (-8))) 0
        = Example.rowHeap 256 (Binary32.dyadic 91135 (-8)) 0
      ∧ Graph.Update Binary32.sqrt (Clock.const (Binary32.dyadic 1 (-10))) ⟨[0, 1], []⟩
          (Example.rowHeap 256 (Binary32.dyadic 91135 (-8))) 1
        = Example.rowHeap 256 (Binary32.dyadic 91135 (-8)) 1 := by
  refine ⟨by decide, by decide, by decide, by decide, by decide, by decide⟩

/-- In binary32 a step can turn the coordinates of nodes on the line `y = 0` into NaN.
For the linked nodes at (3e38, 0) and (-3e38, 0), with every clock reading 0.1, the
difference of the x-coordinates overflows; after one step the x-coordinate of the first
node is NaN, and after two steps its y-coordinate is NaN too. -/
theorem Example.colinear_nan :
    (Graph.UpdateN Binary32.sqrt (fun _ => Clock.const 0.1) ⟨[0, 1], [⟨0, 1⟩]⟩ 1
        (Example.rowHeap 3e38 (-3e38)) 0).GetPosition = ⟨Binary32.nan, 0⟩
      ∧ (Graph.UpdateN Binary32.sqrt (fun _ => Clock.const 0.1) ⟨[0, 1], [⟨0, 1⟩]⟩ 2
        (Example.rowHeap 3e38 (-3e38)) 0).GetPosition = ⟨Binary32.nan, Binary32.nan⟩ := by
  refine ⟨by decide, by decide⟩

/-- Some values of binary32 arithmetic: the literal 0.1, 0.1 + 0.2, 1 / 3, the square
root of 2, a sum that ties to even, a sum that overflows, and a difference that is
exact. -/
theorem Binary32.known_values :
    (0.1 : Binary32) = Binary32.dyadic 13421773 (-27)
      ∧ (0.1 : Binary32) + 0.2 = Binary32.dyadic 5033165 (-24)
      ∧ (1 : Binary32) / 3 = Binary32.dyadic 11184811 (-25)
      ∧ Binary32.sqrt 2 = Binary32.dyadic 11863283 (-23)
      ∧ (16777216 : Binary32) + 1 = 16777216
      ∧ (16777216 : Binary32) + 3 = 16777220
      ∧ Binary32.fin Binary32.MAX_UNITS + Binary32.fin Binary32.MAX_UNITS = Binary32.inf false
      ∧ (300 : Binary32) - 10 = 290
      ∧ Binary32.sqrt (-1) = Binary32.nan := by
  refine ⟨by decide, by decide, by decide, by decide, by decide, by decide, by decide,
    by decide, by decide⟩

end Binary32Steps

section StepClaims

variable {K : Type} [LinearOrderedField K]

/-- C1, as stated, fails on the code: on two unlinked nodes at (0, 0) and (50, 0), with a
clock that reads 1 at the first force and 2 at the second, no single `deltaTime` makes
the reference step agree with `Graph::Update` on both nodes. -/
theorem Update_reference_counterexample :
    ¬ ∃ dt : ℝ, ∀ a ∈ ([0, 1] : List NodePtr),
      (Graph.Update Real.sqrt Example.tickingClock ⟨[0, 1], []⟩
          (Example.pairHeap (50 : ℝ)) a).GetPosition
        = (Example.pairHeap (50 : ℝ) a).GetPosition
          + Reference.clamp Real.sqrt
              (Reference.totalForce Real.sqrt dt ⟨[0, 1], []⟩ (Example.pairHeap (50 : ℝ)) a) := by
  rintro ⟨dt, h⟩
  have h0 := h 0 (by simp)
  have h1 := h 1 (by simp)
  simp only [Node.GetPosition] at h0 h1
  rw [Example.update_pair_ticking.1, (Example.totalForce_pair dt).1, Example.pairHeap_zero]
    at h0
  rw [Example.update_pair_ticking.2, (Example.totalForce_pair dt).2, Example.pairHeap_one,
    Reference.clamp_neg] at h1
  have e0 := congrArg Vector2f.x h0
  have e1 := congrArg Vector2f.x h1
  simp only [Vector2f.add_x, Vector2f.neg_x] at e0 e1
  linarith

/-- C1, amended: when every read of the clock during the step returns the same
`deltaTime`, `Graph::Update` on a graph of pairwise-distinct nodes whose link endpoints
are nodes of the graph equals the reference step: every node `a` of the graph ends at
its old position plus `clamp (S_a)`, with `S_a` the reference sum of forces, and no
node outside the graph moves. -/
theorem Update_eq_reference_of_const_clock {sqrt : K → K} (hs : IsSqrt sqrt) (deltaTime : K)
    (g : Graph) (heap : Heap K) (hnd : g._nodes.Nodup)
    (hl : ∀ l ∈ g._links, l._first ∈ g._nodes ∧ l._second ∈ g._nodes) (a : NodePtr) :
    (a ∈ g._nodes →
        (Graph.Update sqrt (Clock.const deltaTime) g heap a).GetPosition
          = (heap a).GetPosition
            + Reference.clamp sqrt (Reference.totalForce sqrt deltaTime g heap a))
      ∧ (a ∉ g._nodes → Graph.Update sqrt (Clock.const deltaTime) g heap a = heap a) := by
  constructor
  · intro ha
    simp only [Node.GetPosition]
    rw [Graph.Update_position hs, Graph.total_nodeForces_const sqrt deltaTime g heap hnd a ha]
  · intro ha
    have hz := Graph.total_nodeForces_const_of_not_mem sqrt deltaTime g heap hnd a ha
      (fun l hl2 => ⟨fun h => ha (h ▸ (hl l hl2).1), fun h => ha (h ▸ (hl l hl2).2)⟩)
    have hpos := Graph.Update_position hs (Clock.const deltaTime) g heap a
    rw [hz, Reference.clamp_zero hs, add_zero] at hpos
    cases hu : Graph.Update sqrt (Clock.const deltaTime) g heap a with
    | mk pos =>
      cases hh : heap a with
      | mk pos2 =>
        rw [hu, hh] at hpos
        exact congrArg Node.mk hpos

/-- Witness of the amended C1 over the reals: two linked nodes 50 apart, every clock
reading equal to 1. -/
theorem Update_eq_reference_of_const_clock_witness :
    (Graph.Update Real.sqrt (Clock.const 1) ⟨[0, 1], [⟨0, 1⟩]⟩
          (Example.pairHeap (50 : ℝ)) 0).GetPosition
        = (Example.pairHeap (50 : ℝ) 0).GetPosition
          + Reference.clamp Real.sqrt
              (Reference.totalForce Real.sqrt 1 ⟨[0, 1], [⟨0, 1⟩]⟩
                (Example.pairHeap (50 : ℝ)) 0)
      ∧ Graph.Update Real.sqrt (Clock.const 1) ⟨[0, 1], [⟨0, 1⟩]⟩
          (Example.pairHeap (50 : ℝ)) 2 = Example.pairHeap (50 : ℝ) 2 :=
  ⟨(Update_eq_reference_of_const_clock isSqrt_real 1 ⟨[0, 1], [⟨0, 1⟩]⟩
      (Example.pairHeap (50 : ℝ)) (by decide) (by decide) 0).1 (by decide),
    (Update_eq_reference_of_const_clock isSqrt_real 1 ⟨[0, 1], [⟨0, 1⟩]⟩
      (Example.pairHeap (50 : ℝ)) (by decide) (by decide) 2).2 (by decide)⟩

end StepClaims

section Binary32Counterexamples

set_option maxRecDepth 20000

set_option exponentiation.threshold 2000

/-- The exact value of the number `mantissa * 2 ^ exponent` of binary32, for an exponent
from -149 on. -/
theorem Binary32.toRat_fin (units : Int) :
    Binary32.toRat (Binary32.fin units) = (units : ℚ) / 2 ^ 149 := rfl

/-- C2, as stated, fails on the code, whose arithmetic is binary32.  On the single
force (300, 600) the node at the origin moves to (134.16409..., 268.32818...), a
displacement whose exact squared length 90000.019... exceeds 300 squared: `sqrtf`, the
division and the multiplication are each rounded.  On the two forces (3e38, 0) the sum
overflows to infinity, the distance is infinite, and the node moves to (NaN, 0). -/
theorem speed_cap_counterexample :
    (Node.ApplyForces Binary32.sqrt (⟨⟨0, 0⟩⟩ : Node Binary32) [⟨300, 600⟩]).GetPosition
        = ⟨Binary32.dyadic 4396289 (-15), Binary32.dyadic 4396289 (-14)⟩
      ∧ (300 : ℚ) ^ 2 < (Binary32.dyadic 4396289 (-15)).toRat ^ 2
          + (Binary32.dyadic 4396289 (-14)).toRat ^ 2
      ∧ (Node.ApplyForces Binary32.sqrt (⟨⟨0, 0⟩⟩ : Node Binary32)
          [⟨3e38, 0⟩, ⟨3e38, 0⟩]).GetPosition = ⟨Binary32.nan, 0⟩ := by
  refine ⟨by decide, ?_, by decide⟩
  have h1 : Binary32.dyadic 4396289 (-15) = Binary32.fin (4396289 * 2 ^ 134) := by decide
  have h2 : Binary32.dyadic 4396289 (-14) = Binary32.fin (4396289 * 2 ^ 135) := by decide
  rw [h1, h2, Binary32.toRat_fin, Binary32.toRat_fin]
  norm_num

/-- C3, as stated, fails on the code, whose arithmetic is binary32.  The single force
(2e19, 0) is longer than 300, but its squared length overflows, the distance is
infinite, `velocity / dist` is the zero vector, and the node stays at the origin instead
of moving to (300, 0). -/
theorem clamped_sum_counterexample :
    (300 : Binary32) < 2e19
      ∧ distance Binary32.sqrt ⟨0, 0⟩ (⟨2e19, 0⟩ : Vector2f Binary32) = Binary32.inf false
      ∧ (Node.ApplyForces Binary32.sqrt (⟨⟨0, 0⟩⟩ : Node Binary32) [⟨2e19, 0⟩]).GetPosition
        = ⟨0, 0⟩ := by
  refine ⟨by decide, by decide, by decide⟩

end Binary32Counterexamples

section ApplyForcesClaims

variable {K : Type} [LinearOrderedField K]

/-- C2, amended: in exact arithmetic, whatever the list of forces, one call of
`Node::ApplyForces` moves the node by a displacement of Euclidean length at most
`MAX_VELOCITY_MAGNITUDE = 300`. -/
theorem ApplyForces_speed_cap {sqrt : K → K} (hs : IsSqrt sqrt) (node : Node K)
    (forces : List (Vector2f K)) :
    distance sqrt (node.ApplyForces sqrt forces).GetPosition node.GetPosition
      ≤ Node.MAX_VELOCITY_MAGNITUDE := by
  unfold Node.GetPosition Node.MAX_VELOCITY_MAGNITUDE
  rw [ApplyForces_position hs, distance_add_left]
  exact Reference.length_clamp_le hs _

/-- Witness of the amended C2 over the reals: the forces (300, 400) and (600, 800) add up to a
vector of length 1500, and the node still moves by at most 300. -/
theorem ApplyForces_speed_cap_witness :
    IsSqrt Real.sqrt ∧
      distance Real.sqrt
        (Node.ApplyForces Real.sqrt ⟨⟨1, 2⟩⟩ [⟨300, 400⟩, ⟨600, 800⟩]).GetPosition
        (Node.GetPosition (⟨⟨1, 2⟩⟩ : Node ℝ)) ≤ Node.MAX_VELOCITY_MAGNITUDE :=
  ⟨isSqrt_real, ApplyForces_speed_cap isSqrt_real _ _⟩

/-- C3, amended: in exact arithmetic `Node::ApplyForces` adds the clamped sum `v` of the
forces to the position.  With `|v|` the length of `v`: an empty list or `|v| = 0` leaves the position unchanged;
`0 < |v| ≤ 300` moves the node by `v` exactly; `|v| > 300` moves it by
`300 * (v / |v|)`, a displacement of length exactly 300 that is a positive multiple
of `v`. -/
theorem ApplyForces_clamped_sum {sqrt : K → K} (hs : IsSqrt sqrt) (node : Node K)
    (forces : List (Vector2f K)) :
    ((forces = [] ∨ distance sqrt ⟨0, 0⟩ forces.sum = 0) →
        (node.ApplyForces sqrt forces).GetPosition = node.GetPosition) ∧
    (0 < distance sqrt ⟨0, 0⟩ forces.sum → distance sqrt ⟨0, 0⟩ forces.sum ≤ 300 →
        (node.ApplyForces sqrt forces).GetPosition = node.GetPosition + forces.sum) ∧
    (300 < distance sqrt ⟨0, 0⟩ forces.sum →
        (node.ApplyForces sqrt forces).GetPosition
            = node.GetPosition
              + Vector2f.scale 300 (forces.sum.div (distance sqrt ⟨0, 0⟩ forces.sum)) ∧
          distance sqrt (node.ApplyForces sqrt forces).GetPosition node.GetPosition = 300 ∧
          (node.ApplyForces sqrt forces).GetPosition - node.GetPosition
            = Vector2f.scale (300 / distance sqrt ⟨0, 0⟩ forces.sum) forces.sum ∧
          0 < 300 / distance sqrt ⟨0, 0⟩ forces.sum) := by
  unfold Node.GetPosition
  rw [ApplyForces_position hs]
  refine ⟨?_, ?_, ?_⟩
  · rintro (h | h)
    · subst h; simp [Reference.clamp_zero hs]
    · rw [(length_eq_zero_iff hs _).1 h, Reference.clamp_zero hs, add_zero]
  · intro _ h
    rw [Reference.clamp_of_le sqrt _ h]
  · intro h
    have hpos : 0 < distance sqrt ⟨0, 0⟩ forces.sum := lt_trans (by norm_num) h
    refine ⟨by rw [Reference.clamp_of_gt sqrt _ h], ?_, ?_, by positivity⟩
    · rw [distance_add_left, Reference.length_clamp_of_gt hs _ h]
    · rw [add_sub_cancel_left, Reference.clamp_of_gt sqrt _ h, Vector2f.div_eq_scale,
        Vector2f.scale_scale, mul_one_div]

/-- Witness of the amended C3 over the reals, at the node (1, 2) and the forces (300, 400) and
(600, 800), whose sum has length 1500: the node ends at (181, 242). -/
theorem ApplyForces_clamped_sum_witness :
    IsSqrt Real.sqrt ∧
      (Node.ApplyForces Real.sqrt ⟨⟨1, 2⟩⟩ [⟨300, 400⟩, ⟨600, 800⟩]).GetPosition
        = (⟨181, 242⟩ : Vector2f ℝ) := by
  have hsum : ([⟨300, 400⟩, ⟨600, 800⟩] : List (Vector2f ℝ)).sum = ⟨900, 1200⟩ := by
    ext <;> simp <;> norm_num
  have hd : distance Real.sqrt ⟨0, 0⟩ ([⟨300, 400⟩, ⟨600, 800⟩] : List (Vector2f ℝ)).sum
      = 1500 := by
    rw [hsum]
    exact distance_eq_of_mul_self isSqrt_real _ _ (by norm_num) (by norm_num)
  have h := (ApplyForces_clamped_sum isSqrt_real (⟨⟨1, 2⟩⟩ : Node ℝ)
    [⟨300, 400⟩, ⟨600, 800⟩]).2.2 (by rw [hd]; norm_num)
  refine ⟨isSqrt_real, ?_⟩
  rw [h.1, hd, hsum]
  ext <;> simp [Node.GetPosition] <;> norm_num

end ApplyForcesClaims

section PairLinkLemmas

variable {K : Type} [LinearOrderedField K]

/-- The forces of a graph of two nodes and one link, whatever the clock does: the two
repulsions, then the attraction of the link, each after the clock reads before it. -/
theorem Graph.total_nodeForces_pair_link (sqrt : K → K) (clock : Clock K) (heap : Heap K)
    (a b : NodePtr) (hab : a ≠ b) (l : Link) (p : NodePtr) :
    ForceMap.total (Graph.nodeForces sqrt clock ⟨[a, b], [l]⟩ heap) p
      = (if p = a then (Graph.ComputeRepulsiveForce sqrt clock heap 0 a b).1 else 0)
        + (if p = b then (Graph.ComputeRepulsiveForce sqrt clock heap
            (Graph.ComputeRepulsiveForce sqrt clock heap 0 a b).2 b a).1 else 0)
        + (if p = l._first then -(Graph.ComputeAttractionForce sqrt clock heap
            (Graph.ComputeRepulsiveForce sqrt clock heap
              (Graph.ComputeRepulsiveForce sqrt clock heap 0 a b).2 b a).2 l).1 else 0)
        + (if p = l._second then (Graph.ComputeAttractionForce sqrt clock heap
            (Graph.ComputeRepulsiveForce sqrt clock heap
              (Graph.ComputeRepulsiveForce sqrt clock heap 0 a b).2 b a).2 l).1 else 0) := by
  have hba : b ≠ a := fun h => hab h.symm
  have o0 := Graph.ordered_initPass (K := K) [a, b]
  have o1 := ForceMap.ordered_pushBack _ a
    (Graph.ComputeRepulsiveForce sqrt clock heap 0 a b).1 o0
  have o2 := ForceMap.ordered_pushBack _ b (Graph.ComputeRepulsiveForce sqrt clock heap
    (Graph.ComputeRepulsiveForce sqrt clock heap 0 a b).2 b a).1 o1
  have o3 := ForceMap.ordered_pushBack _ l._first (-(Graph.ComputeAttractionForce sqrt clock
    heap (Graph.ComputeRepulsiveForce sqrt clock heap
      (Graph.ComputeRepulsiveForce sqrt clock heap 0 a b).2 b a).2 l).1) o2
  simp only [Graph.nodeForces, Graph.attractionPass, List.foldl_nil, Graph.repulsionPass,
    List.foldl_cons, Graph.repulsionRow_cons, Graph.repulsionRow, ne_eq, not_true_eq_false,
    if_false, hab, hba, not_false_eq_true, if_true, Link.GetFirst, Link.GetSecond]
  rw [ForceMap.total_pushBack _ _ _ o3, ForceMap.total_pushBack _ _ _ o2,
    ForceMap.total_pushBack _ _ _ o1, ForceMap.total_pushBack _ _ _ o0]
  simp [ForceMap.total, Graph.find_initPass]

/-- The two repulsive forces of a pair of nodes are opposite when the clock reads the
same at the two computations. -/
theorem Graph.ComputeRepulsiveForce_opposite (sqrt : K → K) (clock : Clock K)
    (hclock : clock 0 = clock 1) (heap : Heap K) (a b : NodePtr) :
    (Graph.ComputeRepulsiveForce sqrt clock heap
        (Graph.ComputeRepulsiveForce sqrt clock heap 0 a b).2 b a).1
      = -(Graph.ComputeRepulsiveForce sqrt clock heap 0 a b).1 := by
  rw [Graph.ComputeRepulsiveForce_fst, Graph.ComputeRepulsiveForce_fst,
    Graph.ComputeRepulsiveForce_snd, Reference.repulsiveForce_swap]
  by_cases h : distance sqrt (heap a).position (heap b).position > 100
      ∨ distance sqrt (heap a).position (heap b).position ≤ Graph.FLT_EPSILON
  · rw [if_pos h]
  · rw [if_neg h, Nat.zero_add, hclock]

end PairLinkLemmas

section PairClaims

variable {K : Type} [LinearOrderedField K]

/-- What the code does on two linked nodes under a ticking clock: two nodes at (0, 0) and
(50, 0) joined by one link, under a clock that reads 1, 2 and 3 at the three force
computations, are displaced by (200, 0) and (-100, 0), which are not opposite. -/
theorem Example.linked_pair_not_opposite :
    ¬ ((Graph.Update Real.sqrt Example.tickingClock ⟨[0, 1], [⟨0, 1⟩]⟩
            (Example.pairHeap (50 : ℝ)) 0).GetPosition
          - (Example.pairHeap (50 : ℝ) 0).GetPosition
        = -((Graph.Update Real.sqrt Example.tickingClock ⟨[0, 1], [⟨0, 1⟩]⟩
              (Example.pairHeap (50 : ℝ)) 1).GetPosition
            - (Example.pairHeap (50 : ℝ) 1).GetPosition)) := by
  intro h
  simp only [Node.GetPosition] at h
  rw [Example.update_linked_pair_ticking.1, Example.update_linked_pair_ticking.2,
    Example.pairHeap_zero, Example.pairHeap_one] at h
  have e := congrArg Vector2f.x h
  simp only [Vector2f.sub_x, Vector2f.neg_x] at e
  norm_num at e

/-- C4, as stated, fails on the code, for two reasons.  The clock is read at every
force: two nodes at (0, 0) and (50, 0) joined by one link, under a clock that reads 1, 2
and 3 at the three force computations, are displaced by (200, 0) and (-100, 0), which
are not opposite.  And the arithmetic is binary32: with every clock reading 0.1 the
linked nodes at (0.1, 0) and (300, 0) collect the opposite forces (10, 0) and (-10, 0)
and move to (10.10000038..., 0) and (290, 0), displacements that do not add up to
zero. -/
theorem attraction_symmetry_counterexample :
    (¬ ((Graph.Update Real.sqrt Example.tickingClock ⟨[0, 1], [⟨0, 1⟩]⟩
              (Example.pairHeap (50 : ℝ)) 0).GetPosition
            - (Example.pairHeap (50 : ℝ) 0).GetPosition
          = -((Graph.Update Real.sqrt Example.tickingClock ⟨[0, 1], [⟨0, 1⟩]⟩
                (Example.pairHeap (50 : ℝ)) 1).GetPosition
              - (Example.pairHeap (50 : ℝ) 1).GetPosition)))
      ∧ (Graph.Update Binary32.sqrt (Clock.const 0.1) ⟨[0, 1], [⟨0, 1⟩]⟩
          (Example.rowHeap 0.1 300) 0).GetPosition = ⟨Binary32.dyadic 5295309 (-19), 0⟩
      ∧ (Graph.Update Binary32.sqrt (Clock.const 0.1) ⟨[0, 1], [⟨0, 1⟩]⟩
          (Example.rowHeap 0.1 300) 1).GetPosition = ⟨290, 0⟩
      ∧ ((Binary32.dyadic 5295309 (-19)).toRat - (0.1 : Binary32).toRat)
          + ((290 : Binary32).toRat - (300 : Binary32).toRat) ≠ 0 :=
  ⟨Example.linked_pair_not_opposite, Example.displacements_rounded.2.2.1,
    Example.displacements_rounded.2.2.2.1, Example.displacements_rounded.2.2.2.2⟩

/-- C4, amended: in exact arithmetic, when the clock reads the same at the two
computations of a repulsive force (its first two reads of the step; in particular when
every read returns the same `deltaTime`), in a graph of exactly two nodes `a` and `b`
joined by a single link (in either direction) the displacement of `a` is the exact
negation of the displacement of `b`, and the midpoint of the two positions is unchanged
by the step.  The reading at the attraction force is free: both endpoints get the one
vector computed from it. -/
theorem attraction_symmetry_of_equal_readings {sqrt : K → K} (hs : IsSqrt sqrt)
    (clock : Clock K) (hclock : clock 0 = clock 1)
    (heap : Heap K) (a b : NodePtr) (hab : a ≠ b) (l : Link)
    (hl : l = ⟨a, b⟩ ∨ l = ⟨b, a⟩) :
    (Graph.Update sqrt clock ⟨[a, b], [l]⟩ heap a).GetPosition - (heap a).GetPosition
        = -((Graph.Update sqrt clock ⟨[a, b], [l]⟩ heap b).GetPosition
            - (heap b).GetPosition)
      ∧ Vector2f.scale (1 / 2)
          ((Graph.Update sqrt clock ⟨[a, b], [l]⟩ heap a).GetPosition
            + (Graph.Update sqrt clock ⟨[a, b], [l]⟩ heap b).GetPosition)
        = Vector2f.scale (1 / 2) ((heap a).GetPosition + (heap b).GetPosition) := by
  have hba : b ≠ a := fun h => hab h.symm
  have hopp : ForceMap.total (Graph.nodeForces sqrt clock ⟨[a, b], [l]⟩ heap) b
      = -ForceMap.total (Graph.nodeForces sqrt clock ⟨[a, b], [l]⟩ heap) a := by
    rw [Graph.total_nodeForces_pair_link sqrt clock heap a b hab l b,
      Graph.total_nodeForces_pair_link sqrt clock heap a b hab l a,
      Graph.ComputeRepulsiveForce_opposite sqrt clock hclock heap a b]
    rcases hl with rfl | rfl
    · simp only [hab, hba, if_true, if_false]
      abel
    · simp only [hab, hba, if_true, if_false]
      abel
  simp only [Node.GetPosition]
  rw [Graph.Update_position hs, Graph.Update_position hs, hopp, Reference.clamp_neg]
  constructor
  · abel
  · congr 1
    abel

/-- Witness of the amended C4 over the reals: the nodes 0 and 1, 50 apart, the link
from 0 to 1, under a clock that reads 1 at both repulsive forces and 7 at the attraction
force. -/
theorem attraction_symmetry_of_equal_readings_witness :
    (Graph.Update Real.sqrt (fun k => if k < 2 then 1 else 7) ⟨[0, 1], [⟨0, 1⟩]⟩
            (Example.pairHeap (50 : ℝ)) 0).GetPosition
          - (Example.pairHeap (50 : ℝ) 0).GetPosition
        = -((Graph.Update Real.sqrt (fun k => if k < 2 then 1 else 7) ⟨[0, 1], [⟨0, 1⟩]⟩
              (Example.pairHeap (50 : ℝ)) 1).GetPosition
            - (Example.pairHeap (50 : ℝ) 1).GetPosition)
      ∧ Vector2f.scale (1 / 2)
          ((Graph.Update Real.sqrt (fun k => if k < 2 then 1 else 7) ⟨[0, 1], [⟨0, 1⟩]⟩
              (Example.pairHeap (50 : ℝ)) 0).GetPosition
            + (Graph.Update Real.sqrt (fun k => if k < 2 then 1 else 7) ⟨[0, 1], [⟨0, 1⟩]⟩
              (Example.pairHeap (50 : ℝ)) 1).GetPosition)
        = Vector2f.scale (1 / 2)
          ((Example.pairHeap (50 : ℝ) 0).GetPosition
            + (Example.pairHeap (50 : ℝ) 1).GetPosition) :=
  attraction_symmetry_of_equal_readings isSqrt_real (fun k => if k < 2 then 1 else 7)
    (by simp) (Example.pairHeap (50 : ℝ)) 0 1 (by decide) ⟨0, 1⟩ (Or.inl rfl)

end PairClaims

section RepulsionClaims

variable {K : Type} [LinearOrderedField K]

/-- What the code does on two nodes at the same point: two unlinked nodes at the same
point are at separation 0 < 100, and after a step with the positive clock reading 1
their separation is still 0. -/
theorem Example.coincident_pair_stays :
    distance Real.sqrt (Example.pairHeap (0 : ℝ) 0).GetPosition
        (Example.pairHeap (0 : ℝ) 1).GetPosition < Graph.REPULSION_DISTANCE
      ∧ (∀ k, (0 : ℝ) < Clock.const 1 k)
      ∧ ¬ (distance Real.sqrt (Example.pairHeap (0 : ℝ) 0).GetPosition
            (Example.pairHeap (0 : ℝ) 1).GetPosition
          < distance Real.sqrt
            (Graph.Update Real.sqrt (Clock.const 1) ⟨[0, 1], []⟩
              (Example.pairHeap (0 : ℝ)) 0).GetPosition
            (Graph.Update Real.sqrt (Clock.const 1) ⟨[0, 1], []⟩
              (Example.pairHeap (0 : ℝ)) 1).GetPosition) := by
  have hu := Graph.Update_coincident_pair isSqrt_real (Clock.const (1 : ℝ))
    (Example.pairHeap (0 : ℝ)) 0 1 rfl [] (by simp)
  have hd : distance Real.sqrt (Example.pairHeap (0 : ℝ) 0).GetPosition
      (Example.pairHeap (0 : ℝ) 1).GetPosition = 0 := distance_self isSqrt_real _
  refine ⟨?_, fun _ => by simp [Clock.const], ?_⟩
  · rw [hd]; simp [Graph.REPULSION_DISTANCE]
  · rw [hu]; exact lt_irrefl _

/-- C5, as stated, fails on the code, for two reasons.  The force is cut off at
`FLT_EPSILON`: two unlinked nodes at the same point are at separation 0 < 100, and after
a step with the positive clock reading 1 their separation is still 0.  And the
arithmetic is binary32: the unlinked nodes at (256, 0) and (355.99609375, 0) are farther
apart than `FLT_EPSILON` and nearer than 100, with every clock reading 2^-10 the first
repulsive force is (-2^-17, 0), and the additions to the positions lose it: both nodes
are where they were. -/
theorem repulsion_monotonicity_counterexample :
    (distance Real.sqrt (Example.pairHeap (0 : ℝ) 0).GetPosition
          (Example.pairHeap (0 : ℝ) 1).GetPosition < Graph.REPULSION_DISTANCE
        ∧ (∀ k, (0 : ℝ) < Clock.const 1 k)
        ∧ ¬ (distance Real.sqrt (Example.pairHeap (0 : ℝ) 0).GetPosition
              (Example.pairHeap (0 : ℝ) 1).GetPosition
            < distance Real.sqrt
              (Graph.Update Real.sqrt (Clock.const 1) ⟨[0, 1], []⟩
                (Example.pairHeap (0 : ℝ)) 0).GetPosition
              (Graph.Update Real.sqrt (Clock.const 1) ⟨[0, 1], []⟩
                (Example.pairHeap (0 : ℝ)) 1).GetPosition))
      ∧ Graph.FLT_EPSILON
        < Node.distance Binary32.sqrt (Example.rowHeap 256 (Binary32.dyadic 91135 (-8))) 0 1
      ∧ Node.distance Binary32.sqrt (Example.rowHeap 256 (Binary32.dyadic 91135 (-8))) 0 1
        < Graph.REPULSION_DISTANCE
      ∧ (0 : Binary32) < Binary32.dyadic 1 (-10)
      ∧ Graph.Update Binary32.sqrt (Clock.const (Binary32.dyadic 1 (-10))) ⟨[0, 1], []⟩
          (Example.rowHeap 256 (Binary32.dyadic 91135 (-8))) 0
        = Example.rowHeap 256 (Binary32.dyadic 91135 (-8)) 0
      ∧ Graph.Update Binary32.sqrt (Clock.const (Binary32.dyadic 1 (-10))) ⟨[0, 1], []⟩
          (Example.rowHeap 256 (Binary32.dyadic 91135 (-8))) 1
        = Example.rowHeap 256 (Binary32.dyadic 91135 (-8)) 1 :=
  ⟨Example.coincident_pair_stays, Example.repulsion_absorbed.1,
    Example.repulsion_absorbed.2.1, Example.repulsion_absorbed.2.2.1,
    Example.repulsion_absorbed.2.2.2.2.1, Example.repulsion_absorbed.2.2.2.2.2⟩

/-- C5, amended: in exact arithmetic, for two unlinked nodes whose separation `d`
satisfies `FLT_EPSILON < d < 100`, one step during which every clock reading is positive
yields a separation strictly greater than `d`. -/
theorem repulsion_increases_separation {sqrt : K → K} (hs : IsSqrt sqrt) (clock : Clock K)
    (hclock : ∀ k, 0 < clock k) (heap : Heap K) (a b : NodePtr) (hab : a ≠ b)
    (h1 : Graph.FLT_EPSILON < distance sqrt (heap a).GetPosition (heap b).GetPosition)
    (h2 : distance sqrt (heap a).GetPosition (heap b).GetPosition < Graph.REPULSION_DISTANCE) :
    distance sqrt (heap a).GetPosition (heap b).GetPosition
      < distance sqrt (Graph.Update sqrt clock ⟨[a, b], []⟩ heap a).GetPosition
          (Graph.Update sqrt clock ⟨[a, b], []⟩ heap b).GetPosition := by
  simp only [Node.GetPosition, Graph.REPULSION_DISTANCE] at *
  obtain ⟨ha, hb⟩ := Graph.total_nodeForces_pair sqrt clock heap a b hab
  rw [Graph.Update_position hs, Graph.Update_position hs, ha, hb,
    Graph.ComputeRepulsiveForce_fst, Graph.ComputeRepulsiveForce_fst,
    Reference.repulsiveForce_swap sqrt _ (heap a).position (heap b).position,
    Reference.repulsiveForce_of_mid sqrt _ _ _ h1 h2.le,
    Reference.repulsiveForce_of_mid sqrt _ _ _ h1 h2.le, Reference.clamp_neg]
  have hd : distance sqrt (heap a).position (heap b).position
      = distance sqrt ⟨0, 0⟩ ((heap a).position - (heap b).position) :=
    distance_eq_length_sub sqrt _ _
  rw [hd] at h1 h2 ⊢
  generalize hv : (heap a).position - (heap b).position = v at h1 h2 ⊢
  have hpos : 0 < distance sqrt ⟨0, 0⟩ v := lt_trans FLT_EPSILON_pos h1
  have hu := length_div_self hs v hpos
  have hc : ∀ k, 0 < 200 * ((100 - distance sqrt ⟨0, 0⟩ v) / 100) * clock k := by
    intro k
    have : 0 < 100 - distance sqrt ⟨0, 0⟩ v := sub_pos.2 h2
    have := hclock k
    positivity
  rw [Reference.clamp_scale_unit hs _ hu _ (hc _).le,
    Reference.clamp_scale_unit hs _ hu _ (hc _).le]
  generalize hm0 : min (200 * ((100 - distance sqrt ⟨0, 0⟩ v) / 100) * clock 0) 300 = m0
  generalize hm1 : min (200 * ((100 - distance sqrt ⟨0, 0⟩ v) / 100) * clock
    (Graph.ComputeRepulsiveForce sqrt clock heap 0 a b).2) 300 = m1
  have hm0p : 0 < m0 := by rw [← hm0]; exact lt_min (hc _) (by norm_num)
  have hm1p : 0 < m1 := by rw [← hm1]; exact lt_min (hc _) (by norm_num)
  have hvec : (heap a).position
        + Vector2f.scale m0 (v.div (distance sqrt ⟨0, 0⟩ v))
      - ((heap b).position + -Vector2f.scale m1 (v.div (distance sqrt ⟨0, 0⟩ v)))
      = Vector2f.scale (distance sqrt ⟨0, 0⟩ v + m0 + m1)
          (v.div (distance sqrt ⟨0, 0⟩ v)) := by
    rw [Vector2f.add_scale, Vector2f.add_scale, scale_distance_div v hpos, ← hv]
    abel
  rw [distance_eq_length_sub sqrt (_ + _) (_ + _), hvec,
    length_scale hs _ (by positivity), hu, mul_one]
  linarith

/-- Witness of the amended C5 over the reals: two unlinked nodes 50 apart, under the
clock that reads 1 and then 2. -/
theorem repulsion_increases_separation_witness :
    distance Real.sqrt (Example.pairHeap (50 : ℝ) 0).GetPosition
        (Example.pairHeap (50 : ℝ) 1).GetPosition
      < distance Real.sqrt
          (Graph.Update Real.sqrt Example.tickingClock ⟨[0, 1], []⟩
            (Example.pairHeap (50 : ℝ)) 0).GetPosition
          (Graph.Update Real.sqrt Example.tickingClock ⟨[0, 1], []⟩
            (Example.pairHeap (50 : ℝ)) 1).GetPosition :=
  repulsion_increases_separation isSqrt_real Example.tickingClock
    (fun k => by unfold Example.tickingClock; positivity)
    (Example.pairHeap (50 : ℝ)) 0 1 (by decide)
    (by
      show Graph.FLT_EPSILON < distance Real.sqrt (Example.pairHeap (50 : ℝ) 0).position
        (Example.pairHeap (50 : ℝ) 1).position
      rw [Example.distance_pair]; exact Example.eps_lt_fifty)
    (by
      show distance Real.sqrt (Example.pairHeap (50 : ℝ) 0).position
        (Example.pairHeap (50 : ℝ) 1).position < Graph.REPULSION_DISTANCE
      rw [Example.distance_pair]; simp [Graph.REPULSION_DISTANCE]; norm_num)

/-- C6 (zero-distance safety): for two nodes `a`, `b` at the exact same position, with
any links among them (none, or one joining them), whatever the clock reads: both
repulsive forces and every attraction force are the zero vector, one step leaves both
nodes where they are, and so does any number of steps. -/
theorem zero_distance_safety {sqrt : K → K} (hs : IsSqrt sqrt) (heap : Heap K)
    (a b : NodePtr) (_hab : a ≠ b) (hpos : (heap a).GetPosition = (heap b).GetPosition)
    (links : List Link)
    (hl : ∀ l ∈ links, (l._first = a ∨ l._first = b) ∧ (l._second = a ∨ l._second = b)) :
    (∀ (clock : Clock K) (t : Nat),
        (Graph.ComputeRepulsiveForce sqrt clock heap t a b).1 = 0
          ∧ (Graph.ComputeRepulsiveForce sqrt clock heap t b a).1 = 0
          ∧ ∀ l ∈ links, (Graph.ComputeAttractionForce sqrt clock heap t l).1 = 0)
      ∧ (∀ clock : Clock K,
        (Graph.Update sqrt clock ⟨[a, b], links⟩ heap a).GetPosition = (heap a).GetPosition
          ∧ (Graph.Update sqrt clock ⟨[a, b], links⟩ heap b).GetPosition
            = (heap b).GetPosition)
      ∧ (∀ (clocks : Nat → Clock K) (n : Nat),
        (Graph.UpdateN sqrt clocks ⟨[a, b], links⟩ n heap a).GetPosition
            = (heap a).GetPosition
          ∧ (Graph.UpdateN sqrt clocks ⟨[a, b], links⟩ n heap b).GetPosition
            = (heap b).GetPosition) := by
  have hpos2 : (heap a).position = (heap b).position := hpos
  have hmem : ∀ p, p = a ∨ p = b → (heap p).position = (heap a).position := by
    rintro p (rfl | rfl)
    · rfl
    · exact hpos2.symm
  have hstep : ∀ clock : Clock K, Graph.Update sqrt clock ⟨[a, b], links⟩ heap = heap :=
    fun clock => Graph.Update_coincident_pair hs clock heap a b hpos2 links hl
  have hrun : ∀ (clocks : Nat → Clock K) (n : Nat),
      Graph.UpdateN sqrt clocks ⟨[a, b], links⟩ n heap = heap := by
    intro clocks n
    induction n with
    | zero => rfl
    | succ n ih => rw [Graph.UpdateN, ih, hstep]
  refine ⟨fun clock t => ⟨?_, ?_, ?_⟩, fun clock => ?_, fun clocks n => ?_⟩
  · exact Graph.ComputeRepulsiveForce_coincident hs clock heap t a b hpos2
  · exact Graph.ComputeRepulsiveForce_coincident hs clock heap t b a hpos2.symm
  · intro l hl2
    apply Graph.ComputeAttractionForce_coincident hs
    rw [hmem _ (hl l hl2).1, hmem _ (hl l hl2).2]
  · rw [hstep]; exact ⟨rfl, rfl⟩
  · rw [hrun]; exact ⟨rfl, rfl⟩

/-- Witness of C6 over the reals: the nodes 0 and 1 both at the origin, joined by a
link. -/
theorem zero_distance_safety_witness :
    (Graph.ComputeRepulsiveForce Real.sqrt Example.tickingClock (Example.pairHeap 0) 0 0 1).1
        = 0
      ∧ (Graph.Update Real.sqrt Example.tickingClock ⟨[0, 1], [⟨0, 1⟩]⟩
          (Example.pairHeap 0) 0).GetPosition = (Example.pairHeap (0 : ℝ) 0).GetPosition
      ∧ (Graph.UpdateN Real.sqrt (fun _ => Example.tickingClock) ⟨[0, 1], [⟨0, 1⟩]⟩ 3
          (Example.pairHeap 0) 1).GetPosition = (Example.pairHeap (0 : ℝ) 1).GetPosition :=
  ⟨((zero_distance_safety isSqrt_real (Example.pairHeap (0 : ℝ)) 0 1 (by decide) rfl
      [⟨0, 1⟩] (by simp)).1 Example.tickingClock 0).1,
    ((zero_distance_safety isSqrt_real (Example.pairHeap (0 : ℝ)) 0 1 (by decide) rfl
      [⟨0, 1⟩] (by simp)).2.1 Example.tickingClock).1,
    ((zero_distance_safety isSqrt_real (Example.pairHeap (0 : ℝ)) 0 1 (by decide) rfl
      [⟨0, 1⟩] (by simp)).2.2 (fun _ => Example.tickingClock) 3).2⟩

end RepulsionClaims

section LoaderClaims

set_option maxRecDepth 20000

set_option exponentiation.threshold 2000

variable {K : Type} [Zero K]

/-- C7, as stated, fails on the code: the input `2\n0 0\n1 1\n5 1\n`, whose link names
node 5 of 2, is not rejected.  The loader evaluates `nodes[4]` on a vector of two
elements, which is undefined behaviour, and reports nothing. -/
theorem load_validation_counterexample :
    Loader.readGraph Binary32.strtof id
        (IStream.ofFields
          [Field.int 2, Field.int 0, Field.int 0, Field.int 1, Field.int 1,
            Field.int 5, Field.int 1] true)
        ⟨[], []⟩ (fun _ => ⟨⟨0, 0⟩⟩) = Outcome.undefined
      ∧ ¬ (Loader.rejected
        (Loader.readGraph Binary32.strtof id
          (IStream.ofFields
            [Field.int 2, Field.int 0, Field.int 0, Field.int 1, Field.int 1,
              Field.int 5, Field.int 1] true)
          ⟨[], []⟩ (fun _ => ⟨⟨0, 0⟩⟩)) ⟨[], []⟩ = true) := by
  have h : Loader.readGraph Binary32.strtof id
      (IStream.ofFields
        [Field.int 2, Field.int 0, Field.int 0, Field.int 1, Field.int 1,
          Field.int 5, Field.int 1] true)
      ⟨[], []⟩ (fun _ => ⟨⟨0, 0⟩⟩) = Outcome.undefined :=
    Loader.readGraph_undefined_of_links Binary32.strtof id ⟨[], []⟩ (fun _ => ⟨⟨0, 0⟩⟩) true
      [(Field.int 0, Field.int 0), (Field.int 1, Field.int 1)] (by decide)
      [Field.int 5, Field.int 1] (by decide) rfl
  exact ⟨h, by rw [h]; decide⟩

/-- C7, amended: for every input made of a count `n`, `n` coordinate pairs and pairs of
integer indices one of which lies outside `[1, n]`, with or without whitespace at
its end, and whatever the library makes of the coordinates, the loader does not reject the
input and reports no error: it uses the index unchecked to subscript the node vector,
and the load ends in undefined behaviour. -/
theorem readGraph_out_of_range (strtof : ℚ → K × Bool) (alloc : Nat → NodePtr)
    (graph : Graph) (heap : Heap K)
    (trailing : Bool) (coords : List (Field × Field))
    (hc : ∀ c ∈ coords, c.1 ≠ Field.text ∧ c.2 ≠ Field.text) (pairs : List (Int × Int))
    (hbad : ∃ p ∈ pairs, ¬ ((1 ≤ p.1 ∧ p.1 ≤ (coords.length : Int))
      ∧ (1 ≤ p.2 ∧ p.2 ≤ (coords.length : Int)))) :
    Loader.readGraph strtof alloc
        (Loader.goodStream trailing
          (Field.int (coords.length : Int)
            :: (Loader.coordFields coords ++ Loader.indexFields pairs)))
        graph heap = Outcome.undefined
      ∧ Loader.rejected
        (Loader.readGraph strtof alloc
          (Loader.goodStream trailing
            (Field.int (coords.length : Int)
              :: (Loader.coordFields coords ++ Loader.indexFields pairs)))
          graph heap) graph = false := by
  have hlen : ((List.range coords.length).map (fun i => alloc (0 + i))).length
      = coords.length := by simp
  have hlinks := Loader.readLinks_out_of_range
    ((List.range coords.length).map (fun i => alloc (0 + i))) trailing pairs
    (by rw [hlen]; exact hbad) ((Loader.indexFields pairs).length + 1)
    (by rw [Loader.indexFields_length]; omega) []
  have hne : Loader.indexFields pairs ≠ [] := by
    obtain ⟨p, hp, _⟩ := hbad
    cases pairs with
    | nil => simp at hp
    | cons q qs => simp [Loader.indexFields]
  have key := Loader.readGraph_undefined_of_links strtof alloc graph heap trailing coords hc
    (Loader.indexFields pairs) hne hlinks
  exact ⟨key, by rw [key]; rfl⟩

/-- Witness of the amended C7: the input `2\n0 0\n1 1\n5 1\n`, read with the conversion
of binary32. -/
theorem readGraph_out_of_range_witness :
    Loader.readGraph Binary32.strtof id
        (Loader.goodStream true
          [Field.int 2, Field.int 0, Field.int 0, Field.int 1, Field.int 1,
            Field.int 5, Field.int 1])
        ⟨[], []⟩ (fun _ => ⟨⟨0, 0⟩⟩) = Outcome.undefined
      ∧ Loader.rejected
        (Loader.readGraph Binary32.strtof id
          (Loader.goodStream true
            [Field.int 2, Field.int 0, Field.int 0, Field.int 1, Field.int 1,
              Field.int 5, Field.int 1])
          ⟨[], []⟩ (fun _ => ⟨⟨0, 0⟩⟩)) ⟨[], []⟩ = false :=
  readGraph_out_of_range Binary32.strtof id ⟨[], []⟩ (fun _ => ⟨⟨0, 0⟩⟩) true
    [(Field.int 0, Field.int 0), (Field.int 1, Field.int 1)] (by decide) [(5, 1)]
    ⟨(5, 1), by simp, by decide⟩

/-- C8: on the input `3\n0 0\n10 0\n20 0\n1 2\n2 3\n`, which ends in a newline, the loader
does not return with two links: after the second pair `eofbit` is not yet set, the loop
body runs a third time, both extractions fail without storing anything, and a third
link is built from the uninitialised `first` and `second`, which is undefined
behaviour.  This is so whatever the library makes of the coordinates. -/
theorem readGraph_trailing_newline (strtof : ℚ → K × Bool) (alloc : Nat → NodePtr)
    (graph : Graph) (heap : Heap K) :
    Loader.readGraph strtof alloc
        (IStream.ofFields
          [Field.int 3, Field.int 0, Field.int 0, Field.int 10, Field.int 0, Field.int 20,
            Field.int 0, Field.int 1, Field.int 2, Field.int 2, Field.int 3] true)
        graph heap = Outcome.undefined :=
  Loader.readGraph_undefined_of_links strtof alloc graph heap true
    [(Field.int 0, Field.int 0), (Field.int 10, Field.int 0), (Field.int 20, Field.int 0)]
    (by decide) [Field.int 1, Field.int 2, Field.int 2, Field.int 3] (by decide) rfl

/-- C9, as stated, fails on the code.  The well-formed input `1\n1` followed by forty
zeros and ` 0` has a coordinate beyond `FLT_MAX`: the extraction sets `failbit`, `y` is
never written, and the node is built from the uninitialised `y`, which is undefined
behaviour.  On the well-formed input `1\n16777217 0` the loader returns, and the node is
at (16777216, 0), not at the coordinate pair. -/
theorem wellFormed_counterexample :
    Loader.readGraph Binary32.strtof id
        (Loader.wellFormedInput
          [(Field.int 10000000000000000000000000000000000000000, Field.int 0)] [])
        ⟨[], []⟩ (fun _ => ⟨⟨0, 0⟩⟩) = Outcome.undefined
      ∧ ∃ loaded : Loader.Loaded Binary32,
        Loader.readGraph Binary32.strtof id
            (Loader.wellFormedInput [(Field.int 16777217, Field.int 0)] [])
            ⟨[], []⟩ (fun _ => ⟨⟨0, 0⟩⟩) = Outcome.returned loaded
          ∧ (loaded.heap 0).GetPosition = ⟨16777216, 0⟩
          ∧ Binary32.toRat (loaded.heap 0).GetPosition.x = 16777216
          ∧ (Field.int 16777217).value = 16777217 := by
  refine ⟨rfl, _, rfl, by decide, ?_, by simp [Field.value]⟩
  have h : ((Binary32.strtof (Field.int 16777217).value).1 : Binary32)
      = Binary32.fin (16777216 * 2 ^ 149) := by decide
  show Binary32.toRat (Binary32.strtof (Field.int 16777217).value).1 = 16777216
  rw [h]
  simp only [Binary32.toRat]
  norm_num

/-- C9, amended: on a well-formed input that ends right after its last token (a count
`n`, `n` coordinate pairs, `k` pairs of indices in `[1, n]`) none of whose coordinates
is out of the range of `float`, the loader returns, having appended to the graph exactly
`n` nodes, the `i`-th allocated one holding what the library makes of the `i`-th
coordinate pair (in binary32 each literal rounded to nearest), and exactly `k` links in
input order, the `j`-th joining the nodes declared `a_j`-th and `b_j`-th; the stream is
not failed.  The allocator is assumed never to hand out an address twice. -/
theorem readGraph_wellFormed (strtof : ℚ → K × Bool) (alloc : Nat → NodePtr)
    (halloc : Function.Injective alloc)
    (graph : Graph) (heap : Heap K) (coords : List (Field × Field))
    (hc : ∀ c ∈ coords, c.1 ≠ Field.text ∧ c.2 ≠ Field.text)
    (hok : ∀ c ∈ coords, (strtof c.1.value).2 = false ∧ (strtof c.2.value).2 = false)
    (pairs : List (Nat × Nat))
    (hp : ∀ p ∈ pairs, (1 ≤ p.1 ∧ p.1 ≤ coords.length) ∧ (1 ≤ p.2 ∧ p.2 ≤ coords.length)) :
    ∃ loaded : Loader.Loaded K,
      Loader.readGraph strtof alloc (Loader.wellFormedInput coords pairs) graph heap
          = Outcome.returned loaded
        ∧ loaded.graph._nodes = graph._nodes ++ (List.range coords.length).map alloc
        ∧ loaded.graph._links
          = graph._links ++ pairs.map (fun p => ⟨alloc (p.1 - 1), alloc (p.2 - 1)⟩)
        ∧ (∀ (i : Nat) (hi : i < coords.length),
          (loaded.heap (alloc i)).GetPosition
            = ⟨(strtof coords[i].1.value).1, (strtof coords[i].2.value).1⟩)
        ∧ loaded.stream.failbit = false := by
  have hnodes := Loader.readNodes_coords strtof alloc false coords hc hok
    (Loader.pairFields pairs) heap []
  have hlen : ((List.range coords.length).map (fun i => alloc (0 + i))).length
      = coords.length := by simp
  have hlinks := Loader.readLinks_pairs
    ((List.range coords.length).map (fun i => alloc (0 + i))) pairs
    (by rw [hlen]; exact hp) ((Loader.pairFields pairs).length + 1)
    (by rw [Loader.pairFields_length]; omega) []
  refine ⟨⟨Loader.goodStream false [],
    ⟨graph._nodes ++ (List.range coords.length).map alloc,
      graph._links ++ pairs.map (fun p => ⟨alloc (p.1 - 1), alloc (p.2 - 1)⟩)⟩,
    Loader.placeNodes strtof alloc coords 0 heap⟩, ?_, rfl, rfl, ?_, rfl⟩
  · rw [Loader.wellFormedInput_eq]
    unfold Loader.readGraph
    rw [Loader.readSize_nat]
    simp only []
    rw [hnodes]
    simp only [List.nil_append, List.length_nil]
    have hgs : (Loader.goodStream false (Loader.pairFields pairs)).fields
        = Loader.pairFields pairs := rfl
    rw [hgs, hlinks]
    simp only [List.nil_append, Loader.AddNodes_eq, Loader.AddLinks_eq]
    congr 3
    · simp
    · congr 1
      apply List.map_congr_left
      intro p hp2
      have h := hp p hp2
      have e1 : ((List.range coords.length).map (fun i => alloc (0 + i))).getD (p.1 - 1) 0
          = alloc (p.1 - 1) := by
        rw [List.getD_eq_getElem?_getD, List.getElem?_eq_getElem (by rw [hlen]; omega)]
        simp
      have e2 : ((List.range coords.length).map (fun i => alloc (0 + i))).getD (p.2 - 1) 0
          = alloc (p.2 - 1) := by
        rw [List.getD_eq_getElem?_getD, List.getElem?_eq_getElem (by rw [hlen]; omega)]
        simp
      rw [e1, e2]
  · intro i hi
    have := Loader.placeNodes_alloc strtof alloc halloc coords 0 heap i hi
    rw [Nat.zero_add] at this
    simp only [Node.GetPosition]
    rw [this]

/-- Witness of the amended C9: the input `3\n0 0\n10 0\n20 0\n1 2\n2 3` (no final
newline) read with the conversion of binary32 into the empty graph, the `i`-th node
allocated at address `i`. -/
theorem readGraph_wellFormed_witness :
    ∃ loaded : Loader.Loaded Binary32,
      Loader.readGraph Binary32.strtof id
          (Loader.wellFormedInput
            [(Field.int 0, Field.int 0), (Field.int 10, Field.int 0),
              (Field.int 20, Field.int 0)]
            [(1, 2), (2, 3)])
          ⟨[], []⟩ (fun _ => ⟨⟨0, 0⟩⟩)
          = Outcome.returned loaded
        ∧ loaded.graph._nodes = [0, 1, 2]
        ∧ loaded.graph._links = [⟨0, 1⟩, ⟨1, 2⟩]
        ∧ (loaded.heap 1).GetPosition = ⟨10, 0⟩
        ∧ loaded.stream.failbit = false := by
  obtain ⟨loaded, h1, h2, h3, h4, h5⟩ := readGraph_wellFormed Binary32.strtof id
    Function.injective_id ⟨[], []⟩ (fun _ => ⟨⟨0, 0⟩⟩)
    [(Field.int 0, Field.int 0), (Field.int 10, Field.int 0), (Field.int 20, Field.int 0)]
    (by decide) (by decide) [(1, 2), (2, 3)] (by decide)
  refine ⟨loaded, h1, by rw [h2]; rfl, by rw [h3]; rfl, ?_, h5⟩
  have := h4 1 (by decide)
  rw [id] at this
  rw [this]
  decide

/-- C10: the loader does not reject an input that contains a non-numeric token,
wherever it stands and whatever the state of the stream: no extraction is followed by a
test of the stream, `while (!stream.eof())` runs its body with `failbit` set and
`eofbit` clear (the slip of C8), and the load ends in undefined behaviour instead of a
report to the caller. -/
theorem readGraph_non_numeric (strtof : ℚ → K × Bool) (alloc : Nat → NodePtr)
    (stream : IStream) (graph : Graph)
    (heap : Heap K) (htext : Field.text ∈ stream.fields) :
    Loader.readGraph strtof alloc stream graph heap = Outcome.undefined
      ∧ Loader.rejected (Loader.readGraph strtof alloc stream graph heap) graph = false := by
  have key : Loader.readGraph strtof alloc stream graph heap = Outcome.undefined := by
    have hfuel := Loader.readGraph_ne_outOfFuel strtof alloc stream graph heap
    have hret : ∀ r, Loader.readGraph strtof alloc stream graph heap ≠ Outcome.returned r := by
      intro r
      unfold Loader.readGraph
      cases hs : stream.readSize with
      | mk count s1 =>
        cases count with
        | none => simp
        | some n =>
          have i1 := Loader.readSize_some stream n (by rw [hs])
          rw [hs] at i1
          simp only []
          cases hr : Loader.readNodes strtof alloc n s1 heap [] with
          | returned nr =>
            have i2 := Loader.readNodes_text strtof alloc n s1 heap [] nr i1.1 (i1.2 htext) hr
            simp only []
            cases hl : Loader.readLinks nr.nodes (nr.stream.fields.length + 1) nr.stream [] with
            | returned x => exact absurd hl (Loader.readLinks_text _ _ _ _ i2.1 i2.2 x)
            | undefined => simp
            | outOfFuel => simp
          | undefined => simp
          | outOfFuel => simp
    cases h : Loader.readGraph strtof alloc stream graph heap with
    | returned r => exact absurd h (hret r)
    | undefined => rfl
    | outOfFuel => exact absurd h hfuel
  exact ⟨key, by rw [key]; rfl⟩

/-- Witness of C10: the input `x`, a non-numeric token where the node count is
expected, read with the conversion of binary32. -/
theorem readGraph_non_numeric_witness :
    Loader.readGraph Binary32.strtof id (IStream.ofFields [Field.text] false)
        ⟨[], []⟩ (fun _ => ⟨⟨0, 0⟩⟩) = Outcome.undefined
      ∧ Loader.rejected
        (Loader.readGraph Binary32.strtof id (IStream.ofFields [Field.text] false)
          ⟨[], []⟩ (fun _ => ⟨⟨0, 0⟩⟩)) ⟨[], []⟩ = false :=
  readGraph_non_numeric Binary32.strtof id _ ⟨[], []⟩ (fun _ => ⟨⟨0, 0⟩⟩) (by decide)

end LoaderClaims

/-! ## Forces that vanish, and forces along the x-axis -/

section AxisLemmas

variable {K : Type} [LinearOrderedField K]

theorem sum_y (l : List (Vector2f K)) : l.sum.y = (l.map (fun f => f.y)).sum := by
  induction l with
  | nil => rfl
  | cons f rest ih => simp [ih]

/-- Forces that are all zero leave the node where it is, whatever `sqrt` computes. -/
theorem ApplyForces_of_forall_zero (sqrt : K → K) (node : Node K)
    (forces : List (Vector2f K)) (h : ∀ f ∈ forces, f = 0) :
    node.ApplyForces sqrt forces = node := by
  unfold Node.ApplyForces
  split_ifs with hempty
  · rfl
  · have hsum : forces.sum = 0 := List.sum_eq_zero h
    simp only [Vector2f.foldl_add_eq_sum, Vector2f.mk_zero, zero_add, hsum,
      Node.ApplyVelocity]
    apply Node.eq_of_position_eq
    show node.position + _ = node.position
    split_ifs
    · ext <;> simp
    · simp

/-- Forces without a y-component leave the y-coordinate of the node as it is, whatever
`sqrt` computes. -/
theorem ApplyForces_y (sqrt : K → K) (node : Node K) (forces : List (Vector2f K))
    (h : ∀ f ∈ forces, f.y = 0) :
    (node.ApplyForces sqrt forces).position.y = node.position.y := by
  unfold Node.ApplyForces
  split_ifs with hempty
  · rfl
  · have hsum : forces.sum.y = 0 := by
      rw [sum_y]
      apply List.sum_eq_zero
      intro x hx
      obtain ⟨f, hf, rfl⟩ := List.mem_map.1 hx
      exact h f hf
    simp only [Vector2f.foldl_add_eq_sum, Vector2f.mk_zero, zero_add, Node.ApplyVelocity]
    show node.position.y + _ = node.position.y
    split_ifs
    · simp [hsum]
    · simp [hsum]

theorem Reference.repulsiveForce_y (sqrt : K → K) (dt : K) (a b : Vector2f K)
    (ha : a.y = 0) (hb : b.y = 0) : (Reference.repulsiveForce sqrt dt a b).y = 0 := by
  unfold Reference.repulsiveForce
  split_ifs
  · rfl
  · simp [ha, hb]

theorem Reference.attraction_y (sqrt : K → K) (dt : K) (a b : Vector2f K)
    (ha : a.y = 0) (hb : b.y = 0) : (Reference.attraction sqrt dt a b).y = 0 := by
  unfold Reference.attraction
  split_ifs
  · rfl
  · simp [ha, hb]

end AxisLemmas

/-! ## The reference force under reordering, and summed over the nodes -/

section Sums

variable {K : Type} [LinearOrderedField K]

/-- The reference force on a node does not depend on the order of the node and link
sequences. -/
theorem Reference.totalForce_perm (sqrt : K → K) (dt : K) (g g2 : Graph) (heap : Heap K)
    (hn : g2._nodes.Perm g._nodes) (hl : g2._links.Perm g._links) (a : NodePtr) :
    Reference.totalForce sqrt dt g2 heap a = Reference.totalForce sqrt dt g heap a := by
  unfold Reference.totalForce
  rw [((hn.filter _).map _).sum_eq, ((hl.filter _).map _).sum_eq,
    ((hl.filter _).map _).sum_eq]

theorem sum_map_filter_eq {α : Type} (q : α → Prop) [DecidablePred q] (f : α → Vector2f K)
    (l : List α) :
    ((l.filter (fun x => q x)).map f).sum = (l.map (fun x => if q x then f x else 0)).sum := by
  induction l with
  | nil => rfl
  | cons a rest ih => rw [Graph.sum_map_filter_cons, List.map_cons, List.sum_cons, ih]

theorem sum_map_add_map {α : Type} (f h : α → Vector2f K) (l : List α) :
    (l.map (fun x => f x + h x)).sum = (l.map f).sum + (l.map h).sum := by
  induction l with
  | nil => simp
  | cons a rest ih => simp only [List.map_cons, List.sum_cons, ih]; abel

/-- A double sum of an antisymmetric quantity over a list is zero. -/
theorem sum_sum_antisymm {α : Type} (F : α → α → Vector2f K)
    (h : ∀ a b, F a b + F b a = 0) (h0 : ∀ a, F a a = 0) (l : List α) :
    (l.map (fun a => (l.map (F a)).sum)).sum = 0 := by
  induction l with
  | nil => rfl
  | cons a rest ih =>
    simp only [List.map_cons, List.sum_cons, h0, zero_add]
    rw [sum_map_add_map (fun x => F x a) (fun x => (rest.map (F x)).sum), ih, add_zero,
      ← sum_map_add_map]
    exact List.sum_eq_zero (fun x hx => by
      obtain ⟨b, _, rfl⟩ := List.mem_map.1 hx
      exact h a b)

/-- Summed over a duplicate-free list that contains `p`, the terms selected by `p`
amount to one of them. -/
theorem sum_map_ite_eq (nodes : List NodePtr) (hnd : nodes.Nodup) (p : NodePtr)
    (hp : p ∈ nodes) (v : Vector2f K) :
    (nodes.map (fun a => if p = a then v else 0)).sum = v := by
  induction nodes with
  | nil => simp at hp
  | cons b rest ih =>
    have hnd2 := List.nodup_cons.1 hnd
    simp only [List.map_cons, List.sum_cons]
    by_cases hb : p = b
    · subst hb
      have : (rest.map (fun a => if p = a then v else 0)).sum = 0 :=
        List.sum_eq_zero (fun x hx => by
          obtain ⟨c, hc, rfl⟩ := List.mem_map.1 hx
          have : p ≠ c := fun hh => hnd2.1 (hh ▸ hc)
          simp [this])
      simp [this]
    · have hp2 : p ∈ rest := by
        rcases List.mem_cons.1 hp with h | h
        · exact absurd h hb
        · exact h
      simp [hb, ih hnd2.2 hp2]

/-- Summed over the nodes, what the links whose `key` endpoint is the node contribute
is what all links contribute. -/
theorem sum_over_nodes_of_links (nodes : List NodePtr) (hnd : nodes.Nodup)
    (key : Link → NodePtr) (f : Link → Vector2f K) (links : List Link)
    (hmem : ∀ l ∈ links, key l ∈ nodes) :
    (nodes.map (fun a => ((links.filter (fun l => key l = a)).map f).sum)).sum
      = (links.map f).sum := by
  induction links with
  | nil => simp
  | cons l rest ih =>
    have h1 := hmem l (List.mem_cons_self _ _)
    simp only [Graph.sum_map_filter_cons, List.map_cons, List.sum_cons]
    rw [sum_map_add_map (fun a => if key l = a then f l else 0)
      (fun a => ((rest.filter (fun l => key l = a)).map f).sum),
      ih (fun l2 hl2 => hmem l2 (List.mem_cons_of_mem _ hl2)),
      sum_map_ite_eq nodes hnd (key l) h1]

/-- The reference forces on the nodes of a graph of pairwise-distinct nodes whose link
endpoints are nodes of the graph add up to zero. -/
theorem Reference.sum_totalForce (sqrt : K → K) (dt : K) (g : Graph) (heap : Heap K)
    (hnd : g._nodes.Nodup)
    (hl : ∀ l ∈ g._links, l._first ∈ g._nodes ∧ l._second ∈ g._nodes) :
    (g._nodes.map (fun a => Reference.totalForce sqrt dt g heap a)).sum = 0 := by
  unfold Reference.totalForce
  rw [sum_map_add_map, sum_map_add_map]
  have hrep : (g._nodes.map (fun a =>
      ((g._nodes.filter (fun b => b ≠ a)).map
        (fun b => Reference.repulsiveForce sqrt dt (heap a).position
          (heap b).position)).sum)).sum = 0 := by
    have := sum_sum_antisymm
      (fun a b : NodePtr => if b ≠ a then
        Reference.repulsiveForce sqrt dt (heap a).position (heap b).position else 0)
      (fun a b => by
        by_cases hab : b = a
        · subst hab; simp
        · have hba : a ≠ b := fun hh => hab hh.symm
          simp only [if_pos hab, if_pos hba, ne_eq, not_false_eq_true]
          rw [Reference.repulsiveForce_swap sqrt dt (heap a).position (heap b).position]
          abel)
      (fun a => by simp) g._nodes
    rw [← this]
    congr 1
    apply List.map_congr_left
    intro a _
    exact sum_map_filter_eq (fun b => b ≠ a) _ g._nodes
  have h1 := sum_over_nodes_of_links g._nodes hnd (fun l => l._first)
    (fun l => -Reference.attraction sqrt dt (heap l._first).position
      (heap l._second).position) g._links (fun l hl2 => (hl l hl2).1)
  have h2 := sum_over_nodes_of_links g._nodes hnd (fun l => l._second)
    (fun l => Reference.attraction sqrt dt (heap l._first).position
      (heap l._second).position) g._links (fun l hl2 => (hl l hl2).2)
  rw [hrep, h1, h2, zero_add, ← sum_map_add_map]
  exact List.sum_eq_zero (fun x hx => by
    obtain ⟨l, _, rfl⟩ := List.mem_map.1 hx
    simp)

end Sums

section Binary32Forces

set_option maxRecDepth 20000

set_option exponentiation.threshold 2000

/-- C14, as stated, fails on the code, whose arithmetic is binary32.  For the nodes at
(0, 0) and (30, 40) and the clock reading 1 the distance is 50 and the claimed force is
`200 * ((100 - 50) / 100) * 1` along `(-30 / 50, -40 / 50)`, that is (-60, -80), a pair
of binary32 numbers; the code returns (-60.0000038..., -80): the quotient `-30 / 50` is
rounded before it is multiplied by 100, so the vector `(a - b) / dist` is not of length
one and the result is not the claimed multiple of the unit vector. -/
theorem repulsive_force_counterexample :
    Node.distance Binary32.sqrt (Example.heapAt ⟨30, 40⟩) 0 1 = 50
      ∧ (Graph.ComputeRepulsiveForce Binary32.sqrt (Clock.const 1)
          (Example.heapAt ⟨30, 40⟩) 0 0 1).1 = ⟨Binary32.dyadic (-15728641) (-18), -80⟩
      ∧ (Binary32.dyadic (-15728641) (-18)).toRat ≠ -60 := by
  refine ⟨by decide, by decide, ?_⟩
  have h : Binary32.dyadic (-15728641) (-18) = Binary32.fin (-15728641 * 2 ^ 131) := by
    decide
  rw [h]
  simp only [Binary32.toRat]
  norm_num

/-- C15, as stated, fails on the code, whose arithmetic is binary32.  For a link whose
endpoints are at (0, 0) and (2e19, 0), farther apart than `FLT_EPSILON`, the square of
the coordinate difference overflows, the distance is infinite, `(first - second) / dist`
is the zero vector, and under the clock reading 1 the step appends the zero vector to
both accumulators, not a vector of length 100. -/
theorem attraction_counterexample :
    Graph.FLT_EPSILON < Node.distance Binary32.sqrt (Example.pairHeap 2e19) 0 1
      ∧ Node.distance Binary32.sqrt (Example.pairHeap 2e19) 0 1 = Binary32.inf false
      ∧ (Graph.attractionPass Binary32.sqrt (Clock.const 1) (Example.pairHeap 2e19)
          [⟨0, 1⟩] ([], 0)).1 = [(0, [⟨0, 0⟩]), (1, [⟨0, 0⟩])] := by
  refine ⟨by decide, by decide, by decide⟩

end Binary32Forces

section ForceClaims

variable {K : Type} [LinearOrderedField K]

/-- C14, amended: in exact arithmetic, with `dist` the distance of the nodes at `a`
and `b`, which is the Euclidean length of `a.position - b.position` (non-negative, its
square the sum of the squares of the two coordinate differences), and `deltaTime =
clock t` the reading `Time::GetDelta` returns in the call, `ComputeRepulsiveForce(a, b)`
is the zero vector when `dist > 100` or `dist ≤ FLT_EPSILON` (and the clock is not
read); otherwise it is `200 * ((100 - dist) / 100) * deltaTime` times
`(a.position - b.position) / dist`, a vector of length one, the factor in front of
`deltaTime` being non-negative; and the force `b` experiences due to `a` under the same
`deltaTime` is the exact negation. -/
theorem repulsive_force_formula {sqrt : K → K} (hs : IsSqrt sqrt) (clock : Clock K)
    (heap : Heap K) (t : Nat) (a b : NodePtr) :
    (0 ≤ Node.distance sqrt heap a b
        ∧ Node.distance sqrt heap a b * Node.distance sqrt heap a b
          = ((heap a).GetPosition.x - (heap b).GetPosition.x)
              * ((heap a).GetPosition.x - (heap b).GetPosition.x)
            + ((heap a).GetPosition.y - (heap b).GetPosition.y)
              * ((heap a).GetPosition.y - (heap b).GetPosition.y))
      ∧ ((Node.distance sqrt heap a b > Graph.REPULSION_DISTANCE
          ∨ Node.distance sqrt heap a b ≤ Graph.FLT_EPSILON) →
        Graph.ComputeRepulsiveForce sqrt clock heap t a b = (0, t))
      ∧ (¬ (Node.distance sqrt heap a b > Graph.REPULSION_DISTANCE
          ∨ Node.distance sqrt heap a b ≤ Graph.FLT_EPSILON) →
        (Graph.ComputeRepulsiveForce sqrt clock heap t a b).1
            = Vector2f.scale
                (Graph.REPULSION_FORCE
                  * ((Graph.REPULSION_DISTANCE - Node.distance sqrt heap a b)
                    / Graph.REPULSION_DISTANCE)
                  * clock t)
                (((heap a).GetPosition - (heap b).GetPosition).div
                  (Node.distance sqrt heap a b))
          ∧ distance sqrt ⟨0, 0⟩
              (((heap a).GetPosition - (heap b).GetPosition).div
                (Node.distance sqrt heap a b)) = 1
          ∧ 0 ≤ Graph.REPULSION_FORCE
              * ((Graph.REPULSION_DISTANCE - Node.distance sqrt heap a b)
                / Graph.REPULSION_DISTANCE))
      ∧ (∀ t2 : Nat, clock t2 = clock t →
        (Graph.ComputeRepulsiveForce sqrt clock heap t2 b a).1
          = -(Graph.ComputeRepulsiveForce sqrt clock heap t a b).1) := by
  refine ⟨⟨distance_nonneg hs _ _, distance_mul_self hs _ _⟩, ?_, ?_, ?_⟩
  · intro h
    unfold Graph.ComputeRepulsiveForce
    simp only []
    rw [if_pos h]
    rfl
  · intro h
    have h1 : Graph.FLT_EPSILON < Node.distance sqrt heap a b :=
      not_le.1 (fun hh => h (Or.inr hh))
    have h2 : Node.distance sqrt heap a b ≤ Graph.REPULSION_DISTANCE :=
      not_lt.1 (fun hh => h (Or.inl hh))
    refine ⟨?_, ?_, ?_⟩
    · unfold Graph.ComputeRepulsiveForce
      simp only []
      rw [if_neg h]
      rfl
    · have hd : Node.distance sqrt heap a b
          = distance sqrt ⟨0, 0⟩ ((heap a).GetPosition - (heap b).GetPosition) :=
        distance_eq_length_sub sqrt _ _
      rw [hd]
      exact length_div_self hs _ (by rw [← hd]; exact lt_trans FLT_EPSILON_pos h1)
    · unfold Graph.REPULSION_FORCE Graph.REPULSION_DISTANCE at *
      have : 0 ≤ 100 - Node.distance sqrt heap a b := sub_nonneg.2 h2
      positivity
  · intro t2 ht
    rw [Graph.ComputeRepulsiveForce_fst, Graph.ComputeRepulsiveForce_fst, ht,
      Reference.repulsiveForce_swap]

/-- Witness of the amended C14 over the reals: the node at (0, 0) is pushed by the node
at (50, 0), under the clock reading 1, with (-100, 0), and pushes it with (100, 0). -/
theorem repulsive_force_formula_witness :
    (Graph.ComputeRepulsiveForce Real.sqrt (Clock.const 1) (Example.pairHeap (50 : ℝ)) 0 0
          1).1 = ⟨-100, 0⟩
      ∧ (Graph.ComputeRepulsiveForce Real.sqrt (Clock.const 1) (Example.pairHeap (50 : ℝ)) 7
          1 0).1 = ⟨100, 0⟩ := by
  have h := repulsive_force_formula isSqrt_real (Clock.const 1) (Example.pairHeap (50 : ℝ))
    0 0 1
  have h2 : Node.distance Real.sqrt (Example.pairHeap (50 : ℝ)) 0 1
      * Node.distance Real.sqrt (Example.pairHeap (50 : ℝ)) 0 1 = 2500 := by
    rw [h.1.2]
    simp only [Node.GetPosition, Example.pairHeap_zero, Example.pairHeap_one]
    norm_num
  have hd : Node.distance Real.sqrt (Example.pairHeap (50 : ℝ)) 0 1 = 50 := by
    have h3 : (Node.distance Real.sqrt (Example.pairHeap (50 : ℝ)) 0 1 - 50)
        * (Node.distance Real.sqrt (Example.pairHeap (50 : ℝ)) 0 1 + 50) = 0 := by
      linear_combination h2
    rcases mul_eq_zero.1 h3 with h4 | h4
    · linarith
    · linarith [h.1.1]
  have h1 : (Graph.ComputeRepulsiveForce Real.sqrt (Clock.const 1)
      (Example.pairHeap (50 : ℝ)) 0 0 1).1 = ⟨-100, 0⟩ := by
    rw [(h.2.2.1 Example.not_near).1, hd]
    simp only [Node.GetPosition, Example.pairHeap_zero, Example.pairHeap_one]
    ext <;> simp [Graph.REPULSION_FORCE, Graph.REPULSION_DISTANCE, Clock.const] <;> norm_num
  exact ⟨h1, by rw [h.2.2.2 7 rfl, h1]; ext <;> simp⟩

end ForceClaims

section AttractionClaims

variable {K : Type} [LinearOrderedField K]

/-- C15, amended: in exact arithmetic, for a link whose
endpoints are farther apart than `FLT_EPSILON`, with `deltaTime = clock t` the one
reading of the clock in the iteration, the attraction pass appends to the accumulator of
`first` the vector `-(200 * 0.5 * deltaTime) * (first.position - second.position) / dist`
and to the accumulator of `second` exactly its negation; the vector appended for `first`
is `100 * deltaTime` times the unit vector from `first` toward `second`, so for
`deltaTime ≥ 0` its length is `100 * deltaTime` whatever the distance. -/
theorem attraction_equal_opposite {sqrt : K → K} (hs : IsSqrt sqrt) (clock : Clock K)
    (heap : Heap K) (m : ForceMap K) (t : Nat) (hm : ForceMap.Ordered m) (link : Link)
    (hd : Graph.FLT_EPSILON < Node.distance sqrt heap link.GetFirst link.GetSecond) :
    ForceMap.find (Graph.attractionPass sqrt clock heap [link] (m, t)).1 link.GetFirst
        = ForceMap.find m link.GetFirst
          ++ [Vector2f.scale (-(Graph.ATTRACTION_FORCE * (1 / 2) * clock t))
              (((heap link.GetFirst).GetPosition - (heap link.GetSecond).GetPosition).div
                (Node.distance sqrt heap link.GetFirst link.GetSecond))]
      ∧ ForceMap.find (Graph.attractionPass sqrt clock heap [link] (m, t)).1 link.GetSecond
        = ForceMap.find m link.GetSecond
          ++ [-Vector2f.scale (-(Graph.ATTRACTION_FORCE * (1 / 2) * clock t))
              (((heap link.GetFirst).GetPosition - (heap link.GetSecond).GetPosition).div
                (Node.distance sqrt heap link.GetFirst link.GetSecond))]
      ∧ Vector2f.scale (-(Graph.ATTRACTION_FORCE * (1 / 2) * clock t))
          (((heap link.GetFirst).GetPosition - (heap link.GetSecond).GetPosition).div
            (Node.distance sqrt heap link.GetFirst link.GetSecond))
        = Vector2f.scale (100 * clock t)
          (((heap link.GetSecond).GetPosition - (heap link.GetFirst).GetPosition).div
            (Node.distance sqrt heap link.GetFirst link.GetSecond))
      ∧ distance sqrt ⟨0, 0⟩
          (((heap link.GetSecond).GetPosition - (heap link.GetFirst).GetPosition).div
            (Node.distance sqrt heap link.GetFirst link.GetSecond)) = 1
      ∧ (0 ≤ clock t →
        distance sqrt ⟨0, 0⟩
          (Vector2f.scale (-(Graph.ATTRACTION_FORCE * (1 / 2) * clock t))
            (((heap link.GetFirst).GetPosition - (heap link.GetSecond).GetPosition).div
              (Node.distance sqrt heap link.GetFirst link.GetSecond)))
          = 100 * clock t) := by
  have hne : link.GetFirst ≠ link.GetSecond := by
    intro h
    rw [Node.distance, h, distance_self hs] at hd
    exact absurd FLT_EPSILON_pos (not_lt.2 hd.le)
  have hforce : (Graph.ComputeAttractionForce sqrt clock heap t link).1
      = Vector2f.scale (Graph.ATTRACTION_FORCE * (1 / 2) * clock t)
          (((heap link.GetFirst).GetPosition - (heap link.GetSecond).GetPosition).div
            (Node.distance sqrt heap link.GetFirst link.GetSecond)) := by
    unfold Graph.ComputeAttractionForce
    simp only []
    rw [if_neg (not_le.2 hd)]
    rfl
  have hneg : ∀ (c : K) (v : Vector2f K), -Vector2f.scale c v = Vector2f.scale (-c) v := by
    intro c v; ext <;> simp
  have hflip : Vector2f.scale (-(Graph.ATTRACTION_FORCE * (1 / 2) * clock t))
        (((heap link.GetFirst).GetPosition - (heap link.GetSecond).GetPosition).div
          (Node.distance sqrt heap link.GetFirst link.GetSecond))
      = Vector2f.scale (100 * clock t)
        (((heap link.GetSecond).GetPosition - (heap link.GetFirst).GetPosition).div
          (Node.distance sqrt heap link.GetFirst link.GetSecond)) := by
    unfold Graph.ATTRACTION_FORCE
    ext
    · simp only [Vector2f.scale_x, Vector2f.div_x, Vector2f.sub_x]; ring
    · simp only [Vector2f.scale_y, Vector2f.div_y, Vector2f.sub_y]; ring
  have hunit : distance sqrt ⟨0, 0⟩
      (((heap link.GetSecond).GetPosition - (heap link.GetFirst).GetPosition).div
        (Node.distance sqrt heap link.GetFirst link.GetSecond)) = 1 := by
    have hdist : Node.distance sqrt heap link.GetFirst link.GetSecond
        = distance sqrt ⟨0, 0⟩
            ((heap link.GetSecond).GetPosition - (heap link.GetFirst).GetPosition) := by
      rw [Node.distance, distance_comm, distance_eq_length_sub]
    rw [hdist]
    exact length_div_self hs _ (by rw [← hdist]; exact lt_trans FLT_EPSILON_pos hd)
  have o1 := ForceMap.ordered_pushBack m link.GetFirst
    (-(Graph.ComputeAttractionForce sqrt clock heap t link).1) hm
  refine ⟨?_, ?_, hflip, hunit, ?_⟩
  · rw [Graph.attractionPass_cons]
    simp only [Graph.attractionPass, List.foldl_nil]
    rw [ForceMap.find_pushBack _ _ _ o1, if_neg hne, ForceMap.find_pushBack _ _ _ hm,
      if_pos rfl, hforce, hneg]
  · rw [Graph.attractionPass_cons]
    simp only [Graph.attractionPass, List.foldl_nil]
    rw [ForceMap.find_pushBack _ _ _ o1, if_pos rfl, ForceMap.find_pushBack _ _ _ hm,
      if_neg hne.symm, hforce, ← hneg, neg_neg]
  · intro hdt
    rw [hflip, length_scale hs _ (by positivity), hunit, mul_one]

/-- Witness of the amended C15 over the reals: the link from the node at (0, 0) to the node at
(50, 0), on the empty accumulators, under the clock reading 1. -/
theorem attraction_equal_opposite_witness :
    ForceMap.find
        (Graph.attractionPass Real.sqrt (Clock.const 1) (Example.pairHeap (50 : ℝ))
          [⟨0, 1⟩] ([], 0)).1 (Link.GetSecond ⟨0, 1⟩)
      = ForceMap.find ([] : ForceMap ℝ) (Link.GetSecond ⟨0, 1⟩)
        ++ [-Vector2f.scale (-(Graph.ATTRACTION_FORCE * (1 / 2) * Clock.const (1 : ℝ) 0))
            (((Example.pairHeap (50 : ℝ) (Link.GetFirst ⟨0, 1⟩)).GetPosition
                - (Example.pairHeap (50 : ℝ) (Link.GetSecond ⟨0, 1⟩)).GetPosition).div
              (Node.distance Real.sqrt (Example.pairHeap (50 : ℝ)) (Link.GetFirst ⟨0, 1⟩)
                (Link.GetSecond ⟨0, 1⟩)))] :=
  (attraction_equal_opposite isSqrt_real (Clock.const 1) (Example.pairHeap (50 : ℝ)) [] 0
    ForceMap.ordered_nil ⟨0, 1⟩
    (by
      show Graph.FLT_EPSILON < distance Real.sqrt (Example.pairHeap (50 : ℝ) 0).position
        (Example.pairHeap (50 : ℝ) 1).position
      rw [Example.distance_pair]; exact Example.eps_lt_fifty)).2.1

end AttractionClaims

/-! ## How many forces a node collects -/

namespace Graph

variable {K : Type} [LinearOrderedField K]

theorem length_find_pushBack (m : ForceMap K) (key : NodePtr) (force : Vector2f K)
    (hm : ForceMap.Ordered m) (p : NodePtr) :
    (ForceMap.find (ForceMap.pushBack m key force) p).length
      = (ForceMap.find m p).length + if p = key then 1 else 0 := by
  rw [ForceMap.find_pushBack m key force hm]
  split_ifs with h
  · subst h; simp
  · simp

theorem length_find_repulsionRow (sqrt : K → K) (clock : Clock K) (heap : Heap K)
    (nodes : List NodePtr) (node1 : NodePtr) (st : ForceMap K × Nat)
    (h : ForceMap.Ordered st.1) (p : NodePtr) :
    (ForceMap.find (repulsionRow sqrt clock heap nodes node1 st).1 p).length
      = (ForceMap.find st.1 p).length
        + if p = node1 then (nodes.filter (fun b => b ≠ node1)).length else 0 := by
  induction nodes generalizing st with
  | nil => simp [repulsionRow]
  | cons b rest ih =>
    rw [repulsionRow_cons]
    by_cases hb : node1 = b
    · subst hb
      rw [if_neg (by simp), ih st h]
      simp
    · have hb2 : b ≠ node1 := fun hh => hb hh.symm
      rw [if_pos hb, ih _ (ForceMap.ordered_pushBack _ _ _ h)]
      simp only [length_find_pushBack _ _ _ h]
      by_cases hp : p = node1
      · simp only [if_pos hp, List.filter_cons, hb2, ne_eq, not_false_eq_true, decide_True,
          if_true, List.length_cons]
        omega
      · simp [hp]

theorem length_find_repulsionPass (sqrt : K → K) (clock : Clock K) (heap : Heap K)
    (nodes outer : List NodePtr) (hnd : outer.Nodup) (st : ForceMap K × Nat)
    (h : ForceMap.Ordered st.1) (p : NodePtr) :
    (ForceMap.find
        (outer.foldl (fun st node1 => repulsionRow sqrt clock heap nodes node1 st) st).1
        p).length
      = (ForceMap.find st.1 p).length
        + if p ∈ outer then (nodes.filter (fun b => b ≠ p)).length else 0 := by
  induction outer generalizing st with
  | nil => simp
  | cons n1 rest ih =>
    have hnd2 := List.nodup_cons.1 hnd
    rw [List.foldl_cons, ih hnd2.2 _ (ordered_repulsionRow sqrt _ heap nodes n1 st h),
      length_find_repulsionRow sqrt clock heap nodes n1 st h]
    by_cases hp : p = n1
    · subst hp
      simp [hnd2.1]
    · by_cases hr : p ∈ rest
      · simp [hp, hr]
      · simp [hp, hr]

theorem find_attractionPass_of_no_link (sqrt : K → K) (clock : Clock K) (heap : Heap K)
    (links : List Link) (st : ForceMap K × Nat) (h : ForceMap.Ordered st.1) (p : NodePtr)
    (hl : ∀ l ∈ links, l._first ≠ p ∧ l._second ≠ p) :
    ForceMap.find (attractionPass sqrt clock heap links st).1 p = ForceMap.find st.1 p := by
  induction links generalizing st with
  | nil => simp [attractionPass]
  | cons l rest ih =>
    have h1 := hl l (List.mem_cons_self _ _)
    rw [attractionPass_cons,
      ih _ (ForceMap.ordered_pushBack _ _ _ (ForceMap.ordered_pushBack _ _ _ h))
        (fun l2 hl2 => hl l2 (List.mem_cons_of_mem _ hl2))]
    simp only []
    rw [ForceMap.find_pushBack _ _ _ (ForceMap.ordered_pushBack _ _ _ h),
      if_neg (fun hh => h1.2 hh.symm), ForceMap.find_pushBack _ _ _ h,
      if_neg (fun hh => h1.1 hh.symm)]

theorem length_filter_ne (nodes : List NodePtr) (hnd : nodes.Nodup) (a : NodePtr)
    (ha : a ∈ nodes) : (nodes.filter (fun b => b ≠ a)).length = nodes.length - 1 := by
  induction nodes with
  | nil => simp at ha
  | cons b rest ih =>
    have hnd2 := List.nodup_cons.1 hnd
    by_cases hb : b = a
    · subst hb
      have : rest.filter (fun c => c ≠ b) = rest :=
        List.filter_eq_self.2 (fun c hc => by
          have : c ≠ b := fun hh => hnd2.1 (hh ▸ hc)
          simpa using this)
      rw [List.filter_cons_of_neg (by simp), this]
      simp
    · have ha2 : a ∈ rest := by
        rcases List.mem_cons.1 ha with h | h
        · exact absurd h.symm hb
        · exact h
      have hpos : 0 < rest.length := List.length_pos_of_mem ha2
      simp only [List.filter_cons, hb, ne_eq, not_false_eq_true, decide_True, if_true,
        List.length_cons, ih hnd2.2 ha2]
      omega

/-- A node of a duplicate-free node vector that no link ends at collects exactly one
force per other node. -/
theorem length_find_nodeForces (sqrt : K → K) (clock : Clock K) (g : Graph) (heap : Heap K)
    (hnd : g._nodes.Nodup) (a : NodePtr) (ha : a ∈ g._nodes)
    (hl : ∀ l ∈ g._links, l._first ≠ a ∧ l._second ≠ a) :
    (ForceMap.find (nodeForces sqrt clock g heap) a).length = g._nodes.length - 1 := by
  unfold nodeForces repulsionPass
  rw [find_attractionPass_of_no_link _ _ _ _ _
      (ordered_repulsionPass sqrt _ heap g._nodes g._nodes _ (ordered_initPass _)) a hl,
    length_find_repulsionPass sqrt clock heap g._nodes g._nodes hnd _ (ordered_initPass _),
    find_initPass, if_pos ha, length_filter_ne g._nodes hnd a ha]
  simp

end Graph

section RangeClaims

variable {K : Type} [LinearOrderedField K]

/-- C17 (bounded interaction range): in every graph, whatever the clock reads, a node
that is the endpoint of no link and farther than `REPULSION_DISTANCE = 100` from every
other node of the graph collects only zero vectors and is, after one step, where it
was before; when it is a node of a duplicate-free node vector its accumulator holds
one entry per other node. -/
theorem bounded_interaction_range (sqrt : K → K) (clock : Clock K) (g : Graph)
    (heap : Heap K) (a : NodePtr) (hlink : ∀ l ∈ g._links, l._first ≠ a ∧ l._second ≠ a)
    (hfar : ∀ b ∈ g._nodes, b ≠ a → Graph.REPULSION_DISTANCE < Node.distance sqrt heap a b) :
    (∀ f ∈ ForceMap.find (Graph.nodeForces sqrt clock g heap) a, f = 0)
      ∧ Graph.Update sqrt clock g heap a = heap a
      ∧ (g._nodes.Nodup → a ∈ g._nodes →
        (ForceMap.find (Graph.nodeForces sqrt clock g heap) a).length
          = g._nodes.length - 1) := by
  have hzero : ∀ f ∈ ForceMap.find (Graph.nodeForces sqrt clock g heap) a, f = 0 := by
    intro f hf
    refine Graph.forall_find_nodeForces sqrt clock g heap (fun p v => p = a → v = 0)
      ?_ ?_ a f hf rfl
    · intro t p q _ hq hpq hpa
      subst hpa
      rw [Graph.ComputeRepulsiveForce_fst]
      exact Reference.repulsiveForce_of_far _ _ _ _
        (hfar q hq (fun hh => hpq hh.symm))
    · intro t l hl
      exact ⟨fun hh => absurd hh (hlink l hl).1, fun hh => absurd hh (hlink l hl).2⟩
  refine ⟨hzero, ?_, fun hnd ha => Graph.length_find_nodeForces sqrt clock g heap hnd a ha hlink⟩
  rw [Graph.Update_apply]
  exact ApplyForces_of_forall_zero sqrt _ _ hzero

/-- Witness of C17 over the reals: two unlinked nodes 200 apart, under the clock that
reads 1, 2, 3, ... -/
theorem bounded_interaction_range_witness :
    Graph.Update Real.sqrt Example.tickingClock ⟨[0, 1], []⟩ (Example.pairHeap (200 : ℝ)) 0
        = Example.pairHeap (200 : ℝ) 0
      ∧ (ForceMap.find
          (Graph.nodeForces Real.sqrt Example.tickingClock ⟨[0, 1], []⟩
            (Example.pairHeap (200 : ℝ))) 0).length = 1 :=
  ⟨(bounded_interaction_range Real.sqrt Example.tickingClock ⟨[0, 1], []⟩
      (Example.pairHeap (200 : ℝ)) 0 (by simp)
      (by
        intro b hb hne
        have hb1 : b = 1 := by
          rcases List.mem_cons.1 hb with h | h
          · exact absurd h hne
          · simpa using h
        subst hb1
        have hd : Node.distance Real.sqrt (Example.pairHeap (200 : ℝ)) 0 1 = 200 := by
          show distance Real.sqrt (Example.pairHeap (200 : ℝ) 0).position
            (Example.pairHeap (200 : ℝ) 1).position = 200
          rw [Example.pairHeap_zero, Example.pairHeap_one]
          apply distance_eq_of_mul_self isSqrt_real <;> norm_num
        rw [hd]
        unfold Graph.REPULSION_DISTANCE
        norm_num)).2.1,
    (bounded_interaction_range Real.sqrt Example.tickingClock ⟨[0, 1], []⟩
      (Example.pairHeap (200 : ℝ)) 0 (by simp)
      (by
        intro b hb hne
        have hb1 : b = 1 := by
          rcases List.mem_cons.1 hb with h | h
          · exact absurd h hne
          · simpa using h
        subst hb1
        have hd : Node.distance Real.sqrt (Example.pairHeap (200 : ℝ)) 0 1 = 200 := by
          show distance Real.sqrt (Example.pairHeap (200 : ℝ) 0).position
            (Example.pairHeap (200 : ℝ) 1).position = 200
          rw [Example.pairHeap_zero, Example.pairHeap_one]
          apply distance_eq_of_mul_self isSqrt_real <;> norm_num
        rw [hd]
        unfold Graph.REPULSION_DISTANCE
        norm_num)).2.2 (by decide) (by decide)⟩

/-- Under the hypothesis that the nodes of the graph and the endpoints of its links are
on the line `y = 0`, a step changes no y-coordinate, whatever the clock reads and
whatever `sqrt` computes. -/
theorem Update_y (sqrt : K → K) (clock : Clock K) (g : Graph) (heap : Heap K)
    (hn : ∀ p ∈ g._nodes, (heap p).position.y = 0)
    (hl : ∀ l ∈ g._links, (heap l._first).position.y = 0 ∧ (heap l._second).position.y = 0)
    (p : NodePtr) :
    (Graph.Update sqrt clock g heap p).position.y = (heap p).position.y := by
  rw [Graph.Update_apply]
  apply ApplyForces_y
  intro f hf
  refine Graph.forall_find_nodeForces sqrt clock g heap (fun _ v => v.y = 0) ?_ ?_ p f hf
  · intro t a b ha hb _
    rw [Graph.ComputeRepulsiveForce_fst]
    exact Reference.repulsiveForce_y _ _ _ _ (hn a ha) (hn b hb)
  · intro t l hl2
    rw [Graph.ComputeAttractionForce_fst]
    have := Reference.attraction_y sqrt (clock t) _ _ (hl l hl2).1 (hl l hl2).2
    exact ⟨by
      show (-Reference.attraction sqrt (clock t) (heap l._first).position
        (heap l._second).position).y = 0
      rw [Vector2f.neg_y, this, neg_zero], this⟩

/-- C11, amended: in exact arithmetic, for every graph whose nodes, those of the node
vector and the endpoints of the links, all have y-coordinate 0, whatever the clock
reads, after one step every one of them still has y-coordinate exactly 0, and so it has
after any number of steps. -/
theorem colinearity_preserved (sqrt : K → K) (g : Graph) (heap : Heap K)
    (hn : ∀ p ∈ g._nodes, (heap p).GetPosition.y = 0)
    (hl : ∀ l ∈ g._links,
      (heap l._first).GetPosition.y = 0 ∧ (heap l._second).GetPosition.y = 0) :
    (∀ (clock : Clock K),
        (∀ p ∈ g._nodes, (Graph.Update sqrt clock g heap p).GetPosition.y = 0)
          ∧ ∀ l ∈ g._links,
            (Graph.Update sqrt clock g heap l._first).GetPosition.y = 0
              ∧ (Graph.Update sqrt clock g heap l._second).GetPosition.y = 0)
      ∧ (∀ (clocks : Nat → Clock K) (n : Nat),
        (∀ p ∈ g._nodes, (Graph.UpdateN sqrt clocks g n heap p).GetPosition.y = 0)
          ∧ ∀ l ∈ g._links,
            (Graph.UpdateN sqrt clocks g n heap l._first).GetPosition.y = 0
              ∧ (Graph.UpdateN sqrt clocks g n heap l._second).GetPosition.y = 0) := by
  have hrun : ∀ (clocks : Nat → Clock K) (n : Nat) (p : NodePtr),
      (Graph.UpdateN sqrt clocks g n heap p).position.y = (heap p).position.y := by
    intro clocks n
    induction n with
    | zero => intro p; rfl
    | succ n ih =>
      intro p
      rw [Graph.UpdateN, Update_y sqrt (clocks n) g _
        (fun q hq => by rw [ih]; exact hn q hq)
        (fun l hl2 => by rw [ih, ih]; exact hl l hl2), ih]
  have hstep : ∀ (clock : Clock K) (p : NodePtr),
      (Graph.Update sqrt clock g heap p).position.y = (heap p).position.y :=
    fun clock p => Update_y sqrt clock g heap hn hl p
  refine ⟨fun clock => ⟨fun p hp => ?_, fun l hl2 => ⟨?_, ?_⟩⟩,
    fun clocks n => ⟨fun p hp => ?_, fun l hl2 => ⟨?_, ?_⟩⟩⟩
  · exact (hstep clock p).trans (hn p hp)
  · exact (hstep clock _).trans (hl l hl2).1
  · exact (hstep clock _).trans (hl l hl2).2
  · exact (hrun clocks n p).trans (hn p hp)
  · exact (hrun clocks n _).trans (hl l hl2).1
  · exact (hrun clocks n _).trans (hl l hl2).2

/-- Witness of the amended C11 over the reals: the scenario with the nodes (0, 0),
(10, 0), (20, 0) and the links 1-2 and 2-3, after one step and after five steps under
the clock that reads 1, 2, 3, ... -/
theorem colinearity_preserved_witness :
    (Graph.Update Real.sqrt Example.tickingClock Example.chainGraph
        (Example.chainHeap : Heap ℝ) 0).GetPosition.y = 0
      ∧ (Graph.UpdateN Real.sqrt (fun _ => Example.tickingClock) Example.chainGraph 5
        (Example.chainHeap : Heap ℝ) 2).GetPosition.y = 0 :=
  ⟨((colinearity_preserved Real.sqrt Example.chainGraph (Example.chainHeap : Heap ℝ)
      (by intro p _; unfold Example.chainHeap Node.GetPosition; split_ifs <;> rfl)
      (by
        intro l _
        constructor <;>
          (unfold Example.chainHeap Node.GetPosition; split_ifs <;> rfl))).1
      Example.tickingClock).1 0 (by decide),
    ((colinearity_preserved Real.sqrt Example.chainGraph (Example.chainHeap : Heap ℝ)
      (by intro p _; unfold Example.chainHeap Node.GetPosition; split_ifs <;> rfl)
      (by
        intro l _
        constructor <;>
          (unfold Example.chainHeap Node.GetPosition; split_ifs <;> rfl))).2
      (fun _ => Example.tickingClock) 5).1 2 (by decide)⟩

end RangeClaims

section Binary32Colinearity

set_option maxRecDepth 20000

set_option exponentiation.threshold 2000

/-- C11, as stated, fails on the code, for two reasons.  A link may end outside the
node vector: in the graph with the one node 0 at (0, 0) and a link from it to the node
1 at (0, 50), which is not in the node vector (the state reached by `AddNodes` and
`AddLinks`), every node of the node vector has y-coordinate 0, and one step in binary32
with every clock reading 0.1 pulls node 0 to (0, 10).  And the arithmetic is binary32:
for the linked nodes at (3e38, 0) and (-3e38, 0), both in the node vector, the difference
of the x-coordinates overflows, and after two steps with every clock reading 0.1 the
y-coordinate of the first node is NaN. -/
theorem colinearity_counterexample :
    (∀ p ∈ (⟨[0], [⟨0, 1⟩]⟩ : Graph)._nodes,
        ((Example.heapAt ⟨0, 50⟩ : Heap Binary32) p).GetPosition.y = 0)
      ∧ (Graph.Update Binary32.sqrt (Clock.const 0.1) ⟨[0], [⟨0, 1⟩]⟩
          (Example.heapAt ⟨0, 50⟩) 0).GetPosition = ⟨0, 10⟩
      ∧ (Graph.Update Binary32.sqrt (Clock.const 0.1) ⟨[0], [⟨0, 1⟩]⟩
          (Example.heapAt ⟨0, 50⟩) 0).GetPosition.y ≠ 0
      ∧ (∀ p, ((Example.rowHeap 3e38 (-3e38) : Heap Binary32) p).GetPosition.y = 0)
      ∧ (Graph.UpdateN Binary32.sqrt (fun _ => Clock.const 0.1) ⟨[0, 1], [⟨0, 1⟩]⟩ 2
          (Example.rowHeap 3e38 (-3e38)) 0).GetPosition = ⟨Binary32.nan, Binary32.nan⟩ := by
  refine ⟨by decide, by decide, by decide, ?_, Example.colinear_nan.2⟩
  intro p
  unfold Example.rowHeap Node.GetPosition
  split_ifs <;> rfl

end Binary32Colinearity

/-! ## A step under two clocks -/

section DeterminismExample

variable {K : Type} [LinearOrderedField K]

/-- What the code does on two unlinked nodes at (0, 0) and (50, 0) when every clock
reading is 1: the second node moves to (150, 0). -/
theorem Example.update_pair_const :
    (Graph.Update Real.sqrt (Clock.const 1) ⟨[0, 1], []⟩
        (Example.pairHeap (50 : ℝ)) 1).position = ⟨150, 0⟩ := by
  have hp := Graph.total_nodeForces_pair Real.sqrt (Clock.const 1)
    (Example.pairHeap (50 : ℝ)) 0 1 (by decide)
  rw [Graph.Update_position isSqrt_real, hp.2, Graph.ComputeRepulsiveForce_fst,
    Reference.repulsiveForce_swap, Example.repulsion_zero_one, Example.pairHeap_one]
  have hn : -(⟨-(100 * Clock.const (1 : ℝ)
      (Graph.ComputeRepulsiveForce Real.sqrt (Clock.const 1) (Example.pairHeap 50) 0 0 1).2),
      0⟩ : Vector2f ℝ) = ⟨100, 0⟩ := by
    ext
    · simp [Clock.const]
    · simp
  rw [hn, Example.clamp_horizontal _ (by norm_num)]
  ext
  · simp; norm_num
  · simp

/-- C13, as stated, fails on the code: two runs of one step from the same positions
(two unlinked nodes at (0, 0) and (50, 0)) whose clocks both read the same `deltaTime`
1 at the first force, one clock standing still and the other reading 2 at the second
force, leave the second node at different positions, (150, 0) and (250, 0). -/
theorem determinism_counterexample :
    (Example.tickingClock 0 : ℝ) = Clock.const 1 0
      ∧ (Graph.Update Real.sqrt Example.tickingClock ⟨[0, 1], []⟩
          (Example.pairHeap (50 : ℝ)) 1).GetPosition
        ≠ (Graph.Update Real.sqrt (Clock.const 1) ⟨[0, 1], []⟩
          (Example.pairHeap (50 : ℝ)) 1).GetPosition := by
  constructor
  · simp [Example.tickingClock, Clock.const]
  · simp only [Node.GetPosition]
    rw [Example.update_pair_ticking.2, Example.update_pair_const]
    intro h
    have e := congrArg Vector2f.x h
    norm_num at e

end DeterminismExample

/-! ## What a step depends on -/

section Determinism

variable {K : Type} [Add K] [Sub K] [Mul K] [Div K] [Neg K] [Zero K] [One K] [LT K] [LE K]
  [DecidableRel (fun a b : K => a < b)] [DecidableRel (fun a b : K => a ≤ b)]
  [OfNat K (nat_lit 2)] [OfNat K (nat_lit 100)] [OfNat K (nat_lit 200)]
  [OfNat K (nat_lit 300)] [OfNat K (nat_lit 8388608)]

theorem ForceMap.mirrors_assignEmpty (address : NodePtr → NodePtr)
    (hinj : Function.Injective address) (m2 m1 : ForceMap K)
    (h : ForceMap.Mirrors address m2 m1) (a : NodePtr) :
    ForceMap.Mirrors address (ForceMap.assignEmpty m2 (address a))
      (ForceMap.assignEmpty m1 a) := by
  refine ⟨ForceMap.ordered_assignEmpty _ _ h.1, ForceMap.ordered_assignEmpty _ _ h.2.1, ?_⟩
  intro p
  rw [ForceMap.find_assignEmpty _ _ h.1, ForceMap.find_assignEmpty _ _ h.2.1, h.2.2 p]
  by_cases hp : p = a
  · subst hp; simp
  · rw [if_neg hp, if_neg (fun hh => hp (hinj hh))]

theorem ForceMap.mirrors_pushBack (address : NodePtr → NodePtr)
    (hinj : Function.Injective address) (m2 m1 : ForceMap K)
    (h : ForceMap.Mirrors address m2 m1) (a : NodePtr) (force : Vector2f K) :
    ForceMap.Mirrors address (ForceMap.pushBack m2 (address a) force)
      (ForceMap.pushBack m1 a force) := by
  refine ⟨ForceMap.ordered_pushBack _ _ _ h.1, ForceMap.ordered_pushBack _ _ _ h.2.1, ?_⟩
  intro p
  rw [ForceMap.find_pushBack _ _ _ h.1, ForceMap.find_pushBack _ _ _ h.2.1, h.2.2 p, h.2.2 a]
  by_cases hp : p = a
  · subst hp; simp
  · rw [if_neg hp, if_neg (fun hh => hp (hinj hh))]

theorem Graph.ComputeRepulsiveForce_relocate (sqrt : K → K) (clock : Clock K)
    (address : NodePtr → NodePtr) (heap1 heap2 : Heap K)
    (hheap : ∀ p, heap2 (address p) = heap1 p) (t : Nat) (a b : NodePtr) :
    Graph.ComputeRepulsiveForce sqrt clock heap2 t (address a) (address b)
      = Graph.ComputeRepulsiveForce sqrt clock heap1 t a b := by
  unfold Graph.ComputeRepulsiveForce Node.distance
  rw [hheap a, hheap b]

theorem Graph.ComputeAttractionForce_relocate (sqrt : K → K) (clock : Clock K)
    (address : NodePtr → NodePtr) (heap1 heap2 : Heap K)
    (hheap : ∀ p, heap2 (address p) = heap1 p) (t : Nat) (l : Link) :
    Graph.ComputeAttractionForce sqrt clock heap2 t ⟨address l._first, address l._second⟩
      = Graph.ComputeAttractionForce sqrt clock heap1 t l := by
  unfold Graph.ComputeAttractionForce Node.distance Link.GetFirst Link.GetSecond
  simp only []
  rw [hheap l._first, hheap l._second]

/-- The forces a step collects for a node do not depend on the addresses of the
nodes. -/
theorem Graph.nodeForces_relocate (sqrt : K → K) (clock : Clock K)
    (address : NodePtr → NodePtr) (hinj : Function.Injective address) (g : Graph)
    (heap1 heap2 : Heap K) (hheap : ∀ p, heap2 (address p) = heap1 p) :
    ForceMap.Mirrors address (Graph.nodeForces sqrt clock (g.relocate address) heap2)
      (Graph.nodeForces sqrt clock g heap1) := by
  have hinit : ∀ (nodes : List NodePtr) (m2 m1 : ForceMap K), ForceMap.Mirrors address m2 m1 →
      ForceMap.Mirrors address
        ((nodes.map address).foldl (fun m node1 => ForceMap.assignEmpty m node1) m2)
        (nodes.foldl (fun m node1 => ForceMap.assignEmpty m node1) m1) := by
    intro nodes
    induction nodes with
    | nil => intro m2 m1 h; exact h
    | cons a rest ih =>
      intro m2 m1 h
      simp only [List.map_cons, List.foldl_cons]
      exact ih _ _ (ForceMap.mirrors_assignEmpty address hinj m2 m1 h a)
  have hrow : ∀ (inner : List NodePtr) (a : NodePtr) (st2 st1 : ForceMap K × Nat),
      st2.2 = st1.2 → ForceMap.Mirrors address st2.1 st1.1 →
      (Graph.repulsionRow sqrt clock heap2 (inner.map address) (address a) st2).2
          = (Graph.repulsionRow sqrt clock heap1 inner a st1).2
        ∧ ForceMap.Mirrors address
          (Graph.repulsionRow sqrt clock heap2 (inner.map address) (address a) st2).1
          (Graph.repulsionRow sqrt clock heap1 inner a st1).1 := by
    intro inner a
    induction inner with
    | nil => intro st2 st1 ht h; exact ⟨ht, h⟩
    | cons b rest ih =>
      intro st2 st1 ht h
      simp only [Graph.repulsionRow, List.map_cons, List.foldl_cons] at ih ⊢
      by_cases hab : a = b
      · subst hab
        simp only [ne_eq, not_true_eq_false, if_false]
        exact ih st2 st1 ht h
      · have hab2 : address a ≠ address b := fun hh => hab (hinj hh)
        simp only [ne_eq, hab, hab2, not_false_eq_true, if_true]
        apply ih
        · show (Graph.ComputeRepulsiveForce sqrt clock heap2 st2.2 (address a) (address b)).2
            = (Graph.ComputeRepulsiveForce sqrt clock heap1 st1.2 a b).2
          rw [ht, Graph.ComputeRepulsiveForce_relocate sqrt clock address heap1 heap2 hheap]
        · show ForceMap.Mirrors address
            (ForceMap.pushBack st2.1 (address a)
              (Graph.ComputeRepulsiveForce sqrt clock heap2 st2.2 (address a) (address b)).1)
            (ForceMap.pushBack st1.1 a (Graph.ComputeRepulsiveForce sqrt clock heap1 st1.2 a b).1)
          rw [ht, Graph.ComputeRepulsiveForce_relocate sqrt clock address heap1 heap2 hheap]
          exact ForceMap.mirrors_pushBack address hinj _ _ h a _
  have hrep : ∀ (outer inner : List NodePtr) (st2 st1 : ForceMap K × Nat),
      st2.2 = st1.2 → ForceMap.Mirrors address st2.1 st1.1 →
      ((outer.map address).foldl
            (fun st node1 => Graph.repulsionRow sqrt clock heap2 (inner.map address) node1 st)
            st2).2
          = (outer.foldl
            (fun st node1 => Graph.repulsionRow sqrt clock heap1 inner node1 st) st1).2
        ∧ ForceMap.Mirrors address
          ((outer.map address).foldl
            (fun st node1 => Graph.repulsionRow sqrt clock heap2 (inner.map address) node1 st)
            st2).1
          (outer.foldl
            (fun st node1 => Graph.repulsionRow sqrt clock heap1 inner node1 st) st1).1 := by
    intro outer inner
    induction outer with
    | nil => intro st2 st1 ht h; exact ⟨ht, h⟩
    | cons a rest ih =>
      intro st2 st1 ht h
      simp only [List.map_cons, List.foldl_cons]
      exact ih _ _ (hrow inner a st2 st1 ht h).1 (hrow inner a st2 st1 ht h).2
  have hatt : ∀ (links : List Link) (st2 st1 : ForceMap K × Nat),
      st2.2 = st1.2 → ForceMap.Mirrors address st2.1 st1.1 →
      ForceMap.Mirrors address
        (Graph.attractionPass sqrt clock heap2
          (links.map (fun l => ⟨address l._first, address l._second⟩)) st2).1
        (Graph.attractionPass sqrt clock heap1 links st1).1 := by
    intro links
    induction links with
    | nil => intro st2 st1 _ h; exact h
    | cons l rest ih =>
      intro st2 st1 ht h
      simp only [Graph.attractionPass, List.map_cons, List.foldl_cons, Link.GetFirst,
        Link.GetSecond] at ih ⊢
      rw [ht, Graph.ComputeAttractionForce_relocate sqrt clock address heap1 heap2 hheap]
      apply ih
      · rfl
      · exact ForceMap.mirrors_pushBack address hinj _ _
          (ForceMap.mirrors_pushBack address hinj _ _ h _ _) _ _
  have h0 := hinit g._nodes [] [] ⟨ForceMap.ordered_nil, ForceMap.ordered_nil, fun _ => rfl⟩
  have h1 := hrep g._nodes g._nodes
    ((g._nodes.map address).foldl (fun m node1 => ForceMap.assignEmpty m node1) [], 0)
    (g._nodes.foldl (fun m node1 => ForceMap.assignEmpty m node1) [], 0) rfl h0
  exact hatt g._links _ _ h1.1 h1.2

/-- One step does to a node what it does to the same node of the same graph at other
addresses, under the same clock readings. -/
theorem Graph.Update_relocate (sqrt : K → K) (clock : Clock K)
    (address : NodePtr → NodePtr) (hinj : Function.Injective address) (g : Graph)
    (heap1 heap2 : Heap K) (hheap : ∀ p, heap2 (address p) = heap1 p) (p : NodePtr) :
    Graph.Update sqrt clock (g.relocate address) heap2 (address p)
      = Graph.Update sqrt clock g heap1 p := by
  rw [Graph.Update_apply, Graph.Update_apply, hheap p,
    (Graph.nodeForces_relocate sqrt clock address hinj g heap1 heap2 hheap).2.2 p]

theorem Example.swapAddresses_swapAddresses (p : NodePtr) :
    Example.swapAddresses (Example.swapAddresses p) = p := by
  unfold Example.swapAddresses
  by_cases h0 : p = 0
  · simp [h0]
  · by_cases h1 : p = 1
    · simp [h1]
    · simp [h0, h1]

theorem Example.swapAddresses_injective : Function.Injective Example.swapAddresses :=
  Function.LeftInverse.injective Example.swapAddresses_swapAddresses

set_option maxRecDepth 20000

set_option exponentiation.threshold 2000

/-- C13, amended: two runs of any number of steps on the same node and link sequences,
whose nodes may be allocated at different addresses (so that the force map of
`Graph::Update` is walked in a different order), from the same node positions and under
the same clock readings, give every node the same position after every step, in any
arithmetic, binary32 included: the positions after a step are a function of the
positions before it, the node and link sequences and the clock readings of that
step. -/
theorem Update_deterministic (sqrt : K → K) (g : Graph) (address : NodePtr → NodePtr)
    (hinj : Function.Injective address) (clocks1 clocks2 : Nat → Clock K)
    (hclocks : ∀ n k, clocks1 n k = clocks2 n k) (heap1 heap2 : Heap K)
    (hheap : ∀ p, heap2 (address p) = heap1 p) (n : Nat) (p : NodePtr) :
    Graph.UpdateN sqrt clocks2 (g.relocate address) n heap2 (address p)
      = Graph.UpdateN sqrt clocks1 g n heap1 p := by
  have hc : clocks2 = clocks1 := funext (fun i => funext (fun k => (hclocks i k).symm))
  subst hc
  induction n generalizing p with
  | zero => exact hheap p
  | succ k ih =>
    simp only [Graph.UpdateN]
    exact Graph.Update_relocate sqrt (clocks2 k) address hinj g _ _ (fun q => ih q) p

/-- Witness of the amended C13 in binary32: two steps, under the clock that reads
1, 2, 3, ..., on two linked nodes 50 apart, and on the same graph with the addresses of
the two nodes exchanged; the node compared is moved by the steps. -/
theorem Update_deterministic_witness :
    Function.Injective Example.swapAddresses
      ∧ Graph.UpdateN Binary32.sqrt (fun _ => Example.tickingClock)
          (Graph.relocate Example.swapAddresses ⟨[0, 1], [⟨0, 1⟩]⟩) 2
          (fun p => Example.pairHeap (50 : Binary32) (Example.swapAddresses p))
          (Example.swapAddresses 0)
        = Graph.UpdateN Binary32.sqrt (fun _ => Example.tickingClock) ⟨[0, 1], [⟨0, 1⟩]⟩ 2
          (Example.pairHeap (50 : Binary32)) 0
      ∧ (Graph.UpdateN Binary32.sqrt (fun _ => Example.tickingClock) ⟨[0, 1], [⟨0, 1⟩]⟩ 2
          (Example.pairHeap (50 : Binary32)) 0).GetPosition
        ≠ (Example.pairHeap (50 : Binary32) 0).GetPosition := by
  refine ⟨Example.swapAddresses_injective, ?_, by decide⟩
  exact Update_deterministic Binary32.sqrt ⟨[0, 1], [⟨0, 1⟩]⟩ Example.swapAddresses
    Example.swapAddresses_injective
    (fun _ => Example.tickingClock) (fun _ => Example.tickingClock) (fun _ _ => rfl)
    (Example.pairHeap (50 : Binary32))
    (fun p => Example.pairHeap (50 : Binary32) (Example.swapAddresses p))
    (fun p => congrArg (Example.pairHeap (50 : Binary32))
      (Example.swapAddresses_swapAddresses p))
    2 0

end Determinism

section OrderExamples

theorem Example.not_near_swapped :
    ¬ (distance Real.sqrt (Example.pairHeap (50 : ℝ) 1).position
          (Example.pairHeap (50 : ℝ) 0).position > 100
        ∨ distance Real.sqrt (Example.pairHeap (50 : ℝ) 1).position
          (Example.pairHeap (50 : ℝ) 0).position ≤ Graph.FLT_EPSILON) := by
  rw [distance_comm]; exact Example.not_near

/-- The summed forces on two unlinked nodes at (0, 0) and (50, 0) when the clock reads
1 and then 2: (-100, 0) and (200, 0). -/
theorem Example.total_pair_ticking :
    ForceMap.total (Graph.nodeForces Real.sqrt Example.tickingClock ⟨[0, 1], []⟩
        (Example.pairHeap (50 : ℝ))) 0 = ⟨-100, 0⟩
      ∧ ForceMap.total (Graph.nodeForces Real.sqrt Example.tickingClock ⟨[0, 1], []⟩
        (Example.pairHeap (50 : ℝ))) 1 = ⟨200, 0⟩ := by
  have hp := Graph.total_nodeForces_pair Real.sqrt Example.tickingClock
    (Example.pairHeap (50 : ℝ)) 0 1 (by decide)
  have ht : (Graph.ComputeRepulsiveForce Real.sqrt Example.tickingClock
      (Example.pairHeap (50 : ℝ)) 0 0 1).2 = 1 := by
    rw [Graph.ComputeRepulsiveForce_snd, if_neg Example.not_near]
  have hc0 : (Example.tickingClock 0 : ℝ) = 1 := by simp [Example.tickingClock]
  have hc1 : (Example.tickingClock 1 : ℝ) = 2 := by simp [Example.tickingClock]; norm_num
  constructor
  · rw [hp.1, Graph.ComputeRepulsiveForce_fst, Example.repulsion_zero_one, hc0]
    ext
    · simp
    · simp
  · rw [hp.2, ht, Graph.ComputeRepulsiveForce_fst, Reference.repulsiveForce_swap,
      Example.repulsion_zero_one, hc1]
    ext
    · simp; norm_num
    · simp

/-- What the code does on the same two nodes taken in the other order, when the clock
reads 1 and then 2: the node at the origin now gets the second reading and moves to
(-200, 0). -/
theorem Example.update_pair_swapped_ticking :
    (Graph.Update Real.sqrt Example.tickingClock ⟨[1, 0], []⟩
        (Example.pairHeap (50 : ℝ)) 0).position = ⟨-200, 0⟩ := by
  have hp := Graph.total_nodeForces_pair Real.sqrt Example.tickingClock
    (Example.pairHeap (50 : ℝ)) 1 0 (by decide)
  have ht : (Graph.ComputeRepulsiveForce Real.sqrt Example.tickingClock
      (Example.pairHeap (50 : ℝ)) 0 1 0).2 = 1 := by
    rw [Graph.ComputeRepulsiveForce_snd, if_neg Example.not_near_swapped]
  have hc1 : (Example.tickingClock 1 : ℝ) = 2 := by simp [Example.tickingClock]; norm_num
  rw [Graph.Update_position isSqrt_real, hp.2, ht, Graph.ComputeRepulsiveForce_fst,
    Example.repulsion_zero_one, hc1, Example.pairHeap_zero]
  have hv : (⟨-(100 * 2), 0⟩ : Vector2f ℝ) = ⟨-200, 0⟩ := by
    ext
    · simp; norm_num
    · simp
  rw [hv, Example.clamp_horizontal _ (by norm_num)]
  ext <;> simp

end OrderExamples

section OrderClaims

variable {K : Type} [LinearOrderedField K]

/-- C16, as stated, fails on the code: on two unlinked nodes at (0, 0) and (50, 0),
under a clock that reads 1 at the first force and 2 at the second, the node at the
origin ends at (-100, 0) when it comes first in the node sequence and at (-200, 0) when
it comes second. -/
theorem order_irrelevant_counterexample :
    List.Perm ([1, 0] : List NodePtr) [0, 1]
      ∧ (Graph.Update Real.sqrt Example.tickingClock ⟨[1, 0], []⟩
          (Example.pairHeap (50 : ℝ)) 0).GetPosition
        ≠ (Graph.Update Real.sqrt Example.tickingClock ⟨[0, 1], []⟩
          (Example.pairHeap (50 : ℝ)) 0).GetPosition := by
  refine ⟨List.Perm.swap 0 1 [], ?_⟩
  simp only [Node.GetPosition]
  rw [Example.update_pair_swapped_ticking, Example.update_pair_ticking.1]
  intro h
  have e := congrArg Vector2f.x h
  norm_num at e

/-- C16, amended: when every read of the clock during the step returns the same
`deltaTime`, one step on a graph of pairwise-distinct nodes whose link endpoints are
nodes of the graph leaves every node where the step on any graph with the node sequence
permuted and the link sequence permuted leaves it. -/
theorem order_irrelevant_of_const_clock {sqrt : K → K} (hs : IsSqrt sqrt) (deltaTime : K)
    (g g2 : Graph) (heap : Heap K) (hnd : g._nodes.Nodup)
    (hl : ∀ l ∈ g._links, l._first ∈ g._nodes ∧ l._second ∈ g._nodes)
    (hpn : g2._nodes.Perm g._nodes) (hpl : g2._links.Perm g._links) (a : NodePtr) :
    Graph.Update sqrt (Clock.const deltaTime) g2 heap a
      = Graph.Update sqrt (Clock.const deltaTime) g heap a := by
  have hnd2 : g2._nodes.Nodup := hpn.nodup_iff.2 hnd
  apply Node.eq_of_position_eq
  rw [Graph.Update_position hs, Graph.Update_position hs]
  by_cases ha : a ∈ g._nodes
  · rw [Graph.total_nodeForces_const sqrt deltaTime g heap hnd a ha,
      Graph.total_nodeForces_const sqrt deltaTime g2 heap hnd2 a (hpn.mem_iff.2 ha),
      Reference.totalForce_perm sqrt deltaTime g g2 heap hpn hpl]
  · rw [Graph.total_nodeForces_const_of_not_mem sqrt deltaTime g heap hnd a ha
        (fun l hl2 => ⟨fun h => ha (h ▸ (hl l hl2).1), fun h => ha (h ▸ (hl l hl2).2)⟩),
      Graph.total_nodeForces_const_of_not_mem sqrt deltaTime g2 heap hnd2 a
        (fun h => ha (hpn.mem_iff.1 h))
        (fun l hl2 => ⟨fun h => ha (h ▸ (hl l (hpl.mem_iff.1 hl2)).1),
          fun h => ha (h ▸ (hl l (hpl.mem_iff.1 hl2)).2)⟩)]

/-- Witness of the amended C16 over the reals: the scenario graph with its nodes and
its links both reversed, every clock reading equal to 1/10. -/
theorem order_irrelevant_of_const_clock_witness :
    Graph.Update Real.sqrt (Clock.const (1 / 10)) ⟨[2, 1, 0], [⟨1, 2⟩, ⟨0, 1⟩]⟩
        (Example.chainHeap : Heap ℝ) 0
      = Graph.Update Real.sqrt (Clock.const (1 / 10)) Example.chainGraph
        (Example.chainHeap : Heap ℝ) 0 :=
  order_irrelevant_of_const_clock isSqrt_real (1 / 10) Example.chainGraph
    ⟨[2, 1, 0], [⟨1, 2⟩, ⟨0, 1⟩]⟩ Example.chainHeap (by decide) (by decide)
    (List.reverse_perm [0, 1, 2]) (List.reverse_perm [(⟨0, 1⟩ : Link), ⟨1, 2⟩]) 0

/-- What the code does to the centroid under a ticking clock: on two unlinked nodes at
(0, 0) and (50, 0), under a clock that reads 1 at the first force and 2 at the second,
the summed forces (-100, 0) and (200, 0) are within the speed cap and the displacements
add up to (100, 0), not to zero. -/
theorem Example.centroid_moves :
    (∀ a ∈ ([0, 1] : List NodePtr),
        distance Real.sqrt ⟨0, 0⟩
          (ForceMap.total (Graph.nodeForces Real.sqrt Example.tickingClock ⟨[0, 1], []⟩
            (Example.pairHeap (50 : ℝ))) a) ≤ Node.MAX_VELOCITY_MAGNITUDE)
      ∧ (([0, 1] : List NodePtr).map (fun a =>
          (Graph.Update Real.sqrt Example.tickingClock ⟨[0, 1], []⟩
              (Example.pairHeap (50 : ℝ)) a).GetPosition
            - (Example.pairHeap (50 : ℝ) a).GetPosition)).sum ≠ 0 := by
  constructor
  · intro a ha
    unfold Node.MAX_VELOCITY_MAGNITUDE
    rcases List.mem_cons.1 ha with h | h
    · subst h
      rw [Example.total_pair_ticking.1, Example.length_horizontal]
      norm_num
    · have h1 : a = 1 := by simpa using h
      subst h1
      rw [Example.total_pair_ticking.2, Example.length_horizontal]
      norm_num
  · simp only [List.map_cons, List.map_nil, List.sum_cons, List.sum_nil, Node.GetPosition]
    rw [Example.update_pair_ticking.1, Example.update_pair_ticking.2, Example.pairHeap_zero,
      Example.pairHeap_one]
    intro h
    have e := congrArg Vector2f.x h
    simp only [Vector2f.add_x, Vector2f.sub_x, Vector2f.zero_x] at e
    norm_num at e

/-- C19, as stated, fails on the code, for two reasons.  The clock is read at every
force: on two unlinked nodes at (0, 0) and (50, 0), under a clock that reads 1 at the
first force and 2 at the second, the summed forces (-100, 0) and (200, 0) are within the
speed cap and the displacements add up to (100, 0), not to zero.  And the arithmetic is
binary32: with every clock reading 0.1 the linked nodes at (0.1, 0) and (300, 0) collect
the forces (0, 0), (10, 0) and (0, 0), (-10, 0), within the speed cap, and move to
(10.10000038..., 0) and (290, 0), displacements that do not add up to zero. -/
theorem centroid_counterexample :
    ((∀ a ∈ ([0, 1] : List NodePtr),
          distance Real.sqrt ⟨0, 0⟩
            (ForceMap.total (Graph.nodeForces Real.sqrt Example.tickingClock ⟨[0, 1], []⟩
              (Example.pairHeap (50 : ℝ))) a) ≤ Node.MAX_VELOCITY_MAGNITUDE)
        ∧ (([0, 1] : List NodePtr).map (fun a =>
            (Graph.Update Real.sqrt Example.tickingClock ⟨[0, 1], []⟩
                (Example.pairHeap (50 : ℝ)) a).GetPosition
              - (Example.pairHeap (50 : ℝ) a).GetPosition)).sum ≠ 0)
      ∧ (∀ a ∈ ([0, 1] : List NodePtr),
        distance Binary32.sqrt ⟨0, 0⟩
          (ForceMap.total (Graph.nodeForces Binary32.sqrt (Clock.const 0.1)
            ⟨[0, 1], [⟨0, 1⟩]⟩ (Example.rowHeap 0.1 300)) a)
          ≤ Node.MAX_VELOCITY_MAGNITUDE)
      ∧ ForceMap.find (Graph.nodeForces Binary32.sqrt (Clock.const 0.1) ⟨[0, 1], [⟨0, 1⟩]⟩
          (Example.rowHeap 0.1 300)) 0 = [⟨0, 0⟩, ⟨10, 0⟩]
      ∧ ForceMap.find (Graph.nodeForces Binary32.sqrt (Clock.const 0.1) ⟨[0, 1], [⟨0, 1⟩]⟩
          (Example.rowHeap 0.1 300)) 1 = [⟨0, 0⟩, ⟨-10, 0⟩]
      ∧ (Graph.Update Binary32.sqrt (Clock.const 0.1) ⟨[0, 1], [⟨0, 1⟩]⟩
          (Example.rowHeap 0.1 300) 0).GetPosition = ⟨Binary32.dyadic 5295309 (-19), 0⟩
      ∧ (Graph.Update Binary32.sqrt (Clock.const 0.1) ⟨[0, 1], [⟨0, 1⟩]⟩
          (Example.rowHeap 0.1 300) 1).GetPosition = ⟨290, 0⟩
      ∧ ((Binary32.dyadic 5295309 (-19)).toRat - (0.1 : Binary32).toRat)
          + ((290 : Binary32).toRat - (300 : Binary32).toRat) ≠ 0 :=
  ⟨Example.centroid_moves, Example.displacements_rounded_cap,
    Example.displacements_rounded⟩

/-- C19, amended: in exact arithmetic, when every read of the clock during the step
returns the same `deltaTime`, on a graph of pairwise-distinct nodes whose link endpoints
are nodes of the graph, if no node's summed force is longer than
`MAX_VELOCITY_MAGNITUDE = 300`, the displacements of the nodes add up to the zero
vector, and the sum of the node positions is the same after the step as before it. -/
theorem centroid_conserved_of_const_clock {sqrt : K → K} (hs : IsSqrt sqrt) (deltaTime : K)
    (g : Graph) (heap : Heap K) (hnd : g._nodes.Nodup)
    (hl : ∀ l ∈ g._links, l._first ∈ g._nodes ∧ l._second ∈ g._nodes)
    (hcap : ∀ a ∈ g._nodes,
      distance sqrt ⟨0, 0⟩
        (ForceMap.total (Graph.nodeForces sqrt (Clock.const deltaTime) g heap) a)
        ≤ Node.MAX_VELOCITY_MAGNITUDE) :
    (g._nodes.map (fun a =>
        (Graph.Update sqrt (Clock.const deltaTime) g heap a).GetPosition
          - (heap a).GetPosition)).sum = 0
      ∧ (g._nodes.map (fun a =>
          (Graph.Update sqrt (Clock.const deltaTime) g heap a).GetPosition)).sum
        = (g._nodes.map (fun a => (heap a).GetPosition)).sum := by
  have hdisp : ∀ a ∈ g._nodes,
      (Graph.Update sqrt (Clock.const deltaTime) g heap a).GetPosition - (heap a).GetPosition
        = Reference.totalForce sqrt deltaTime g heap a := by
    intro a ha
    simp only [Node.GetPosition]
    rw [Graph.Update_position hs, Reference.clamp_of_le sqrt _ (hcap a ha),
      Graph.total_nodeForces_const sqrt deltaTime g heap hnd a ha]
    abel
  have hzero : (g._nodes.map (fun a =>
      (Graph.Update sqrt (Clock.const deltaTime) g heap a).GetPosition
        - (heap a).GetPosition)).sum = 0 := by
    rw [List.map_congr_left hdisp]
    exact Reference.sum_totalForce sqrt deltaTime g heap hnd hl
  refine ⟨hzero, ?_⟩
  have hsplit : (g._nodes.map (fun a =>
      (Graph.Update sqrt (Clock.const deltaTime) g heap a).GetPosition)).sum
      = (g._nodes.map (fun a => (heap a).GetPosition)).sum
        + (g._nodes.map (fun a =>
          (Graph.Update sqrt (Clock.const deltaTime) g heap a).GetPosition
            - (heap a).GetPosition)).sum := by
    rw [← sum_map_add_map]
    congr 1
    apply List.map_congr_left
    intro a _
    abel
  rw [hsplit, hzero, add_zero]

/-- Witness of the amended C19 over the reals: two unlinked nodes 50 apart, every clock
reading equal to 1; the summed forces are (-100, 0) and (100, 0). -/
theorem centroid_conserved_of_const_clock_witness :
    (([0, 1] : List NodePtr).map (fun a =>
        (Graph.Update Real.sqrt (Clock.const 1) ⟨[0, 1], []⟩
          (Example.pairHeap (50 : ℝ)) a).GetPosition)).sum
      = (([0, 1] : List NodePtr).map (fun a => (Example.pairHeap (50 : ℝ) a).GetPosition)).sum :=
  (centroid_conserved_of_const_clock isSqrt_real 1 ⟨[0, 1], []⟩ (Example.pairHeap (50 : ℝ))
    (by decide) (by simp)
    (by
      intro a ha
      unfold Node.MAX_VELOCITY_MAGNITUDE
      rw [Graph.total_nodeForces_const Real.sqrt 1 ⟨[0, 1], []⟩ (Example.pairHeap (50 : ℝ))
        (by decide) a ha]
      rcases List.mem_cons.1 ha with h | h
      · subst h
        rw [(Example.totalForce_pair 1).1, Example.length_horizontal]
        norm_num
      · have h1 : a = 1 := by simpa using h
        subst h1
        rw [(Example.totalForce_pair 1).2, length_neg, Example.length_horizontal]
        norm_num)).2

end OrderClaims

/-! ## The end-to-end scenario: three nodes on a line, chain-linked -/

section Chain

variable {K : Type} [LinearOrderedField K]

theorem length_axis {sqrt : K → K} (hs : IsSqrt sqrt) (x : K) :
    distance sqrt ⟨0, 0⟩ (⟨x, 0⟩ : Vector2f K) = |x| := by
  apply distance_eq_of_mul_self hs _ _ (abs_nonneg x)
  simp

theorem distance_axis {sqrt : K → K} (hs : IsSqrt sqrt) (x e : K) (he : 0 ≤ e) :
    distance sqrt (⟨x, 0⟩ : Vector2f K) ⟨x + e, 0⟩ = e := by
  apply distance_eq_of_mul_self hs _ _ he
  simp

/-- The repulsion a node on the x-axis experiences from a node `e` to its right. -/
theorem Reference.repulsiveForce_axis {sqrt : K → K} (hs : IsSqrt sqrt) (dt x e : K)
    (h1 : Graph.FLT_EPSILON < e) (h2 : e ≤ 100) :
    Reference.repulsiveForce sqrt dt (⟨x, 0⟩ : Vector2f K) ⟨x + e, 0⟩
      = ⟨-(200 * ((100 - e) / 100) * dt), 0⟩ := by
  have he : 0 < e := lt_trans FLT_EPSILON_pos h1
  have hd := distance_axis hs x e he.le
  rw [Reference.repulsiveForce_of_mid sqrt dt _ _ (by rw [hd]; exact h1) (by rw [hd]; exact h2),
    hd]
  ext
  · simp only [Vector2f.scale_x, Vector2f.div_x, Vector2f.sub_x]
    field_simp
  · simp

/-- The attraction force of a link from a node on the x-axis to a node `e` to its
right. -/
theorem Reference.attraction_axis {sqrt : K → K} (hs : IsSqrt sqrt) (dt x e : K)
    (h1 : Graph.FLT_EPSILON < e) :
    Reference.attraction sqrt dt (⟨x, 0⟩ : Vector2f K) ⟨x + e, 0⟩
      = ⟨-(200 * (1 / 2) * dt), 0⟩ := by
  have he : 0 < e := lt_trans FLT_EPSILON_pos h1
  have hd := distance_axis hs x e he.le
  rw [Reference.attraction_of_apart sqrt dt _ _ (by rw [hd]; exact h1), hd]
  ext
  · simp only [Vector2f.scale_x, Vector2f.div_x, Vector2f.sub_x]
    field_simp
  · simp

theorem FLT_EPSILON_lt_ten : (Graph.FLT_EPSILON : K) < 10 := by
  unfold Graph.FLT_EPSILON; norm_num

/-- One step of the scenario with every clock reading 1/10: nodes at `10 - d`, `10` and
`10 + d` on the x-axis, with `10 ≤ d < 50`, move to `10 - d2`, `10` and `10 + d2` with
`d2 = 2/5 * d + 30`. -/
theorem Example.chain_step {sqrt : K → K} (hs : IsSqrt sqrt) (heap : Heap K) (d : K)
    (hd1 : 10 ≤ d) (hd2 : d < 50) (h0 : (heap 0).position = ⟨10 - d, 0⟩)
    (h1 : (heap 1).position = ⟨10, 0⟩) (h2 : (heap 2).position = ⟨10 + d, 0⟩) :
    (Graph.Update sqrt (Clock.const (1 / 10)) Example.chainGraph heap 0).position
        = ⟨10 - (2 / 5 * d + 30), 0⟩
      ∧ (Graph.Update sqrt (Clock.const (1 / 10)) Example.chainGraph heap 1).position
        = ⟨10, 0⟩
      ∧ (Graph.Update sqrt (Clock.const (1 / 10)) Example.chainGraph heap 2).position
        = ⟨10 + (2 / 5 * d + 30), 0⟩ := by
  have heps : Graph.FLT_EPSILON < d := lt_of_lt_of_le FLT_EPSILON_lt_ten hd1
  have heps2 : Graph.FLT_EPSILON < d + d := by linarith
  have hnd : Example.chainGraph._nodes.Nodup := by decide
  have e01 : (⟨10, 0⟩ : Vector2f K) = ⟨10 - d + d, 0⟩ := by
    ext
    · simp
    · rfl
  have e02 : (⟨10 + d, 0⟩ : Vector2f K) = ⟨10 - d + (d + d), 0⟩ := by
    ext
    · simp only []; ring
    · rfl
  have r01 : Reference.repulsiveForce sqrt (1 / 10) (heap 0).position (heap 1).position
      = ⟨-(200 * ((100 - d) / 100) * (1 / 10)), 0⟩ := by
    rw [h0, h1, e01]
    exact Reference.repulsiveForce_axis hs _ _ _ heps (by linarith)
  have r02 : Reference.repulsiveForce sqrt (1 / 10) (heap 0).position (heap 2).position
      = ⟨-(200 * ((100 - (d + d)) / 100) * (1 / 10)), 0⟩ := by
    rw [h0, h2, e02]
    exact Reference.repulsiveForce_axis hs _ _ _ heps2 (by linarith)
  have r12 : Reference.repulsiveForce sqrt (1 / 10) (heap 1).position (heap 2).position
      = ⟨-(200 * ((100 - d) / 100) * (1 / 10)), 0⟩ := by
    rw [h1, h2]
    exact Reference.repulsiveForce_axis hs _ _ _ heps (by linarith)
  have a01 : Reference.attraction sqrt (1 / 10) (heap 0).position (heap 1).position
      = ⟨-(200 * (1 / 2) * (1 / 10)), 0⟩ := by
    rw [h0, h1, e01]
    exact Reference.attraction_axis hs _ _ _ heps
  have a12 : Reference.attraction sqrt (1 / 10) (heap 1).position (heap 2).position
      = ⟨-(200 * (1 / 2) * (1 / 10)), 0⟩ := by
    rw [h1, h2]
    exact Reference.attraction_axis hs _ _ _ heps
  have f0 : List.filter (fun b => decide (b ≠ 0)) ([0, 1, 2] : List NodePtr) = [1, 2] := by
    decide
  have f1 : List.filter (fun b => decide (b ≠ 1)) ([0, 1, 2] : List NodePtr) = [0, 2] := by
    decide
  have f2 : List.filter (fun b => decide (b ≠ 2)) ([0, 1, 2] : List NodePtr) = [0, 1] := by
    decide
  have l10 : List.filter (fun l : Link => decide (l._first = 0)) [⟨0, 1⟩, ⟨1, 2⟩]
      = [⟨0, 1⟩] := by decide
  have l11 : List.filter (fun l : Link => decide (l._first = 1)) [⟨0, 1⟩, ⟨1, 2⟩]
      = [⟨1, 2⟩] := by decide
  have l12 : List.filter (fun l : Link => decide (l._first = 2)) [⟨0, 1⟩, ⟨1, 2⟩]
      = [] := by decide
  have l20 : List.filter (fun l : Link => decide (l._second = 0)) [⟨0, 1⟩, ⟨1, 2⟩]
      = [] := by decide
  have l21 : List.filter (fun l : Link => decide (l._second = 1)) [⟨0, 1⟩, ⟨1, 2⟩]
      = [⟨0, 1⟩] := by decide
  have l22 : List.filter (fun l : Link => decide (l._second = 2)) [⟨0, 1⟩, ⟨1, 2⟩]
      = [⟨1, 2⟩] := by decide
  have t0 : Reference.totalForce sqrt (1 / 10) Example.chainGraph heap 0
      = ⟨3 / 5 * d - 30, 0⟩ := by
    simp only [Reference.totalForce, Example.chainGraph, f0, l10, l20, List.map_cons,
      List.map_nil, List.sum_cons, List.sum_nil, r01, r02, a01]
    ext
    · simp only [Vector2f.add_x, Vector2f.neg_x, Vector2f.zero_x]; ring
    · simp
  have t1 : Reference.totalForce sqrt (1 / 10) Example.chainGraph heap 1 = ⟨0, 0⟩ := by
    simp only [Reference.totalForce, Example.chainGraph, f1, l11, l21, List.map_cons,
      List.map_nil, List.sum_cons, List.sum_nil, r12, a01, a12,
      Reference.repulsiveForce_swap sqrt (1 / 10) (heap 0).position (heap 1).position, r01]
    ext
    · simp only [Vector2f.add_x, Vector2f.neg_x, Vector2f.zero_x]; ring
    · simp
  have t2 : Reference.totalForce sqrt (1 / 10) Example.chainGraph heap 2
      = ⟨30 - 3 / 5 * d, 0⟩ := by
    simp only [Reference.totalForce, Example.chainGraph, f2, l12, l22, List.map_cons,
      List.map_nil, List.sum_cons, List.sum_nil, a12,
      Reference.repulsiveForce_swap sqrt (1 / 10) (heap 0).position (heap 2).position,
      Reference.repulsiveForce_swap sqrt (1 / 10) (heap 1).position (heap 2).position,
      r02, r12]
    ext
    · simp only [Vector2f.add_x, Vector2f.neg_x, Vector2f.zero_x]; ring
    · simp
  have c0 : Reference.clamp sqrt (⟨3 / 5 * d - 30, 0⟩ : Vector2f K) = ⟨3 / 5 * d - 30, 0⟩ :=
    Reference.clamp_of_le sqrt _ (by
      rw [length_axis hs, abs_le]; constructor <;> linarith)
  have c1 : Reference.clamp sqrt (⟨0, 0⟩ : Vector2f K) = ⟨0, 0⟩ :=
    Reference.clamp_of_le sqrt _ (by rw [length_axis hs, abs_zero]; norm_num)
  have c2 : Reference.clamp sqrt (⟨30 - 3 / 5 * d, 0⟩ : Vector2f K) = ⟨30 - 3 / 5 * d, 0⟩ :=
    Reference.clamp_of_le sqrt _ (by
      rw [length_axis hs, abs_le]; constructor <;> linarith)
  refine ⟨?_, ?_, ?_⟩
  · rw [Graph.Update_position hs,
      Graph.total_nodeForces_const sqrt _ _ heap hnd 0 (by decide), t0, c0, h0]
    ext
    · simp only [Vector2f.add_x]; ring
    · simp
  · rw [Graph.Update_position hs,
      Graph.total_nodeForces_const sqrt _ _ heap hnd 1 (by decide), t1, c1, h1]
    ext <;> simp
  · rw [Graph.Update_position hs,
      Graph.total_nodeForces_const sqrt _ _ heap hnd 2 (by decide), t2, c2, h2]
    ext
    · simp only [Vector2f.add_x]; ring
    · simp

/-- After any number of steps of the scenario with every clock reading 1/10 the nodes
are at `10 - d`, `10` and `10 + d` on the x-axis for some `d` with `10 ≤ d < 50`. -/
theorem Example.chain_run {sqrt : K → K} (hs : IsSqrt sqrt) (n : Nat) :
    ∃ d : K, 10 ≤ d ∧ d < 50
      ∧ (Graph.UpdateN sqrt (fun _ => Clock.const (1 / 10)) Example.chainGraph n
          (Example.chainHeap : Heap K) 0).position = ⟨10 - d, 0⟩
      ∧ (Graph.UpdateN sqrt (fun _ => Clock.const (1 / 10)) Example.chainGraph n
          (Example.chainHeap : Heap K) 1).position = ⟨10, 0⟩
      ∧ (Graph.UpdateN sqrt (fun _ => Clock.const (1 / 10)) Example.chainGraph n
          (Example.chainHeap : Heap K) 2).position = ⟨10 + d, 0⟩ := by
  induction n with
  | zero =>
    refine ⟨10, le_rfl, by norm_num, ?_, ?_, ?_⟩
    · show (⟨0, 0⟩ : Vector2f K) = ⟨10 - 10, 0⟩
      ext
      · simp
      · rfl
    · rfl
    · show (⟨20, 0⟩ : Vector2f K) = ⟨10 + 10, 0⟩
      ext
      · simp only []; norm_num
      · rfl
  | succ n ih =>
    obtain ⟨d, hd1, hd2, h0, h1, h2⟩ := ih
    have hstep := Example.chain_step hs _ d hd1 hd2 h0 h1 h2
    refine ⟨2 / 5 * d + 30, by linarith, by linarith, ?_, ?_, ?_⟩
    · rw [Graph.UpdateN]; exact hstep.1
    · rw [Graph.UpdateN]; exact hstep.2.1
    · rw [Graph.UpdateN]; exact hstep.2.2

end Chain

section ChainClaims

variable {K : Type} [LinearOrderedField K]

/-- C12 (x-order is preserved in the end-to-end scenario): for the graph with the nodes
n1 = (0, 0), n2 = (10, 0), n3 = (20, 0) and the links (n1, n2), (n2, n3), after any
number of steps in which every clock reading is the `deltaTime` 0.1, the x-coordinates
satisfy `x(n1) < x(n2) < x(n3)`. -/
theorem x_order_preserved {sqrt : K → K} (hs : IsSqrt sqrt) (n : Nat) :
    (Graph.UpdateN sqrt (fun _ => Clock.const (1 / 10)) Example.chainGraph n
          (Example.chainHeap : Heap K) 0).GetPosition.x
        < (Graph.UpdateN sqrt (fun _ => Clock.const (1 / 10)) Example.chainGraph n
          (Example.chainHeap : Heap K) 1).GetPosition.x
      ∧ (Graph.UpdateN sqrt (fun _ => Clock.const (1 / 10)) Example.chainGraph n
          (Example.chainHeap : Heap K) 1).GetPosition.x
        < (Graph.UpdateN sqrt (fun _ => Clock.const (1 / 10)) Example.chainGraph n
          (Example.chainHeap : Heap K) 2).GetPosition.x := by
  obtain ⟨d, hd1, _, h0, h1, h2⟩ := Example.chain_run hs (K := K) n
  simp only [Node.GetPosition]
  rw [h0, h1, h2]
  constructor
  · show 10 - d < 10
    linarith
  · show (10 : K) < 10 + d
    linarith

/-- Witness of C12 over the reals, after seven steps. -/
theorem x_order_preserved_witness :
    (Graph.UpdateN Real.sqrt (fun _ => Clock.const (1 / 10)) Example.chainGraph 7
          (Example.chainHeap : Heap ℝ) 0).GetPosition.x
        < (Graph.UpdateN Real.sqrt (fun _ => Clock.const (1 / 10)) Example.chainGraph 7
          (Example.chainHeap : Heap ℝ) 1).GetPosition.x
      ∧ (Graph.UpdateN Real.sqrt (fun _ => Clock.const (1 / 10)) Example.chainGraph 7
          (Example.chainHeap : Heap ℝ) 1).GetPosition.x
        < (Graph.UpdateN Real.sqrt (fun _ => Clock.const (1 / 10)) Example.chainGraph 7
          (Example.chainHeap : Heap ℝ) 2).GetPosition.x :=
  x_order_preserved isSqrt_real 7

end ChainClaims

/-! ## Link endpoints and the node vector -/

namespace Loader

variable {K : Type} [Zero K]

theorem nodeAt_mem (nodes : List NodePtr) (i : Option Int) (p : NodePtr)
    (h : nodeAt nodes i = some p) : p ∈ nodes := by
  cases i with
  | none => simp [nodeAt] at h
  | some z =>
    unfold nodeAt at h
    simp only [] at h
    split_ifs at h
    exact List.get?_mem h

/-- Every link the link loop builds joins two elements of `nodes`. -/
theorem readLinks_endpoints (nodes : List NodePtr) (fuel : Nat) (s : IStream)
    (links : List Link) (x : IStream × List Link)
    (hlinks : ∀ l ∈ links, l._first ∈ nodes ∧ l._second ∈ nodes)
    (h : readLinks nodes fuel s links = Outcome.returned x) :
    ∀ l ∈ x.2, l._first ∈ nodes ∧ l._second ∈ nodes := by
  induction fuel generalizing s links with
  | zero => simp [readLinks] at h
  | succ f ih =>
    rw [readLinks] at h
    split_ifs at h with heof
    · simp only [Outcome.returned.injEq] at h
      subst h
      exact hlinks
    · cases h1 : s.readInt with
      | mk rf s1 =>
        cases h2 : s1.readInt with
        | mk rs s2 =>
          rw [h1] at h
          simp only [h2] at h
          cases ha : nodeAt nodes rf with
          | none => rw [ha] at h; simp at h
          | some first =>
            cases hb : nodeAt nodes rs with
            | none => rw [ha, hb] at h; simp at h
            | some second =>
              rw [ha, hb] at h
              simp only [] at h
              refine ih s2 _ ?_ h
              intro l hl
              rcases List.mem_append.1 hl with hl1 | hl1
              · exact hlinks l hl1
              · rw [List.mem_singleton.1 hl1]
                exact ⟨nodeAt_mem nodes rf first ha, nodeAt_mem nodes rs second hb⟩

/-- When the loader returns, it has appended nodes and links to the graph, and every
link it has appended joins two of the nodes it has appended. -/
theorem readGraph_endpoints (strtof : ℚ → K × Bool) (alloc : Nat → NodePtr)
    (stream : IStream) (graph : Graph)
    (heap : Heap K) (loaded : Loaded K)
    (h : readGraph strtof alloc stream graph heap = Outcome.returned loaded) :
    ∃ (nodes : List NodePtr) (links : List Link),
      loaded.graph = ⟨graph._nodes ++ nodes, graph._links ++ links⟩
        ∧ ∀ l ∈ links, l._first ∈ nodes ∧ l._second ∈ nodes := by
  unfold readGraph at h
  cases hs : stream.readSize with
  | mk count s1 =>
    rw [hs] at h
    cases count with
    | none => simp at h
    | some n =>
      simp only [] at h
      cases hr : readNodes strtof alloc n s1 heap [] with
      | returned r =>
        rw [hr] at h
        simp only [] at h
        cases hl : readLinks r.nodes (r.stream.fields.length + 1) r.stream [] with
        | returned x =>
          rw [hl] at h
          simp only [Outcome.returned.injEq] at h
          subst h
          refine ⟨r.nodes, x.2, ?_, ?_⟩
          · simp [AddNodes_eq, AddLinks_eq]
          · exact readLinks_endpoints r.nodes _ r.stream [] x (by simp) hl
        | undefined => rw [hl] at h; simp at h
        | outOfFuel => rw [hl] at h; simp at h
      | undefined => rw [hr] at h; simp at h
      | outOfFuel => rw [hr] at h; simp at h

end Loader

section ReachableClaims

variable {K : Type} [Add K] [Sub K] [Mul K] [Div K] [Neg K] [Zero K] [One K] [LT K] [LE K]
  [DecidableRel (fun a b : K => a < b)] [DecidableRel (fun a b : K => a ≤ b)]
  [OfNat K (nat_lit 2)] [OfNat K (nat_lit 100)] [OfNat K (nat_lit 200)]
  [OfNat K (nat_lit 300)] [OfNat K (nat_lit 8388608)]

set_option maxRecDepth 20000

set_option exponentiation.threshold 2000

/-- In a graph whose link endpoints are nodes of it, a step leaves every node outside
the node vector as it is, whatever the clock reads and whatever the arithmetic. -/
theorem Graph.Update_of_not_mem (sqrt : K → K) (clock : Clock K) (g : Graph) (heap : Heap K)
    (hinv : g.EndpointsAreNodes) (p : NodePtr) (hp : p ∉ g._nodes) :
    Graph.Update sqrt clock g heap p = heap p := by
  have hnil : ForceMap.find (Graph.nodeForces sqrt clock g heap) p = [] := by
    apply List.eq_nil_iff_forall_not_mem.2
    intro f hf
    exact hp (Graph.forall_find_nodeForces sqrt clock g heap (fun q _ => q ∈ g._nodes)
      (fun _ _ _ ha _ _ => ha) (fun _ l hl => hinv l hl) p f hf)
  rw [Graph.Update_apply, hnil]
  simp [Node.ApplyForces]

/-- The loader on the input `3\n0 0\n10 0\n20 0\n1 2\n2 3`, read into the empty graph
with the `i`-th node allocated at address `i`, returns the chain of three nodes. -/
theorem Example.load_chain :
    ∃ loaded : Loader.Loaded Binary32,
      Loader.readGraph Binary32.strtof id
          (Loader.wellFormedInput
            [(Field.int 0, Field.int 0), (Field.int 10, Field.int 0),
              (Field.int 20, Field.int 0)]
            [(1, 2), (2, 3)])
          ⟨[], []⟩ (fun _ => ⟨⟨0, 0⟩⟩)
          = Outcome.returned loaded
        ∧ loaded.graph = ⟨[0, 1, 2], [⟨0, 1⟩, ⟨1, 2⟩]⟩ :=
  ⟨_, rfl, rfl⟩

/-- C18, as stated, fails on the code, for two reasons.  `AddLinks` appends whatever
links it is given, so the graph reached from the empty graph by `AddLinks` with one link
from node 0 to node 1 has no node, its link has both endpoints outside the node vector,
and a step in binary32 (every clock reading 1, the endpoints at (0, 0) and (50, 0)) moves
node 0, which is outside the node vector, to (100, 0).  And the loader: on the input
`3\n0 0\n10 0\n20 0\n1 2\n2 3\n` it builds a third link from the uninitialised `first`
and `second`, which is undefined behaviour, after which nothing is promised of the
graph; with such loads counted, and `AddLinks` never called, a graph with a link from
node 9, which is not in the node vector, is reachable. -/
theorem endpoints_invariant_counterexample :
    (Graph.Reachable Binary32.sqrt Binary32.strtof Graph.anyLinks False
          ((⟨[], []⟩ : Graph).AddLinks [⟨0, 1⟩]) (Example.pairHeap (50 : Binary32))
        ∧ ¬ ((⟨[], []⟩ : Graph).AddLinks [⟨0, 1⟩]).EndpointsAreNodes
        ∧ 0 ∉ ((⟨[], []⟩ : Graph).AddLinks [⟨0, 1⟩])._nodes
        ∧ (Graph.Update Binary32.sqrt (Clock.const 1) ((⟨[], []⟩ : Graph).AddLinks [⟨0, 1⟩])
            (Example.pairHeap (50 : Binary32)) 0).GetPosition = ⟨100, 0⟩
        ∧ (Example.pairHeap (50 : Binary32) 0).GetPosition = ⟨0, 0⟩)
      ∧ Loader.readGraph Binary32.strtof id
          (IStream.ofFields
            [Field.int 3, Field.int 0, Field.int 0, Field.int 10, Field.int 0, Field.int 20,
              Field.int 0, Field.int 1, Field.int 2, Field.int 2, Field.int 3] true)
          ⟨[], []⟩ (fun _ => ⟨⟨0, 0⟩⟩) = Outcome.undefined
      ∧ Graph.Reachable Binary32.sqrt Binary32.strtof Graph.linksOfNodes True
          ⟨[0, 1, 2], [⟨0, 1⟩, ⟨1, 2⟩, ⟨9, 0⟩]⟩ (Example.chainHeap : Heap Binary32)
      ∧ ¬ (⟨[0, 1, 2], [⟨0, 1⟩, ⟨1, 2⟩, ⟨9, 0⟩]⟩ : Graph).EndpointsAreNodes := by
  have hload : Loader.readGraph Binary32.strtof id
      (IStream.ofFields
        [Field.int 3, Field.int 0, Field.int 0, Field.int 10, Field.int 0, Field.int 20,
          Field.int 0, Field.int 1, Field.int 2, Field.int 2, Field.int 3] true)
      ⟨[], []⟩ (fun _ => ⟨⟨0, 0⟩⟩) = Outcome.undefined :=
    Loader.readGraph_undefined_of_links Binary32.strtof id ⟨[], []⟩ (fun _ => ⟨⟨0, 0⟩⟩) true
      [(Field.int 0, Field.int 0), (Field.int 10, Field.int 0), (Field.int 20, Field.int 0)]
      (by decide) [Field.int 1, Field.int 2, Field.int 2, Field.int 3] (by decide) rfl
  refine ⟨⟨Graph.Reachable.addLinks _ (Graph.Reachable.empty _) trivial, ?_, ?_, ?_, rfl⟩,
    hload,
    Graph.Reachable.loadUndefined id _ _ _ (Graph.Reachable.empty _) trivial hload, ?_⟩
  · intro h
    have := (h ⟨0, 1⟩ (by simp [Graph.AddLinks])).1
    simp [Graph.AddLinks] at this
  · simp [Graph.AddLinks]
  · decide
  · intro h
    have := (h ⟨9, 0⟩ (by simp)).1
    simp at this

/-- C18, amended: in every state reachable from the empty graph through `AddNodes`,
`AddLinks` called with links that join nodes already in the node vector, calls of the
loader that do not run into undefined behaviour, and the step function, both endpoints
of every link are members of the node vector, and a step, whatever the clock reads,
moves no node outside that vector.  This holds in any arithmetic, binary32 included. -/
theorem endpoints_invariant (sqrt : K → K) (strtof : ℚ → K × Bool) (g : Graph)
    (heap : Heap K) (h : Graph.Reachable sqrt strtof Graph.linksOfNodes False g heap) :
    g.EndpointsAreNodes
      ∧ ∀ (clock : Clock K) (p : NodePtr), p ∉ g._nodes →
        Graph.Update sqrt clock g heap p = heap p := by
  have hinv : g.EndpointsAreNodes := by
    induction h with
    | empty heap => intro l hl; simp at hl
    | addNodes nodes _ ih =>
      intro l hl
      rw [Loader.AddNodes_eq] at hl ⊢
      exact ⟨List.mem_append_left _ (ih l hl).1, List.mem_append_left _ (ih l hl).2⟩
    | addLinks links _ hadm ih =>
      intro l hl
      rw [Loader.AddLinks_eq] at hl ⊢
      rcases List.mem_append.1 hl with h1 | h1
      · exact ih l h1
      · exact hadm l h1
    | load alloc stream loaded _ hload ih =>
      obtain ⟨nodes, links, hg, hlinks⟩ :=
        Loader.readGraph_endpoints strtof alloc stream _ _ loaded hload
      intro l hl
      rw [hg] at hl ⊢
      rcases List.mem_append.1 hl with h1 | h1
      · exact ⟨List.mem_append_left _ (ih l h1).1, List.mem_append_left _ (ih l h1).2⟩
      · exact ⟨List.mem_append_right _ (hlinks l h1).1,
          List.mem_append_right _ (hlinks l h1).2⟩
    | loadUndefined alloc stream g2 heap2 _ hub _ _ => exact absurd hub id
    | step clock _ ih => exact ih
  exact ⟨hinv, fun clock p hp => Graph.Update_of_not_mem sqrt clock g heap hinv p hp⟩

/-- Witness of C18, amended, in binary32: the state reached from the empty graph by
loading the input `3\n0 0\n10 0\n20 0\n1 2\n2 3`, adding the node 7, linking node 0 to
node 7 and taking one step under the ticking clock. -/
theorem endpoints_invariant_witness :
    ∃ loaded : Loader.Loaded Binary32,
      Loader.readGraph Binary32.strtof id
          (Loader.wellFormedInput
            [(Field.int 0, Field.int 0), (Field.int 10, Field.int 0),
              (Field.int 20, Field.int 0)]
            [(1, 2), (2, 3)])
          ⟨[], []⟩ (fun _ => ⟨⟨0, 0⟩⟩)
          = Outcome.returned loaded
        ∧ Graph.Reachable Binary32.sqrt Binary32.strtof Graph.linksOfNodes False
            ((loaded.graph.AddNodes [7]).AddLinks [⟨0, 7⟩])
            (Graph.Update Binary32.sqrt Example.tickingClock
              ((loaded.graph.AddNodes [7]).AddLinks [⟨0, 7⟩]) loaded.heap)
        ∧ ((loaded.graph.AddNodes [7]).AddLinks [⟨0, 7⟩]).EndpointsAreNodes
        ∧ ∀ (clock : Clock Binary32) (p : NodePtr),
            p ∉ ((loaded.graph.AddNodes [7]).AddLinks [⟨0, 7⟩])._nodes →
            Graph.Update Binary32.sqrt clock ((loaded.graph.AddNodes [7]).AddLinks [⟨0, 7⟩])
                (Graph.Update Binary32.sqrt Example.tickingClock
                  ((loaded.graph.AddNodes [7]).AddLinks [⟨0, 7⟩]) loaded.heap) p
              = Graph.Update Binary32.sqrt Example.tickingClock
                  ((loaded.graph.AddNodes [7]).AddLinks [⟨0, 7⟩]) loaded.heap p := by
  obtain ⟨loaded, hload, hg⟩ := Example.load_chain
  have hadm : Graph.linksOfNodes (loaded.graph.AddNodes [7]) [⟨0, 7⟩] := by
    intro l hl
    rw [List.mem_singleton.1 hl, hg]
    exact ⟨by decide, by decide⟩
  have hreach : Graph.Reachable Binary32.sqrt Binary32.strtof Graph.linksOfNodes False
      ((loaded.graph.AddNodes [7]).AddLinks [⟨0, 7⟩])
      (Graph.Update Binary32.sqrt Example.tickingClock
        ((loaded.graph.AddNodes [7]).AddLinks [⟨0, 7⟩]) loaded.heap) :=
    Graph.Reachable.step _ (Graph.Reachable.addLinks _
      (Graph.Reachable.addNodes _
        (Graph.Reachable.load id _ loaded (Graph.Reachable.empty _) hload)) hadm)
  exact ⟨loaded, hload, hreach, endpoints_invariant Binary32.sqrt Binary32.strtof _ _ hreach⟩

end ReachableClaims

end ForceDirectedGraph
